import Mathlib

/-!
# GithubBot: TTL cache, token cipher wrapper and webhook tenant resolution

A shallow embedding of `internal/cache/cache.go`, `internal/utils/crypto.go`
and the tenant step of `internal/github/webhooks.go`, with the properties of
the specification proved over it.

Conventions of the embedding:

* the wall clock read by `time.Now()` is an explicit argument `now`;
* a `time.Time` is an integer count of nanoseconds, a `time.Duration` too;
* a `sync.Map` used from one goroutine is a finite map: a list of
  key/value pairs without repeated keys;
* Go's zero value of the value type is `default` of an `Inhabited` instance.
-/

set_option autoImplicit false

namespace cache

/-! ## Time -/

/-- A `time.Time` instant, in nanoseconds. -/
abbrev Time := Int

/-- A `time.Duration`, in nanoseconds. -/
abbrev Duration := Int

/-- Model of `t.Add(d)`. -/
def Time.Add (t : Time) (d : Duration) : Time := t + d

/-- Model of `t.After(u)`: `t` is strictly later than `u`. -/
def Time.After (t u : Time) : Bool := decide (u < t)

/-! ## sync.Map -/

/-- The contents of a `sync.Map`: key/value pairs, every key at most once. -/
structure SyncMap (K : Type) (α : Type) where
  entries : List (K × α)
  nodup : (entries.map Prod.fst).Nodup

namespace SyncMap

variable {K α : Type} [DecidableEq K]

/-- The zero `sync.Map`, holding nothing. -/
def empty : SyncMap K α := ⟨[], List.nodup_nil⟩

/-- Model of `m.Load(key)`. -/
def Load (m : SyncMap K α) (key : K) : Option α :=
  (m.entries.find? (fun e => decide (e.1 = key))).map Prod.snd

/-- Model of `m.Delete(key)`. -/
def Delete (m : SyncMap K α) (key : K) : SyncMap K α :=
  { entries := m.entries.filter (fun e => decide (e.1 ≠ key))
    nodup := ((List.filter_sublist m.entries).map Prod.fst).nodup m.nodup }

/-- Model of `m.Store(key, value)`. -/
def Store (m : SyncMap K α) (key : K) (value : α) : SyncMap K α :=
  { entries := (key, value) :: m.entries.filter (fun e => decide (e.1 ≠ key))
    nodup := by
      rw [List.map_cons, List.nodup_cons]
      refine ⟨?_, ((List.filter_sublist m.entries).map Prod.fst).nodup m.nodup⟩
      intro hmem
      obtain ⟨e, he, hk⟩ := List.mem_map.1 hmem
      have := (List.mem_filter.1 he).2
      simp at this
      exact this hk }

/-- The loop of `m.Range(f)` over the keys still to visit. The callback gets
the key, the value now stored under it and the map (which it may change),
and answers the new map and whether to go on. A key deleted meanwhile is
skipped. -/
def rangeLoop (f : K → α → SyncMap K α → SyncMap K α × Bool) :
    List K → SyncMap K α → SyncMap K α
  | [], cur => cur
  | k :: ks, cur =>
    match cur.Load k with
    | none => rangeLoop f ks cur
    | some v =>
      match f k v cur with
      | (cur', true) => rangeLoop f ks cur'
      | (cur', false) => cur'

/-- Model of `m.Range(f)`: visits each key present when the call starts. -/
def Range (m : SyncMap K α) (f : K → α → SyncMap K α → SyncMap K α × Bool) :
    SyncMap K α :=
  rangeLoop f (m.entries.map Prod.fst) m

instance [DecidableEq α] : DecidableEq (SyncMap K α) := fun a b =>
  match a, b with
  | ⟨ea, _⟩, ⟨eb, _⟩ =>
    if h : ea = eb then isTrue (by subst h; rfl)
    else isFalse (fun hab => h (congrArg SyncMap.entries hab))

end SyncMap

/-! ## The cache -/

/-- The Go struct `item[V]`. -/
structure item (V : Type) where
  value : V
  expiration : Time
  deriving DecidableEq, Repr

/-- The Go struct `Cache[K, V]`. -/
structure Cache (K : Type) (V : Type) where
  items : SyncMap K (item V)

namespace Cache

variable {K V : Type} [DecidableEq K]

instance [DecidableEq V] : DecidableEq (Cache K V) := fun a b =>
  match a, b with
  | ⟨ia⟩, ⟨ib⟩ =>
    if h : ia = ib then isTrue (by subst h; rfl)
    else isFalse (fun hab => h (congrArg Cache.items hab))

/-- Model of `New`: an empty cache. -/
def New : Cache K V := ⟨SyncMap.empty⟩

/-- Model of `Set`, performed when the clock reads `now`. -/
def Set (c : Cache K V) (now : Time) (key : K) (value : V) (ttl : Duration) :
    Cache K V :=
  ⟨c.items.Store key { value := value, expiration := Time.Add now ttl }⟩

/-- Model of `Get`, performed when the clock reads `now`: the returned
pair and the cache afterwards. -/
def Get [Inhabited V] (c : Cache K V) (now : Time) (key : K) :
    (V × Bool) × Cache K V :=
  match c.items.Load key with
  | none => ((default, false), c)
  | some itm =>
    if Time.After now itm.expiration then
      ((default, false), ⟨c.items.Delete key⟩)
    else
      ((itm.value, true), c)

/-- Model of `Delete`. -/
def Delete (c : Cache K V) (key : K) : Cache K V :=
  ⟨c.items.Delete key⟩

/-- Model of `Cleanup`, performed when the clock reads `now`. -/
def Cleanup (c : Cache K V) (now : Time) : Cache K V :=
  ⟨c.items.Range (fun key itm m =>
    (if Time.After now itm.expiration then m.Delete key else m, true))⟩

/-- One call on a cache, with the clock reading at the call. -/
inductive Op (K V : Type) where
  | set (now : Time) (key : K) (value : V) (ttl : Duration)
  | get (now : Time) (key : K)
  | delete (key : K)
  | cleanup (now : Time)

/-- The cache after one call. -/
def Op.run [Inhabited V] (c : Cache K V) : Op K V → Cache K V
  | .set now key value ttl => c.Set now key value ttl
  | .get now key => (c.Get now key).2
  | .delete key => c.Delete key
  | .cleanup now => c.Cleanup now

/-- Whether the call is a `Set` on `key`. -/
def Op.setsKey (key : K) : Op K V → Bool
  | .set _ k _ _ => decide (k = key)
  | _ => false

/-- The cache after a sequence of calls, first to last. -/
def runOps [Inhabited V] (c : Cache K V) (ops : List (Op K V)) : Cache K V :=
  ops.foldl Op.run c

end Cache

end cache

namespace utils

/-! ## Bytes, strings, errors -/

/-- A byte. -/
abbrev Byte := Fin 256

/-- A Go `string` or `[]byte`: a sequence of bytes. -/
abbrev GoString := List Byte

/-- The bytes of an ASCII literal. -/
def ascii (s : String) : GoString := s.toList.map (fun ch => Fin.ofNat ch.toNat)

/-- The Go `error` values that can reach the callers modelled here. -/
inductive Error where
  /-- `errors.New("invalid key length: must be 32 bytes (raw) or 64 hex chars")` -/
  | invalidKeyLength
  /-- `hex.InvalidByteError` -/
  | hexInvalidByte (b : Byte)
  /-- `hex.ErrLength` -/
  | hexErrLength
  /-- `base64.CorruptInputError` (the offset is not modelled) -/
  | base64CorruptInput
  /-- `errors.New("ciphertext too short")` -/
  | ciphertextTooShort
  /-- `aes.KeySizeError` -/
  | aesKeySize (n : Nat)
  /-- An error of `cipher.NewGCM` -/
  | newGCM
  /-- The error of `AEAD.Open`: message authentication failed -/
  | errOpen
  /-- `io.EOF` -/
  | eof
  /-- `io.ErrUnexpectedEOF` -/
  | errUnexpectedEOF
  /-- `strconv.ErrSyntax` -/
  | strconvSyntax
  /-- `strconv.ErrRange` -/
  | strconvRange
  deriving DecidableEq, Repr

/-- How a Go call ends: it returns its results, or it panics. -/
inductive Outcome (α : Type) where
  | returned (a : α)
  | panicked
  deriving DecidableEq, Repr

instance {ε α : Type} [DecidableEq ε] [DecidableEq α] : DecidableEq (Except ε α) :=
  fun a b =>
    match a, b with
    | .ok x, .ok y =>
      if h : x = y then isTrue (by rw [h]) else isFalse (fun hh => h (Except.ok.inj hh))
    | .error x, .error y =>
      if h : x = y then isTrue (by rw [h]) else isFalse (fun hh => h (Except.error.inj hh))
    | .ok _, .error _ => isFalse (fun hh => by cases hh)
    | .error _, .ok _ => isFalse (fun hh => by cases hh)

/-- The slice expression `s[:hi]`, which panics when `hi` exceeds the length. -/
def sliceTo (s : List Byte) (hi : Nat) : Option (List Byte) :=
  if hi ≤ s.length then some (s.take hi) else none

/-- The slice expression `s[lo:]`, which panics when `lo` exceeds the length. -/
def sliceFrom (s : List Byte) (lo : Nat) : Option (List Byte) :=
  if lo ≤ s.length then some (s.drop lo) else none

/-! ## encoding/hex -/

/-- The value of a hexadecimal digit, of either case. -/
def fromHexChar (c : Byte) : Option Nat :=
  if 48 ≤ c.val ∧ c.val ≤ 57 then some (c.val - 48)
  else if 97 ≤ c.val ∧ c.val ≤ 102 then some (c.val - 97 + 10)
  else if 65 ≤ c.val ∧ c.val ≤ 70 then some (c.val - 65 + 10)
  else none

/-- Model of `hex.DecodeString`: the bytes decoded so far and the error. -/
def hexDecodeString : GoString → List Byte × Option Error
  | p :: q :: rest =>
    match fromHexChar p with
    | none => ([], some (.hexInvalidByte p))
    | some a =>
      match fromHexChar q with
      | none => ([], some (.hexInvalidByte q))
      | some b =>
        match hexDecodeString rest with
        | (out, err) => (Fin.ofNat (a * 16 + b) :: out, err)
  | [p] =>
    match fromHexChar p with
    | none => ([], some (.hexInvalidByte p))
    | some _ => ([], some .hexErrLength)
  | [] => ([], none)

/-! ## encoding/base64, StdEncoding -/

/-- The alphabet of `base64.StdEncoding`. -/
def encodeStd : List Byte :=
  ascii "ABCDEFGHIJKLMNOPQRSTUVWXYZabcdefghijklmnopqrstuvwxyz0123456789+/"

/-- The padding character `=`. -/
def padChar : Byte := 61

/-- The character of a 6-bit value. -/
def encodeChar (v : Nat) : Byte := encodeStd.getD (v % 64) 0

/-- The decode map: the 6-bit value of an alphabet character. -/
def decodeMap (c : Byte) : Option Nat :=
  if encodeStd.indexOf c < 64 then some (encodeStd.indexOf c) else none

/-- Model of `base64.StdEncoding.EncodeToString`. -/
def base64Encode : List Byte → GoString
  | a :: b :: c :: rest =>
    let val := a.val * 65536 + b.val * 256 + c.val
    encodeChar (val / 262144 % 64) :: encodeChar (val / 4096 % 64)
      :: encodeChar (val / 64 % 64) :: encodeChar (val % 64) :: base64Encode rest
  | [a, b] =>
    let val := a.val * 65536 + b.val * 256
    [encodeChar (val / 262144 % 64), encodeChar (val / 4096 % 64),
      encodeChar (val / 64 % 64), padChar]
  | [a] =>
    let val := a.val * 65536
    [encodeChar (val / 262144 % 64), encodeChar (val / 4096 % 64), padChar, padChar]
  | [] => []

/-- Whether the byte is a line feed or a carriage return, which the decoder
skips. -/
def isNewline (c : Byte) : Bool := c.val = 10 || c.val = 13

/-- The remaining input after the newlines at its head. -/
def skipNewlines : List Byte → List Byte
  | c :: rest => if isNewline c then skipNewlines rest else c :: rest
  | [] => []

/-- The bytes of one quantum: `dlen` 6-bit values give `dlen - 1` bytes; the
unused low bits of the last value are dropped (the encoding is not strict). -/
def quantumBytes (dbuf : List Nat) : List Byte :=
  let val := dbuf.getD 0 0 * 262144 + dbuf.getD 1 0 * 4096 + dbuf.getD 2 0 * 64
    + dbuf.getD 3 0
  ([Fin.ofNat (val / 65536 % 256), Fin.ofNat (val / 256 % 256), Fin.ofNat (val % 256)]
    : List Byte).take (dbuf.length - 1)

/-- The decoding loop of `base64.StdEncoding`: `dbuf` holds the 6-bit values
read so far in the current quantum. Answers the bytes decoded and the error. -/
def decodeLoop : List Byte → List Nat → List Byte × Option Error
  | [], dbuf =>
    if dbuf.length = 0 then ([], none) else ([], some .base64CorruptInput)
  | c :: rest, dbuf =>
    match decodeMap c with
    | some out =>
      if dbuf.length = 3 then
        match decodeLoop rest [] with
        | (more, err) => (quantumBytes (dbuf ++ [out]) ++ more, err)
      else decodeLoop rest (dbuf ++ [out])
    | none =>
      if isNewline c then decodeLoop rest dbuf
      else if c ≠ padChar then ([], some .base64CorruptInput)
      else if dbuf.length < 2 then ([], some .base64CorruptInput)
      else if dbuf.length = 2 then
        match skipNewlines rest with
        | [] => ([], some .base64CorruptInput)
        | c2 :: rest2 =>
          if c2 ≠ padChar then ([], some .base64CorruptInput)
          else if skipNewlines rest2 ≠ [] then
            (quantumBytes dbuf, some .base64CorruptInput)
          else (quantumBytes dbuf, none)
      else if skipNewlines rest ≠ [] then
        (quantumBytes dbuf, some .base64CorruptInput)
      else (quantumBytes dbuf, none)

/-- Model of `base64.StdEncoding.DecodeString`. -/
def base64Decode (s : GoString) : List Byte × Option Error := decodeLoop s []

/-! ## io.ReadFull over crypto/rand -/

/-- Model of `io.ReadFull(r, buf)` with `len(buf) = n`, the reader being
given by the bytes it can supply. -/
def ReadFull (r : List Byte) (n : Nat) : Except Error (List Byte) :=
  if n ≤ r.length then .ok (r.take n)
  else if r.length = 0 then .error .eof
  else .error .errUnexpectedEOF

/-! ## crypto/aes and crypto/cipher -/

/-- The methods of a `cipher.AEAD` used by the wrapper. -/
structure AEAD where
  NonceSize : Nat
  /-- `Seal(dst, nonce, plaintext, additionalData)` -/
  Seal : List Byte → List Byte → List Byte → List Byte → List Byte
  /-- `Open(dst, nonce, ciphertext, additionalData)` -/
  Open : List Byte → List Byte → List Byte → List Byte → Except Error (List Byte)

/-- The two constructors of the standard library used by the wrapper. -/
structure CipherLib where
  Block : Type
  /-- `aes.NewCipher(key)` -/
  NewCipher : List Byte → Except Error Block
  /-- `cipher.NewGCM(block)` -/
  NewGCM : Block → Except Error AEAD

/-- The contract of a `cipher.AEAD`: `Seal` appends the sealed box to `dst`,
and `Open` gives back what `Seal` sealed with the same nonce and data. -/
structure AEAD.Lawful (g : AEAD) : Prop where
  seal_append : ∀ dst nonce plaintext data,
    g.Seal dst nonce plaintext data = dst ++ g.Seal [] nonce plaintext data
  open_seal : ∀ nonce plaintext data, nonce.length = g.NonceSize →
    g.Open [] nonce (g.Seal [] nonce plaintext data) data = .ok plaintext

/-- The contract of the library: `aes.NewCipher` accepts keys of 16, 24 and
32 bytes, and `cipher.NewGCM` of an AES block gives an AEAD that keeps the
contract, with the standard nonce size 12. -/
structure CipherLib.Lawful (lib : CipherLib) : Prop where
  newCipher_ok : ∀ key : List Byte,
    key.length = 16 ∨ key.length = 24 ∨ key.length = 32 →
    ∃ block, lib.NewCipher key = .ok block
  newGCM_ok : ∀ key block, lib.NewCipher key = .ok block →
    ∃ g, lib.NewGCM block = .ok g ∧ g.NonceSize = 12 ∧ g.Lawful

/-! ## crypto.go -/

/-- Model of `getKeyBytes`. -/
def getKeyBytes (keyString : GoString) : List Byte × Option Error :=
  if keyString.length = 64 then hexDecodeString keyString
  else if keyString.length = 32 ∨ keyString.length = 24 ∨ keyString.length = 16 then
    (keyString, none)
  else ([], some .invalidKeyLength)

/-- Model of `Encrypt`; `rand` are the bytes `rand.Reader` can supply. -/
def Encrypt (lib : CipherLib) (rand : List Byte) (plainText keyString : GoString) :
    GoString × Option Error :=
  match getKeyBytes keyString with
  | (_, some err) => ([], some err)
  | (key, none) =>
    match lib.NewCipher key with
    | .error err => ([], some err)
    | .ok block =>
      match lib.NewGCM block with
      | .error err => ([], some err)
      | .ok aesGCM =>
        match ReadFull rand aesGCM.NonceSize with
        | .error err => ([], some err)
        | .ok nonce =>
          let ciphertext := aesGCM.Seal nonce nonce plainText []
          (base64Encode ciphertext, none)

/-- Model of `Decrypt`. -/
def Decrypt (lib : CipherLib) (encryptedText keyString : GoString) :
    Outcome (GoString × Option Error) :=
  match getKeyBytes keyString with
  | (_, some err) => .returned ([], some err)
  | (key, none) =>
    match base64Decode encryptedText with
    | (_, some err) => .returned ([], some err)
    | (data, none) =>
      match lib.NewCipher key with
      | .error err => .returned ([], some err)
      | .ok block =>
        match lib.NewGCM block with
        | .error err => .returned ([], some err)
        | .ok aesGCM =>
          let nonceSize := aesGCM.NonceSize
          if data.length < nonceSize then .returned ([], some .ciphertextTooShort)
          else
            match sliceTo data nonceSize, sliceFrom data nonceSize with
            | some nonce, some ciphertext =>
              match aesGCM.Open [] nonce ciphertext [] with
              | .error err => .returned ([], some err)
              | .ok plaintext => .returned (plaintext, none)
            | _, _ => .panicked

/-- The key strings `getKeyBytes` is written to accept: 16, 24 or 32 raw bytes,
or 64 hexadecimal digits. -/
def validKey (keyString : GoString) : Prop :=
  keyString.length = 16 ∨ keyString.length = 24 ∨ keyString.length = 32 ∨
    (keyString.length = 64 ∧ ∀ c ∈ keyString, (fromHexChar c).isSome = true)

instance (keyString : GoString) : Decidable (validKey keyString) := by
  unfold validKey; infer_instance

/-! ## A library instance that keeps the contract

A stand-in for AES-GCM, used where a statement about every library that keeps
the contract is applied to a concrete one. -/

/-- The mask byte of the stand-in: the sum of the key and nonce bytes. -/
def demoMask (key nonce : List Byte) : Byte := key.sum + nonce.sum

/-- The 16-byte tag of the stand-in. -/
def demoTag (key nonce body data : List Byte) : List Byte :=
  List.replicate 16 (key.sum + nonce.sum + body.sum + data.sum)

/-- The stand-in AEAD for a key. -/
def demoAEAD (key : List Byte) : AEAD where
  NonceSize := 12
  Seal := fun dst nonce plaintext data =>
    dst ++ (plaintext.map (fun x => x + demoMask key nonce)
      ++ demoTag key nonce (plaintext.map (fun x => x + demoMask key nonce)) data)
  Open := fun dst nonce ciphertext data =>
    if ciphertext.length < 16 then .error .errOpen
    else if ciphertext.drop (ciphertext.length - 16)
        = demoTag key nonce (ciphertext.take (ciphertext.length - 16)) data then
      .ok (dst ++ (ciphertext.take (ciphertext.length - 16)).map
        (fun x => x - demoMask key nonce))
    else .error .errOpen

/-- The stand-in library. -/
def demoLib : CipherLib where
  Block := List Byte
  NewCipher := fun key =>
    if key.length = 16 ∨ key.length = 24 ∨ key.length = 32 then .ok key
    else .error (.aesKeySize key.length)
  NewGCM := fun block => .ok (demoAEAD block)

end utils

namespace strconv

open utils

/-! ## fmt and strconv, base 10 and 64 bits -/

/-- The largest `uint64`. -/
def maxUint64 : Nat := 18446744073709551615

/-- The wrap-around of an integer into `int64`, as the conversion `int64(x)`
and the arithmetic on `int64` do. -/
def toInt64 (x : Int) : Int := (x + 9223372036854775808) % 18446744073709551616 - 9223372036854775808

/-- The character of a decimal digit. -/
def digitByte (d : Nat) : Byte := Fin.ofNat (48 + d % 10)

/-- The digit loop of `strconv.FormatUint`: the digits of `n` are put in front
of `acc`, the last digit first. -/
def formatUintAux : Nat → Nat → GoString → GoString
  | 0, _, acc => acc
  | fuel + 1, n, acc =>
    if n < 10 then digitByte n :: acc
    else formatUintAux fuel (n / 10) (digitByte (n % 10) :: acc)

/-- The decimal digits of `n`. -/
def formatUint (n : Nat) : GoString := formatUintAux (n + 1) n []

/-- Model of `fmt.Sprintf("%d", i)` for an `int64`, which is
`strconv.FormatInt(i, 10)`: a minus sign when negative, then the digits of
the magnitude. -/
def FormatInt (i : Int) : GoString :=
  if i < 0 then (45 : Byte) :: formatUint i.natAbs else formatUint i.natAbs

/-- The digit loop of `strconv.ParseUint(s, 10, 64)`, on `uint64` arithmetic.
In base 10 every byte that is not a decimal digit is a syntax error. -/
def parseUintLoop (n : Nat) : List Byte → Nat × Option Error
  | [] => (n, none)
  | c :: rest =>
    if 48 ≤ c.val ∧ c.val ≤ 57 then
      if n ≥ maxUint64 / 10 + 1 then (maxUint64, some .strconvRange)
      else
        if (n * 10 % 18446744073709551616 + (c.val - 48)) % 18446744073709551616
            < n * 10 % 18446744073709551616 ∨
          (n * 10 % 18446744073709551616 + (c.val - 48)) % 18446744073709551616
            > maxUint64 then
          (maxUint64, some .strconvRange)
        else
          parseUintLoop
            ((n * 10 % 18446744073709551616 + (c.val - 48)) % 18446744073709551616) rest
    else (0, some .strconvSyntax)

/-- Model of `strconv.ParseUint(s, 10, 64)`. -/
def ParseUint (s : GoString) : Nat × Option Error :=
  if s = [] then (0, some .strconvSyntax) else parseUintLoop 0 s

/-- Model of `strconv.ParseInt(s, 10, 64)`. -/
def ParseInt (s : GoString) : Int × Option Error :=
  match s with
  | [] => (0, some .strconvSyntax)
  | c :: rest =>
    match ParseUint (if c = 43 ∨ c = 45 then rest else c :: rest) with
    | (un, err) =>
      if err ≠ none ∧ err ≠ some .strconvRange then (0, err)
      else if c ≠ 45 ∧ un ≥ 9223372036854775808 then
        (9223372036854775807, some .strconvRange)
      else if c = 45 ∧ un > 9223372036854775808 then
        (-9223372036854775808, some .strconvRange)
      else if c = 45 then (toInt64 (-(toInt64 un)), none)
      else (toInt64 un, none)

end strconv

namespace github

open utils

/-! ## webhooks.go: the tenant step of Handler -/

/-- Model of `strings.HasPrefix`. -/
def HasPrefix (s pre : GoString) : Bool := pre.isPrefixOf s

/-- What `http.Error` writes: the status code and the message line. -/
structure Response where
  status : Nat
  body : GoString
  deriving DecidableEq, Repr

/-- The response of `http.Error(w, "Unauthorized: Token required", 401)`. -/
def unauthorizedTokenRequired : Response :=
  { status := 401, body := ascii "Unauthorized: Token required\n" }

/-- The variable `chatID` of `Handler` when control reaches the test
`chatID == 0` (lines 44 to 60): it is set only when the path is "/webhook/"
followed by a non-empty token, the token decrypts under the configured key
and the decrypted text parses as a decimal `int64`. -/
def handlerChatID (lib : CipherLib) (EncryptionKey path : GoString) : Outcome Int :=
  if HasPrefix path (ascii "/webhook/") && decide (path.length > 9) then
    match sliceFrom path 9 with
    | none => .panicked
    | some token =>
      match Decrypt lib token EncryptionKey with
      | .panicked => .panicked
      | .returned (decrypted, none) =>
        match strconv.ParseInt decrypted with
        | (id, none) => .returned id
        | (_, some _) => .returned 0
      | .returned (_, some _) => .returned 0
  else .returned 0

/-- The tenant step of `Handler` (lines 44 to 66): the 401 response when
`chatID == 0`, else the chat the request goes on with. -/
def resolveTenant (lib : CipherLib) (EncryptionKey path : GoString) :
    Outcome (Except Response Int) :=
  match handlerChatID lib EncryptionKey path with
  | .panicked => .panicked
  | .returned chatID =>
    if chatID = 0 then .returned (.error unauthorizedTokenRequired)
    else .returned (.ok chatID)

/-- The token minted by `AddRepo` and `handleAddRepoByID` for a chat:
`utils.Encrypt(fmt.Sprintf("%d", chatID), EncryptionKey)`. -/
def mintToken (lib : CipherLib) (rand : List Byte) (EncryptionKey : GoString)
    (chatID : Int) : GoString × Option Error :=
  Encrypt lib rand (strconv.FormatInt chatID) EncryptionKey

end github

namespace utils

/-! ## Bit flips, UTF-8 literals, the AEAD of a key -/

/-- The byte with bit `k` (0 the lowest) flipped. -/
def flipBitByte (b : Byte) (k : Nat) : Byte :=
  if b.val / 2 ^ k % 2 = 1 then Fin.ofNat (b.val - 2 ^ k) else Fin.ofNat (b.val + 2 ^ k)

/-- The string with bit `k` of the byte at index `i` flipped. -/
def flipBit (s : GoString) (i k : Nat) : GoString :=
  s.set i (flipBitByte (s.getD i 0) k)

/-- The UTF-8 bytes of a character. -/
def utf8EncodeChar (c : Char) : List Byte :=
  if c.toNat < 128 then [Fin.ofNat c.toNat]
  else if c.toNat < 2048 then
    [Fin.ofNat (192 + c.toNat / 64), Fin.ofNat (128 + c.toNat % 64)]
  else if c.toNat < 65536 then
    [Fin.ofNat (224 + c.toNat / 4096), Fin.ofNat (128 + c.toNat / 64 % 64),
      Fin.ofNat (128 + c.toNat % 64)]
  else
    [Fin.ofNat (240 + c.toNat / 262144), Fin.ofNat (128 + c.toNat / 4096 % 64),
      Fin.ofNat (128 + c.toNat / 64 % 64), Fin.ofNat (128 + c.toNat % 64)]

/-- The bytes of a Go string literal (Go source is UTF-8). -/
def utf8 (s : String) : GoString := (s.toList.map utf8EncodeChar).flatten

/-- The AEAD that `Encrypt` and `Decrypt` build for a key string, when the
three construction steps all succeed. -/
def aeadOf (lib : CipherLib) (keyString : GoString) : Option AEAD :=
  match getKeyBytes keyString with
  | (_, some _) => none
  | (key, none) =>
    match lib.NewCipher key with
    | .error _ => none
    | .ok block =>
      match lib.NewGCM block with
      | .error _ => none
      | .ok aesGCM => some aesGCM

end utils

namespace strconv

open utils

/-- Model of `strconv.Atoi` where `int` has 64 bits: the value and error of
`ParseInt(s, 10, 0)` (the fast path for short strings computes the same). -/
def Atoi (s : GoString) : Int × Option Error := ParseInt s

end strconv

namespace github

open utils

/-! ## events.go -/

/-- The Go struct `Event` of events.go. -/
structure Event where
  Name : GoString
  Label : GoString
  Short : GoString
  deriving DecidableEq, Repr

/-- The table `SupportedEvents`. -/
def SupportedEvents : List Event :=
  [ { Name := ascii "push", Label := ascii "Code", Short := ascii "p" },
    { Name := ascii "issues", Label := ascii "Issues", Short := ascii "i" },
    { Name := ascii "pull_request", Label := ascii "Pull requests", Short := ascii "pr" },
    { Name := ascii "gollum", Label := ascii "Wikis", Short := ascii "g" },
    { Name := ascii "repository", Label := ascii "Settings", Short := ascii "rep" },
    { Name := ascii "meta", Label := ascii "Webhooks and services", Short := ascii "mt" },
    { Name := ascii "deploy_key", Label := ascii "Deploy keys", Short := ascii "dk" },
    { Name := ascii "member", Label := ascii "Collaboration invites", Short := ascii "m" },
    { Name := ascii "fork", Label := ascii "Forks", Short := ascii "f" },
    { Name := ascii "star", Label := ascii "Stars", Short := ascii "s" } ]

/-! ## The webhook events of go-github, by the values their getters return -/

/-- A `*github.HeadCommit` that is not nil. -/
structure HeadCommit where
  /-- `GetID()` -/
  ID : GoString
  /-- `GetMessage()` -/
  Message : GoString
  /-- `Author.GetLogin()` -/
  AuthorLogin : GoString
  /-- `Author.GetName()` -/
  AuthorName : GoString
  deriving DecidableEq, Repr

/-- A `*github.PushEvent`. An element of `Commits` and `HeadCommit` are
pointers, `none` when nil. -/
structure PushEvent where
  /-- `Repo.GetName()` -/
  RepoName : GoString
  /-- `Repo.GetHTMLURL()` -/
  RepoHTMLURL : GoString
  /-- `GetRef()` -/
  Ref : GoString
  /-- `GetCompare()` -/
  Compare : GoString
  Commits : List (Option HeadCommit)
  HeadCommit : Option HeadCommit
  /-- `GetCreated()` -/
  Created : Bool
  /-- `GetDeleted()` -/
  Deleted : Bool
  /-- `GetForced()` -/
  Forced : Bool
  deriving DecidableEq, Repr

/-- What `storeMessageContext` reads from an event about an issue or a pull
request: `GetRepo().GetOwner().GetLogin()`, `GetRepo().GetName()`, the number
of the issue or pull request, and `GetComment().GetID()` where there is one. -/
structure EntityRef where
  OwnerLogin : GoString
  RepoName : GoString
  Number : Int
  CommentID : Int
  deriving DecidableEq, Repr

/-- A `*github.RepositoryEvent`. -/
structure RepositoryEvent where
  /-- `GetAction()` -/
  Action : GoString
  /-- `GetRepo().GetFullName()` -/
  RepoFullName : GoString
  /-- `Repo.GetName()` -/
  RepoName : GoString := []
  /-- `Repo.GetHTMLURL()` -/
  RepoHTMLURL : GoString := []
  /-- `Sender.GetLogin()` -/
  SenderLogin : GoString := []
  deriving DecidableEq, Repr

/-- A `*github.CommitCommentEvent`, by the values its getters return. -/
structure CommitCommentEvent where
  /-- `Comment.GetBody()` -/
  CommentBody : GoString
  /-- `Comment.GetCommitID()` -/
  CommentCommitID : GoString
  /-- `Comment.GetHTMLURL()` -/
  CommentHTMLURL : GoString
  /-- `Repo.GetFullName()` -/
  RepoFullName : GoString
  /-- `Sender.GetLogin()` -/
  SenderLogin : GoString
  /-- `GetAction()` -/
  Action : GoString
  deriving DecidableEq, Repr

/-- A `*github.StatusEvent`, by the values its getters return. -/
structure StatusEvent where
  /-- `GetState()` -/
  State : GoString
  /-- `GetCommit().GetSHA()` -/
  CommitSHA : GoString
  /-- `GetCommit().GetHTMLURL()` -/
  CommitHTMLURL : GoString
  /-- `GetRepo().GetFullName()` -/
  RepoFullName : GoString
  /-- `GetDescription()` -/
  Description : GoString
  /-- `GetSender().GetLogin()` -/
  SenderLogin : GoString
  deriving DecidableEq, Repr

/-- The value `github.ParseWebHook` returns, by its dynamic type. -/
inductive WebhookEvent where
  | push (e : PushEvent)
  | pullRequest (e : EntityRef)
  | issues (e : EntityRef)
  | issueComment (e : EntityRef)
  | pullRequestReview (e : EntityRef)
  | pullRequestReviewComment (e : EntityRef)
  | repository (e : RepositoryEvent)
  | commitComment (e : CommitCommentEvent)
  | status (e : StatusEvent)
  /-- Any other event type, by its name. -/
  | other (name : String)
  deriving DecidableEq, Repr

/-! ## webhooks.go: Handler -/

/-- What `Handler` reads from the request: the URL path, the header
`X-GitHub-Hook-ID` (empty when absent), the result of
`github.ValidatePayload(r, secret)` and, for a payload, the result of
`github.ParseWebHook(github.WebHookType(r), payload)`. -/
structure Request where
  path : GoString
  hookIDHeader : GoString
  validatePayload : Except String GoString
  parseWebHook : GoString → Except String WebhookEvent

/-- What `Handler` does: the response it writes, and the call
`go s.processEvent(event, chatID, hookID)` when it makes one. -/
structure HandlerResult where
  response : Response
  processEvent : Option (WebhookEvent × Int × Int)
  deriving DecidableEq, Repr

/-- The response of `http.Error(w, "Invalid signature", 401)`. -/
def invalidSignature : Response :=
  { status := 401, body := ascii "Invalid signature\n" }

/-- The response of `http.Error(w, "Parse error", 500)`. -/
def parseError : Response :=
  { status := 500, body := ascii "Parse error\n" }

/-- The response of `w.WriteHeader(http.StatusOK)`. -/
def statusOK : Response := { status := 200, body := [] }

/-- The variable `hookID` of `Handler`: zero when the header is empty, else
the value `strconv.ParseInt` returns, its error being dropped. -/
def handlerHookID (idStr : GoString) : Int :=
  if idStr ≠ [] then (strconv.ParseInt idStr).1 else 0

/-- Model of `Handler`. -/
def Handler (lib : CipherLib) (EncryptionKey : GoString) (r : Request) :
    Outcome HandlerResult :=
  match handlerChatID lib EncryptionKey r.path with
  | .panicked => .panicked
  | .returned chatID =>
    if chatID = 0 then
      .returned { response := unauthorizedTokenRequired, processEvent := none }
    else
      match r.validatePayload with
      | .error _ => .returned { response := invalidSignature, processEvent := none }
      | .ok payload =>
        match r.parseWebHook payload with
        | .error _ => .returned { response := parseError, processEvent := none }
        | .ok event =>
          .returned { response := statusOK,
                      processEvent := some (event, chatID, handlerHookID r.hookIDHeader) }

end github

namespace models

open utils

/-- The Go struct `MessageContext`. -/
structure MessageContext where
  Owner : GoString
  Repo : GoString
  IssueNumber : Int
  CommentID : Int
  /-- The field `Type`. -/
  EntityType : GoString
  deriving DecidableEq, Repr

/-- The zero value of `MessageContext`. -/
instance : Inhabited MessageContext :=
  ⟨{ Owner := [], Repo := [], IssueNumber := 0, CommentID := 0, EntityType := [] }⟩

/-- The Go struct `PRActionContext`. -/
structure PRActionContext where
  Owner : GoString
  Repo : GoString
  PRNumber : Int
  deriving DecidableEq, Repr

/-- The zero value of `PRActionContext`. -/
instance : Inhabited PRActionContext := ⟨{ Owner := [], Repo := [], PRNumber := 0 }⟩

/-- The Go struct `RepoLink`. -/
structure RepoLink where
  RepoFullName : GoString
  WebhookID : Int
  deriving DecidableEq, Repr

end models

namespace github

open utils cache models

/-! ## format.go: FormatPushEvent -/

/-- A `*gotgbot.InlineKeyboardMarkup`: its buttons, as text and URL. -/
structure InlineKeyboardMarkup where
  buttons : List (GoString × GoString)
  deriving DecidableEq, Repr

/-- The functions of markdown_utils.go that the formatters modelled here
call. That file is not among the sources, so they are parameters. -/
structure MarkdownUtils where
  EscapeMarkdownV2 : GoString → GoString
  EscapeMarkdownV2URL : GoString → GoString
  FormatUser : GoString → GoString
  FormatRepo : GoString → GoString
  FormatTextWithMarkdown : GoString → GoString
  FormatMessageWithButton :
    GoString → GoString → GoString → GoString × Option InlineKeyboardMarkup

/-- Model of `strings.TrimPrefix`. -/
def TrimPrefix (s pre : GoString) : GoString :=
  if HasPrefix s pre then s.drop pre.length else s

/-- The local `commits` of `FormatPushEvent`: the commits of the event, or
else its head commit when there is one. -/
def pushCommits (event : PushEvent) : List (Option HeadCommit) :=
  if event.Commits.length > 0 then event.Commits
  else
    match event.HeadCommit with
    | some h => [some h]
    | none => []

/-- The line that the loop of `FormatPushEvent` adds for one commit; `none`
when the commit pointer is nil, where reading `commit.Author` panics. -/
def commitLine (md : MarkdownUtils) (repoURL : GoString) :
    Option HeadCommit → Option GoString
  | none => none
  | some commit =>
    let shortSHA := if commit.ID.length > 7 then commit.ID.take 7 else commit.ID
    let commitURL := repoURL ++ ascii "/commit/" ++ commit.ID
    let authorStr :=
      if commit.AuthorLogin ≠ [] then md.FormatUser commit.AuthorLogin
      else md.EscapeMarkdownV2 commit.AuthorName
    let commitMessage := md.FormatTextWithMarkdown commit.Message
    some (ascii "\\- [" ++ md.EscapeMarkdownV2 shortSHA ++ ascii "]("
      ++ md.EscapeMarkdownV2URL commitURL ++ ascii "): " ++ commitMessage
      ++ ascii " by " ++ authorStr ++ ascii "\n")

/-- The loop of `FormatPushEvent` over the commits, adding to `msg`. -/
def commitLines (md : MarkdownUtils) (repoURL : GoString) :
    List (Option HeadCommit) → GoString → Option GoString
  | [], msg => some msg
  | commit :: rest, msg =>
    match commitLine md repoURL commit with
    | none => none
    | some line => commitLines md repoURL rest (msg ++ line)

/-- Model of `FormatPushEvent`. -/
def FormatPushEvent (md : MarkdownUtils) (event : PushEvent) :
    Outcome (GoString × Option InlineKeyboardMarkup) :=
  let repo := event.RepoName
  let repoURL := event.RepoHTMLURL
  let branch := TrimPrefix event.Ref (ascii "refs/heads/")
  let compareURL := event.Compare
  let commits := pushCommits event
  let commitCount := commits.length
  if commitCount = 0 then .returned ([], none)
  else
    let commitPlural : GoString := if commitCount > 1 then ascii "s" else []
    let head := utf8 "🔨 *" ++ strconv.FormatInt commitCount ++ ascii " new commit"
      ++ commitPlural ++ ascii " to* `" ++ md.EscapeMarkdownV2 repo ++ ascii ":"
      ++ md.EscapeMarkdownV2 branch ++ ascii "`\n\n"
    let flag : GoString :=
      if event.Created then utf8 "🌱 _New branch created_\n"
      else if event.Deleted then utf8 "🗑️ _Branch deleted_\n"
      else if event.Forced then utf8 "⚠️ _Force pushed_\n"
      else []
    match commitLines md repoURL commits (head ++ flag) with
    | none => .panicked
    | some full =>
      let msg :=
        if full.length > 4000 then
          utf8 "🔨 *" ++ strconv.FormatInt commitCount ++ ascii " new commit(s) to* `"
            ++ md.EscapeMarkdownV2 repo ++ ascii ":" ++ md.EscapeMarkdownV2 branch
            ++ ascii "`\n\n"
            ++ utf8 "⚠️ _Too many commits to display, check the repository for details\\._\n"
        else full
      if commitCount = 1 then
        match commits.head? with
        | some first =>
          let commitURL := repoURL ++ ascii "/commit/"
            ++ (match first with
                | some c => c.ID
                | none => [])
          .returned (md.FormatMessageWithButton msg (ascii "View Commit") commitURL)
        | none => .panicked
      else .returned (md.FormatMessageWithButton msg (ascii "View Commits") compareURL)

/-! ## format.go: FormatRepositoryEvent, FormatCommitCommentEvent, FormatStatusEvent -/

/-- Model of `FormatRepositoryEvent`. -/
def FormatRepositoryEvent (md : MarkdownUtils) (event : RepositoryEvent) :
    GoString × Option InlineKeyboardMarkup :=
  let action := event.Action
  let repo := event.RepoFullName
  let url := event.RepoHTMLURL
  let sender := event.SenderLogin
  let found : GoString × GoString :=
    if action = ascii "created" then (utf8 "🎉", ascii "created")
    else if action = ascii "renamed" then
      (utf8 "🔄", ascii "renamed to " ++ md.EscapeMarkdownV2 event.RepoName)
    else if action = ascii "archived" then (utf8 "🔒", ascii "archived")
    else if action = ascii "unarchived" then (utf8 "🔓", ascii "unarchived")
    else ([], [])
  let actionDetails : GoString × GoString :=
    if found.1 = [] then (utf8 "⚠️", ascii "performed " ++ action ++ ascii " action")
    else found
  let msg := actionDetails.1 ++ ascii " " ++ md.FormatRepo repo ++ ascii " "
    ++ md.EscapeMarkdownV2 actionDetails.2 ++ ascii "\n\n" ++ utf8 "👤 *By:* "
    ++ md.FormatUser sender
  md.FormatMessageWithButton msg (ascii "View Repository") url

/-- Model of `FormatCommitCommentEvent`: the arguments of `fmt.Sprintf` are
evaluated in order, and `commitSHA[:7]` panics when the commit id has fewer
than 7 bytes. -/
def FormatCommitCommentEvent (md : MarkdownUtils) (event : CommitCommentEvent) :
    Outcome (GoString × Option InlineKeyboardMarkup) :=
  let comment := event.CommentBody
  let commitSHA := event.CommentCommitID
  let repo := event.RepoFullName
  let sender := event.SenderLogin
  let action := event.Action
  let commitURL := ascii "https://github.com/" ++ md.EscapeMarkdownV2URL repo
    ++ ascii "/commit/" ++ md.EscapeMarkdownV2URL commitSHA
  let found : GoString :=
    if action = ascii "created" then utf8 "💬"
    else if action = ascii "edited" then utf8 "✏️"
    else if action = ascii "deleted" then utf8 "🗑️"
    else []
  let actionEmoji : GoString := if found = [] then utf8 "⚠️" else found
  match sliceTo commitSHA 7 with
  | none => .panicked
  | some short =>
    let msg := actionEmoji ++ ascii " *" ++ md.FormatUser sender ++ ascii " "
      ++ md.EscapeMarkdownV2 action ++ ascii " comment on commit*\n\n"
      ++ ascii "*Repository:* " ++ md.FormatRepo repo ++ ascii "\n"
      ++ ascii "*Commit:* [`" ++ md.EscapeMarkdownV2 short ++ ascii "`](" ++ commitURL
      ++ ascii ")\n"
    let msg :=
      if action = ascii "created" ∨ action = ascii "edited" then
        msg ++ ascii "*Comment:* " ++ md.FormatTextWithMarkdown comment
      else msg
    .returned (md.FormatMessageWithButton msg (ascii "View Comment") event.CommentHTMLURL)

/-- Model of `FormatStatusEvent`; `Title` is `strings.Title`. The slice
`event.GetCommit().GetSHA()[:7]` panics when the SHA has fewer than 7 bytes. -/
def FormatStatusEvent (md : MarkdownUtils) (Title : GoString → GoString)
    (event : StatusEvent) : Outcome (GoString × Option InlineKeyboardMarkup) :=
  let state := event.State
  let found : GoString :=
    if state = ascii "success" then utf8 "✅"
    else if state = ascii "error" then utf8 "❌"
    else if state = ascii "pending" then utf8 "⏳"
    else []
  let stateEmoji : GoString := if found = [] then utf8 "⚠️" else found
  match sliceTo event.CommitSHA 7 with
  | none => .panicked
  | some short =>
    let msg := stateEmoji ++ ascii " *" ++ md.EscapeMarkdownV2 (Title state)
      ++ ascii " for commit* [`" ++ md.EscapeMarkdownV2 short ++ ascii "`]("
      ++ md.EscapeMarkdownV2URL event.CommitHTMLURL ++ ascii ")\n\n"
      ++ ascii "*Repository:* " ++ md.FormatRepo event.RepoFullName ++ ascii "\n"
      ++ ascii "*Status:* " ++ md.EscapeMarkdownV2 event.Description ++ ascii "\n"
      ++ ascii "*By:* " ++ md.FormatUser event.SenderLogin
    .returned (md.FormatMessageWithButton msg (ascii "View Commit") event.CommitHTMLURL)

/-! ## webhooks.go: processEvent -/

/-- What `processEvent` is given: markdown_utils.go, `strings.Title`, the
formatters of format.go for the other events, the chat transport
`s.Bot.SendMessage`, which answers the id of the sent message or an error,
and the store's `UpdateRepoLinkName`, which answers an error or none. The
function `normalizeMessage` is a parameter here as well, since its result
only goes to the transport; its own model is `normalizeMessage` further
down. -/
structure Collaborators where
  md : MarkdownUtils
  Title : GoString → GoString
  formatOther : WebhookEvent → Outcome (GoString × Option InlineKeyboardMarkup)
  normalizeMessage : GoString → GoString
  SendMessage : Int → GoString → Option InlineKeyboardMarkup → Except String Int
  UpdateRepoLinkName : Int → Int → GoString → Option String

/-- Model of `formatMessage`. -/
def formatMessage (co : Collaborators) (event : WebhookEvent) :
    Outcome (GoString × Option InlineKeyboardMarkup) :=
  match event with
  | .push e => FormatPushEvent co.md e
  | .repository e => .returned (FormatRepositoryEvent co.md e)
  | .commitComment e => FormatCommitCommentEvent co.md e
  | .status e => FormatStatusEvent co.md co.Title e
  | e => co.formatOther e

/-- A call of `processEvent` that leaves the process. -/
inductive Effect where
  | updateRepoLinkName (chatID hookID : Int) (newFullName : GoString)
  | sendMessage (chatID : Int) (text : GoString) (markup : Option InlineKeyboardMarkup)
  deriving DecidableEq, Repr

/-- The key of the message-context table: `fmt.Sprintf("%d:%d", chatID, messageID)`. -/
def contextKey (chatID messageID : Int) : GoString :=
  strconv.FormatInt chatID ++ ascii ":" ++ strconv.FormatInt messageID

/-- The retention of a message context, `48*time.Hour`, in nanoseconds. -/
def contextTTL : Duration := 48 * 3600000000000

/-- The value `ctx` of `storeMessageContext`, `none` in the default case of
the type switch, which returns without storing. -/
def messageContextOf : WebhookEvent → Option MessageContext
  | .pullRequest e =>
    some { Owner := e.OwnerLogin, Repo := e.RepoName, IssueNumber := e.Number,
           CommentID := 0, EntityType := ascii "pr" }
  | .issues e =>
    some { Owner := e.OwnerLogin, Repo := e.RepoName, IssueNumber := e.Number,
           CommentID := 0, EntityType := ascii "issue" }
  | .issueComment e =>
    some { Owner := e.OwnerLogin, Repo := e.RepoName, IssueNumber := e.Number,
           CommentID := e.CommentID, EntityType := ascii "issue_comment" }
  | .pullRequestReview e =>
    some { Owner := e.OwnerLogin, Repo := e.RepoName, IssueNumber := e.Number,
           CommentID := 0, EntityType := ascii "pr_review" }
  | .pullRequestReviewComment e =>
    some { Owner := e.OwnerLogin, Repo := e.RepoName, IssueNumber := e.Number,
           CommentID := e.CommentID, EntityType := ascii "pr_review_comment" }
  | _ => none

/-- Model of `storeMessageContext`, performed when the clock reads `now`. -/
def storeMessageContext (ContextCache : Cache GoString MessageContext) (now : Time)
    (messageID chatID : Int) (event : WebhookEvent) : Cache GoString MessageContext :=
  match messageContextOf event with
  | none => ContextCache
  | some ctx => ContextCache.Set now (contextKey chatID messageID) ctx contextTTL

/-- The lookup of the reply handlers (`Approve`, `handleIssueAction`,
`HandleReply`): `ContextCache.Get(fmt.Sprintf("%d:%d", chatID, messageID))`. -/
def lookupContext (ContextCache : Cache GoString MessageContext) (now : Time)
    (chatID messageID : Int) : (MessageContext × Bool) × Cache GoString MessageContext :=
  ContextCache.Get now (contextKey chatID messageID)

/-- What a run of `processEvent` did: its outside calls in order, the
message-context table afterwards, and whether it ended in a panic. -/
structure ProcessResult where
  effects : List Effect
  ContextCache : Cache GoString MessageContext
  panicked : Bool

/-- The outside call of the rename step of `processEvent` (lines 92 to 102). -/
def renameEffects (event : WebhookEvent) (chatID hookID : Int) : List Effect :=
  match event with
  | .repository e =>
    if e.Action = ascii "renamed" ∧ e.RepoFullName ≠ [] ∧ hookID ≠ 0 then
      [.updateRepoLinkName chatID hookID e.RepoFullName]
    else []
  | _ => []

/-- Model of `processEvent`, performed when the clock reads `now`. -/
def processEvent (co : Collaborators) (ContextCache : Cache GoString MessageContext)
    (now : Time) (event : WebhookEvent) (chatID hookID : Int) : ProcessResult :=
  let pre := renameEffects event chatID hookID
  match formatMessage co event with
  | .panicked => { effects := pre, ContextCache := ContextCache, panicked := true }
  | .returned (msg, markup) =>
    if msg = [] then { effects := pre, ContextCache := ContextCache, panicked := false }
    else
      let text := co.normalizeMessage msg
      match co.SendMessage chatID text markup with
      | .error _ =>
        { effects := pre ++ [.sendMessage chatID text markup],
          ContextCache := ContextCache, panicked := false }
      | .ok messageId =>
        { effects := pre ++ [.sendMessage chatID text markup],
          ContextCache := storeMessageContext ContextCache now messageId chatID event,
          panicked := false }

end github

namespace callbacks

open utils cache models github

/-! ## callbacks.go -/

/-- Model of `strings.Split(s, sep)` for a separator of one byte. -/
def Split (s : GoString) (sep : Byte) : List GoString :=
  match s with
  | [] => [[]]
  | c :: rest =>
    if c = sep then [] :: Split rest sep
    else
      match Split rest sep with
      | hd :: tl => (c :: hd) :: tl
      | [] => [[c]]

/-- The assignment `m[k] = v` on a Go map held as a list of pairs. -/
def mapSet (m : List (GoString × GoString)) (k v : GoString) : List (GoString × GoString) :=
  (k, v) :: m.filter (fun e => decide (e.1 ≠ k))

/-- The map `eventToShort` after `init`. -/
def eventToShort : List (GoString × GoString) :=
  SupportedEvents.foldl (fun m e => mapSet m e.Name e.Short) []

/-- The map `shortToEvent` after `init`. -/
def shortToEvent : List (GoString × GoString) :=
  SupportedEvents.foldl (fun m e => mapSet m e.Short e.Name) []

/-- The callback data that `showIndividualEvents` puts on the button of an
event: `fmt.Sprintf("c:te:%s:%s:%d", l.RepoFullName, e.Short, page)`. -/
def toggleCallbackData (RepoFullName : GoString) (e : Event) (page : Int) : GoString :=
  ascii "c:te:" ++ RepoFullName ++ ascii ":" ++ e.Short ++ ascii ":"
    ++ strconv.FormatInt page

/-- What `HandleSettings` does once it has decoded the callback data. -/
inductive Dispatch where
  /-- `return nil` with nothing done -/
  | ret
  /-- `ctx.CallbackQuery.Answer` with the text, then `return nil` -/
  | answer (text : String) (showAlert : Bool)
  | showRepoList
  | handleRepoPage (page : Int)
  | handleAddRepoByID (repoID : Int)
  | showRepoMenu (link : RepoLink)
  /-- The branch `te` runs with the event name and the page: it toggles the
  event on the hook and ends in `showIndividualEvents(b, ctx, link, page)`. -/
  | toggleEvent (link : RepoLink) (evt : GoString) (page : Int)
  | showIndividualEvents (link : RepoLink) (page : Int)
  | handlePresets (link : RepoLink) (mode : GoString)
  deriving DecidableEq, Repr

/-- What `HandleSettings` gets from outside before it dispatches: whether the
chat is private or `utils.IsAdmin` answers true, and the result of
`h.DB.GetRepoLink` for the chat and a repository name. -/
structure SettingsEnv where
  allowed : Bool
  GetRepoLink : GoString → Except String RepoLink

/-- The block `if action == "ar"` of `HandleSettings` (lines 80 to 93): how
the function ends there, or `none` when control leaves the block. -/
def arBlock (parts : List GoString) : Option (Outcome Dispatch) :=
  if parts.length < 3 then some (.returned .ret)
  else
    match parts[2]? with
    | none => some .panicked
    | some subAction =>
      if subAction = ascii "pg" then
        match parts[3]? with
        | none => some .panicked
        | some p => some (.returned (.handleRepoPage (strconv.Atoi p).1))
      else if subAction = ascii "id" then
        match parts[3]? with
        | none => some .panicked
        | some p => some (.returned (.handleAddRepoByID (strconv.ParseInt p).1))
      else none

/-- Lines 95 to 207 of `HandleSettings`: the repository link is looked up,
then the action is dispatched. -/
def linkBlock (env : SettingsEnv) (parts : List GoString) (action : GoString) :
    Outcome Dispatch :=
  if parts.length < 3 then .returned .ret
  else
    match parts[2]? with
    | none => .panicked
    | some repoName =>
      match env.GetRepoLink repoName with
      | .error _ => .returned (.answer "Repo not found" false)
      | .ok link =>
        if action = ascii "r" then .returned (.showRepoMenu link)
        else if action = ascii "te" ∧ parts.length ≥ 4 then
          match parts[3]? with
          | none => .panicked
          | some shortEvt =>
            match (if parts.length = 5 then
                (parts[4]?).map (fun p => (strconv.Atoi p).1) else some 1) with
            | none => .panicked
            | some page =>
              .returned (.toggleEvent link
                (match shortToEvent.lookup shortEvt with
                  | some evt => evt
                  | none => shortEvt) page)
        else if action = ascii "ep" ∧ parts.length = 4 then
          match parts[3]? with
          | none => .panicked
          | some p => .returned (.showIndividualEvents link (strconv.Atoi p).1)
        else if action = ascii "presets" ∧ parts.length ≥ 3 then
          if parts.length < 4 then .returned .ret
          else
            match parts[3]? with
            | none => .panicked
            | some mode => .returned (.handlePresets link mode)
        else if action = ascii "iev" ∧ parts.length = 4 then
          match parts[3]? with
          | none => .panicked
          | some p => .returned (.showIndividualEvents link (strconv.Atoi p).1)
        else .returned .ret

/-- Model of `HandleSettings`, up to the sub-handler it hands over to. -/
def HandleSettings (env : SettingsEnv) (data : GoString) : Outcome Dispatch :=
  if !env.allowed then .returned (.answer "Only admins can change settings" true)
  else
    let parts := Split data 58
    if parts.length < 2 then .returned .ret
    else
      match parts[0]?, parts[1]? with
      | some pre, some action =>
        if pre = ascii "c" then
          if action = ascii "ls" then .returned .showRepoList
          else
            match (if action = ascii "ar" then arBlock parts else none) with
            | some out => out
            | none => linkBlock env parts action
        else .returned .ret
      | _, _ => .panicked

/-- What `HandlePRAction` does once it has decoded the callback data and
looked the action up. -/
inductive PRDispatch where
  /-- `return nil` with nothing done -/
  | ret
  /-- The alert "Action expired. Please open the PR link manually." -/
  | answerExpired
  /-- The function goes on with the action and the stored context. -/
  | proceed (action : GoString) (prContext : PRActionContext)
  deriving DecidableEq, Repr

/-- Model of `HandlePRAction`, up to the lookup in the action table, when
the clock reads `now`. -/
def HandlePRAction (ActionCache : Cache GoString PRActionContext) (now : Time)
    (data : GoString) : Outcome (PRDispatch × Cache GoString PRActionContext) :=
  let parts := Split data 58
  if parts.length ≠ 3 then .returned (.ret, ActionCache)
  else
    match parts[1]?, parts[2]? with
    | some action, some actionID =>
      match ActionCache.Get now actionID with
      | ((prContext, true), c) => .returned (.proceed action prContext, c)
      | ((_, false), c) => .returned (.answerExpired, c)
    | _, _ => .panicked

end callbacks

namespace github

open utils cache models

/-- The path token decodes to the chat identifier `c`: the path is
"/webhook/" followed by a non-empty token, `utils.Decrypt` of the token
returns a text without error, and `strconv.ParseInt` of the text returns `c`
without error. -/
def tokenDecodes (lib : CipherLib) (EncryptionKey path : GoString) (c : Int) : Prop :=
  HasPrefix path (ascii "/webhook/") = true ∧ path.length > 9 ∧
    ∃ decrypted, Decrypt lib (path.drop 9) EncryptionKey = .returned (decrypted, none) ∧
      strconv.ParseInt decrypted = (c, none)

/-! ## Stand-ins for the collaborators

Used where a statement about all collaborators is applied to concrete ones. -/

/-- A stand-in for markdown_utils.go: nothing is escaped, and the button
helper answers the message as given with one button. -/
def demoMarkdown : MarkdownUtils where
  EscapeMarkdownV2 := fun s => s
  EscapeMarkdownV2URL := fun s => s
  FormatUser := fun s => s
  FormatRepo := fun s => s
  FormatTextWithMarkdown := fun s => s
  FormatMessageWithButton := fun msg label url => (msg, some { buttons := [(label, url)] })

/-- Stand-in collaborators: every other event formats to a fixed line, the
text is sent as it is, the transport answers message id 77, the store
answers no error. -/
def demoCollaborators : Collaborators where
  md := demoMarkdown
  Title := fun s => s
  formatOther := fun _ => .returned (ascii "event", none)
  normalizeMessage := fun s => s
  SendMessage := fun _ _ _ => .ok 77
  UpdateRepoLinkName := fun _ _ _ => none

end github

namespace callbacks

open utils models

/-- A stand-in for what `HandleSettings` gets from outside: the caller is
allowed, and the chat has one linked repository, "owner/repo". -/
def demoSettingsEnv : SettingsEnv where
  allowed := true
  GetRepoLink := fun r =>
    if r = ascii "owner/repo" then .ok { RepoFullName := r, WebhookID := 5 }
    else .error "repo not linked"

end callbacks

namespace github

open utils

/-- A stand-in request with the given path and hook-id header, whose
signature is valid or not, and whose body parses to a ping. -/
def demoRequest (path hookIDHeader : GoString) (signed : Bool) : Request where
  path := path
  hookIDHeader := hookIDHeader
  validatePayload := if signed then .ok (ascii "payload") else .error "bad signature"
  parseWebHook := fun _ => .ok (.other "ping")

end github

namespace github

open utils

/-- A push event with no commits and a head commit, as sent when a new
branch is pushed at an existing commit. -/
def demoPushEvent : PushEvent where
  RepoName := ascii "repo"
  RepoHTMLURL := ascii "https://github.com/o/repo"
  Ref := ascii "refs/heads/main"
  Compare := []
  Commits := []
  HeadCommit := some { ID := ascii "0123456789abcdef", Message := ascii "init",
                       AuthorLogin := ascii "octocat", AuthorName := [] }
  Created := true
  Deleted := false
  Forced := false

/-- The entity types that `storeMessageContext` writes. -/
def entityTypes : List GoString :=
  [ascii "pr", ascii "issue", ascii "issue_comment", ascii "pr_review",
    ascii "pr_review_comment"]

end github

namespace bot

open utils

/-! ## What the bot handlers see of a Go error and of their collaborators -/

/-- A Go `error` value as the handlers of the bot tell them apart: a
`*github.ErrorResponse` with the status code of its response, an error of
another type (a network error, or another error type of the GitHub client),
or an error that wraps another one (its `Unwrap` returns `inner`, as with
`fmt.Errorf("...: %w", inner)`). `text` is what `Error()` returns. -/
inductive GoError where
  | errorResponse (status : Int) (text : GoString)
  | other (text : GoString)
  | wrapped (text : GoString) (inner : GoError)
  deriving DecidableEq, Repr

/-- The method `Error()`. -/
def GoError.Error : GoError → GoString
  | .errorResponse _ text => text
  | .other text => text
  | .wrapped text _ => text

/-- A call that a handler makes on the chat transport, the store or the
GitHub client. -/
inductive Call where
  /-- `ctx.EffectiveMessage.Reply` / `msg.Reply` with the text -/
  | reply (text : GoString)
  /-- `ctx.CallbackQuery.Answer` with the text -/
  | answer (text : GoString) (showAlert : Bool)
  /-- `DB.GetUserByTelegramID` -/
  | getUserByTelegramID (userID : Int)
  /-- `DB.GetRepoLink` -/
  | getRepoLink (chatID : Int) (repoFullName : GoString)
  /-- `DB.ClearUserToken` -/
  | clearUserToken (userID : Int)
  /-- `client.PullRequests.CreateReview` with the event APPROVE -/
  | createReview (owner repo : GoString) (number : Int)
  /-- `client.PullRequests.Edit` with the state -/
  | editPullRequest (owner repo : GoString) (number : Int) (state : GoString)
  /-- `client.Issues.Edit` with the state -/
  | editIssue (owner repo : GoString) (number : Int) (state : GoString)
  /-- `client.Issues.CreateComment` -/
  | createIssueComment (owner repo : GoString) (number : Int) (body : GoString)
  /-- `client.PullRequests.CreateComment` in reply to a review comment -/
  | createPullRequestComment (owner repo : GoString) (number : Int) (body : GoString)
      (inReplyTo : Int)
  deriving DecidableEq, Repr

/-- Whether the call goes to the GitHub client. -/
def Call.isGitHub : Call → Bool
  | .createReview _ _ _ => true
  | .editPullRequest _ _ _ _ => true
  | .editIssue _ _ _ _ => true
  | .createIssueComment _ _ _ _ => true
  | .createPullRequestComment _ _ _ _ _ => true
  | _ => false

/-- Whether the call goes to the store. -/
def Call.isStore : Call → Bool
  | .getUserByTelegramID _ => true
  | .getRepoLink _ _ => true
  | .clearUserToken _ => true
  | _ => false

/-- What a handler reads of its `ext.Context`: the chat, the user, the text
of the message, and the id of the message replied to (`none` when
`ReplyToMessage` is nil). -/
structure Update where
  chatID : Int
  userID : Int
  text : GoString
  replyTo : Option Int

/-- What the store, the cipher and the GitHub client answer to the calls of
the handlers: the encrypted token of a user (or an error), the result of
`utils.Decrypt` under the handler's key, the login URL of `GetLoginURL`, the
repository link of a chat, and the error of each GitHub call (`none` for
nil). -/
structure Services where
  GetUserByTelegramID : Int → Except String GoString
  Decrypt : GoString → Except String GoString
  loginURL : GoString
  GetRepoLink : Int → GoString → Except String models.RepoLink
  CreateReview : GoString → GoString → Int → Option GoError
  EditPullRequest : GoString → GoString → Int → GoString → Option GoError
  EditIssue : GoString → GoString → Int → GoString → Option GoError
  CreateIssueComment : GoString → GoString → Int → GoString → Option GoError
  CreatePullRequestComment : GoString → GoString → Int → GoString → Int → Option GoError

end bot

namespace commands

open utils cache models bot

/-! ## commands.go and reply_handler.go -/

/-- The retention of an OAuth state, `10*time.Minute`, in nanoseconds. -/
def stateTTL : Duration := 10 * 60000000000

/-- Model of `Connect` on the state table: outside a private chat and when
`GenerateState` fails nothing is stored, otherwise the state is stored for
the user. -/
def Connect (StateCache : Cache GoString Int) (now : Time) (isPrivate : Bool)
    (generated : Except String GoString) (userID : Int) : Cache GoString Int :=
  if !isPrivate then StateCache
  else
    match generated with
    | .error _ => StateCache
    | .ok state => StateCache.Set now state userID stateTTL

/-- Model of `CommandHandler.handleAuthError`: the result, and the calls made. -/
def handleAuthError (up : Update) (err : GoError) : Bool × List Call :=
  match err with
  | .errorResponse status _ =>
    if status = 401 ∨ status = 403 then
      (true, [.clearUserToken up.userID,
        .reply (utf8 "⚠️ <b>GitHub authentication failed.</b>\nIt seems your token has expired or was revoked. Please /connect again.")])
    else (false, [])
  | _ => (false, [])

/-- Model of `getAuthenticatedClient`: the token of the client (`none` when
the function returns an error), and the calls made. -/
def getAuthenticatedClient (up : Update) (sv : Services) : Option GoString × List Call :=
  match sv.GetUserByTelegramID up.userID with
  | .error _ =>
    (none, [.getUserByTelegramID up.userID,
      .reply (ascii "Please [connect your GitHub account](" ++ sv.loginURL ++ ascii ") first.")])
  | .ok encrypted =>
    if encrypted = [] then
      (none, [.getUserByTelegramID up.userID,
        .reply (ascii "Please [connect your GitHub account](" ++ sv.loginURL
          ++ ascii ") first.")])
    else
      match sv.Decrypt encrypted with
      | .error _ =>
        (none, [.getUserByTelegramID up.userID,
          .reply (ascii "Auth error. Reconnect via /connect")])
      | .ok token => (some token, [.getUserByTelegramID up.userID])

/-- Model of `Approve`, when the clock reads `now`: the calls made, in order,
and the message-context table afterwards. -/
def Approve (up : Update) (sv : Services) (ContextCache : Cache GoString MessageContext)
    (now : Time) : List Call × Cache GoString MessageContext :=
  match up.replyTo with
  | none =>
    ([.reply (ascii "Please use this command in reply to a notification.")], ContextCache)
  | some messageID =>
    match ContextCache.Get now (github.contextKey up.chatID messageID) with
    | ((_, false), c) =>
      ([.reply (ascii "Context not found. The message might be too old.")], c)
    | ((mContext, true), c) =>
      if mContext.EntityType ≠ ascii "pr" ∧ mContext.EntityType ≠ ascii "pr_review" then
        ([.reply (ascii "This command is only for Pull Requests.")], c)
      else
        match getAuthenticatedClient up sv with
        | (none, calls) => (calls, c)
        | (some _, calls) =>
          let call := Call.createReview mContext.Owner mContext.Repo mContext.IssueNumber
          match sv.CreateReview mContext.Owner mContext.Repo mContext.IssueNumber with
          | some err =>
            match handleAuthError up err with
            | (true, authCalls) => (calls ++ [call] ++ authCalls, c)
            | (false, authCalls) =>
              (calls ++ [call] ++ authCalls
                ++ [.reply (ascii "Failed to approve: " ++ err.Error)], c)
          | none =>
            (calls ++ [call, .reply (utf8 "✅ PR #"
              ++ strconv.FormatInt mContext.IssueNumber ++ ascii " approved.")], c)

/-- Model of `handleIssueAction`, which `Close` calls with the state "closed"
and `Reopen` with "open". -/
def handleIssueAction (up : Update) (sv : Services)
    (ContextCache : Cache GoString MessageContext) (now : Time) (state : GoString) :
    List Call × Cache GoString MessageContext :=
  match up.replyTo with
  | none =>
    ([.reply (ascii "Please use this command in reply to a notification.")], ContextCache)
  | some messageID =>
    match ContextCache.Get now (github.contextKey up.chatID messageID) with
    | ((_, false), c) =>
      ([.reply (ascii "Context not found. The message might be too old.")], c)
    | ((mContext, true), c) =>
      match getAuthenticatedClient up sv with
      | (none, calls) => (calls, c)
      | (some _, calls) =>
        let call := Call.editIssue mContext.Owner mContext.Repo mContext.IssueNumber state
        match sv.EditIssue mContext.Owner mContext.Repo mContext.IssueNumber state with
        | some err =>
          match handleAuthError up err with
          | (true, authCalls) => (calls ++ [call] ++ authCalls, c)
          | (false, authCalls) =>
            (calls ++ [call] ++ authCalls
              ++ [.reply (ascii "Failed to update state: " ++ err.Error)], c)
        | none =>
          let action := if state = ascii "open" then ascii "reopened" else ascii "closed"
          (calls ++ [call, .reply (utf8 "✅ Issue/PR #"
            ++ strconv.FormatInt mContext.IssueNumber ++ ascii " " ++ action ++ ascii ".")], c)

/-- Model of `Close`. -/
def Close (up : Update) (sv : Services) (ContextCache : Cache GoString MessageContext)
    (now : Time) : List Call × Cache GoString MessageContext :=
  handleIssueAction up sv ContextCache now (ascii "closed")

/-- Model of `Reopen`. -/
def Reopen (up : Update) (sv : Services) (ContextCache : Cache GoString MessageContext)
    (now : Time) : List Call × Cache GoString MessageContext :=
  handleIssueAction up sv ContextCache now (ascii "open")

/-- Model of `HandleReply`, the handler of a text message that replies to
another message. -/
def HandleReply (up : Update) (sv : Services)
    (ContextCache : Cache GoString MessageContext) (now : Time) :
    List Call × Cache GoString MessageContext :=
  match up.replyTo with
  | none => ([], ContextCache)
  | some messageID =>
    match ContextCache.Get now (github.contextKey up.chatID messageID) with
    | ((_, false), c) => ([], c)
    | ((mContext, true), c) =>
      match sv.GetUserByTelegramID up.userID with
      | .error _ => ([.getUserByTelegramID up.userID], c)
      | .ok encrypted =>
        if encrypted = [] then ([.getUserByTelegramID up.userID], c)
        else
          match sv.Decrypt encrypted with
          | .error _ =>
            ([.getUserByTelegramID up.userID,
              .reply (ascii "Auth error. Reconnect via /connect")], c)
          | .ok _ =>
            if mContext.EntityType = ascii "pr_review_comment" ∧ mContext.CommentID ≠ 0 then
              ([.getUserByTelegramID up.userID,
                .createPullRequestComment mContext.Owner mContext.Repo mContext.IssueNumber
                  up.text mContext.CommentID], c)
            else
              ([.getUserByTelegramID up.userID,
                .createIssueComment mContext.Owner mContext.Repo mContext.IssueNumber
                  up.text], c)

end commands

namespace callbacks

open utils cache models bot

/-! ## callbacks.go: the button actions and the event toggle -/

/-- Model of `errors.As(err, &errResp)` for a target of type
`*gh.ErrorResponse`: the status of the first error response on the chain of
`err`. -/
def asErrorResponse : GoError → Option Int
  | .errorResponse status _ => some status
  | .other _ => none
  | .wrapped _ inner => asErrorResponse inner

/-- Model of `CallbackHandler.handleAuthError`: the result, and the calls made. -/
def handleAuthError (up : Update) (err : GoError) : Bool × List Call :=
  match asErrorResponse err with
  | some status =>
    if status = 401 ∨ status = 403 then
      (true, [.clearUserToken up.userID,
        .answer (ascii "GitHub auth error. Token revoked or expired.") true])
    else (false, [])
  | none => (false, [])

/-- Lines 570 to 617 of `HandlePRAction`: what the function does with the
action and the context it found in the action table. -/
def prActionTail (up : Update) (sv : Services) (action : GoString)
    (prContext : PRActionContext) : List Call :=
  let owner := prContext.Owner
  let repo := prContext.Repo
  let prNum := prContext.PRNumber
  let repoFullName := owner ++ ascii "/" ++ repo
  match sv.GetRepoLink up.chatID repoFullName with
  | .error _ =>
    [.getRepoLink up.chatID repoFullName,
      .answer (ascii "This chat is not linked to the repo.") true]
  | .ok _ =>
    let noToken := [Call.getRepoLink up.chatID repoFullName,
      .getUserByTelegramID up.userID,
      .answer (ascii "Please connect GitHub account first via /connect") true]
    match sv.GetUserByTelegramID up.userID with
    | .error _ => noToken
    | .ok encrypted =>
      if encrypted = [] then noToken
      else
        let calls := [Call.getRepoLink up.chatID repoFullName,
          .getUserByTelegramID up.userID]
        match sv.Decrypt encrypted with
        | .error _ => calls ++ [.answer (ascii "Auth error. Reconnect via /connect") true]
        | .ok _ =>
          let step : List Call × Option GoError × GoString :=
            if action = ascii "approve" then
              ([.createReview owner repo prNum], sv.CreateReview owner repo prNum,
                ascii "Approved!")
            else if action = ascii "close" then
              ([.editPullRequest owner repo prNum (ascii "closed")],
                sv.EditPullRequest owner repo prNum (ascii "closed"), ascii "Closed!")
            else ([], none, [])
          match step with
          | (made, some err, _) =>
            match handleAuthError up err with
            | (true, authCalls) => calls ++ made ++ authCalls
            | (false, authCalls) =>
              calls ++ made ++ authCalls
                ++ [.answer (ascii "Failed: " ++ err.Error) true]
          | (made, none, msg) => calls ++ made ++ [.answer msg true]

/-- The calls that `HandlePRAction` makes after the lookup in the action
table. -/
def prDispatchCalls (up : Update) (sv : Services) : PRDispatch → List Call
  | .ret => []
  | .answerExpired =>
    [.answer (ascii "Action expired. Please open the PR link manually.") true]
  | .proceed action prContext => prActionTail up sv action prContext

/-- Model of `HandlePRAction` as a whole: the calls made, in order, and the
action table afterwards. -/
def HandlePRActionCalls (up : Update) (sv : Services)
    (ActionCache : Cache GoString PRActionContext) (now : Time) (data : GoString) :
    Outcome (List Call × Cache GoString PRActionContext) :=
  match HandlePRAction ActionCache now data with
  | .panicked => .panicked
  | .returned (d, c) => .returned (prDispatchCalls up sv d, c)

/-- The first loop of the branch `te` (lines 151 to 159): the events of the
hook up to the first "*", and whether a "*" was met. -/
def currentEventsLoop : List GoString → List GoString → List GoString × Bool
  | [], currentEvents => (currentEvents, false)
  | e :: rest, currentEvents =>
    if e = ascii "*" then (currentEvents, true)
    else currentEventsLoop rest (currentEvents ++ [e])

/-- The list `currentEvents` when control reaches line 167: the events up to
the first "*", followed by the names of all supported events when there was
a "*". -/
def currentEvents (hookEvents : List GoString) : List GoString :=
  match currentEventsLoop hookEvents [] with
  | (cur, true) => cur ++ github.SupportedEvents.map github.Event.Name
  | (cur, false) => cur

/-- The second loop (lines 167 to 175): the events other than `evt`, and
whether `evt` was met. -/
def newEventsLoop (evt : GoString) :
    List GoString → List GoString → Bool → List GoString × Bool
  | [], newEvents, found => (newEvents, found)
  | e :: rest, newEvents, found =>
    if e = evt then newEventsLoop evt rest newEvents true
    else newEventsLoop evt rest (newEvents ++ [e]) found

/-- The list `newEvents` that the branch `te` writes back to the hook with
`EditHook`, from the events of the hook and the event to toggle. -/
def toggledEvents (hookEvents : List GoString) (evt : GoString) : List GoString :=
  match newEventsLoop evt (currentEvents hookEvents) [] false with
  | (newEvents, true) => newEvents
  | (newEvents, false) => newEvents ++ [evt]

/-- The event name that the branch `te` takes for a short code (lines 119
to 122). -/
def eventOfShort (shortEvt : GoString) : GoString :=
  match shortToEvent.lookup shortEvt with
  | some evt => evt
  | none => shortEvt

end callbacks

namespace main

open utils cache github

/-! ## main.go: the handler of /oauth/callback -/

/-- The response of `http.Error(w, "Missing code", 400)`. -/
def missingCode : Response := { status := 400, body := ascii "Missing code\n" }

/-- The response of `http.Error(w, "Invalid or expired state", 400)`. -/
def invalidState : Response :=
  { status := 400, body := ascii "Invalid or expired state\n" }

/-- Model of the handler of "/oauth/callback", when the clock reads `now`:
the response, and the state table afterwards. What follows
`oauthStateCache.Delete(state)` (the code exchange, the encryption, the store
of the user, the message) touches no table and is the parameter `rest`, from
the Telegram id and the code to the response. -/
def oauthCallback (rest : Int → GoString → Response) (oauthStateCache : Cache GoString Int)
    (now : Time) (code state : GoString) : Response × Cache GoString Int :=
  if code = [] then (missingCode, oauthStateCache)
  else
    match oauthStateCache.Get now state with
    | ((_, false), c) => (invalidState, c)
    | ((telegramID, true), c) => (rest telegramID code, c.Delete state)

/-- A call of the program on the state table: a `/connect` command or a
request to "/oauth/callback". -/
inductive StateOp where
  | connect (now : Time) (isPrivate : Bool) (generated : Except String GoString)
      (userID : Int)
  | callback (now : Time) (code state : GoString)

/-- The state table after one call. -/
def StateOp.run (rest : Int → GoString → Response) (c : Cache GoString Int) :
    StateOp → Cache GoString Int
  | .connect now isPrivate generated userID =>
    commands.Connect c now isPrivate generated userID
  | .callback now code state => (oauthCallback rest c now code state).2

/-- Whether the call is a `/connect` that stores the state. -/
def StateOp.stores (state : GoString) : StateOp → Bool
  | .connect _ isPrivate (.ok s) _ => isPrivate && decide (s = state)
  | _ => false

/-- The state table after a sequence of calls, first to last. -/
def runStateOps (rest : Int → GoString → Response) (c : Cache GoString Int)
    (ops : List StateOp) : Cache GoString Int :=
  ops.foldl (StateOp.run rest) c

end main

namespace callbacks

open utils cache models bot

/-- The action table after a sequence of button presses, each with the clock
reading at the press and its callback data; `HandlePRAction` is the only
function of the program that calls a method of the table. -/
def runPRActions (ActionCache : Cache GoString PRActionContext) :
    List (Time × GoString) → Outcome (Cache GoString PRActionContext)
  | [] => .returned ActionCache
  | (now, data) :: rest =>
    match HandlePRAction ActionCache now data with
    | .panicked => .panicked
    | .returned (_, c) => runPRActions c rest

end callbacks

namespace bot

open utils

/-- A stand-in for the chat and user of an update: a reply to message 5 in
chat 7 by user 42. -/
def demoUpdate : Update where
  chatID := 7
  userID := 42
  text := ascii "looks good"
  replyTo := some 5

/-- Stand-in services: the user has a token that decrypts, the chat is linked
to every repository, and every GitHub call succeeds. -/
def demoServices : Services where
  GetUserByTelegramID := fun _ => .ok (ascii "encrypted")
  Decrypt := fun _ => .ok (ascii "token")
  loginURL := ascii "https://example.org/login"
  GetRepoLink := fun _ name => .ok { RepoFullName := name, WebhookID := 5 }
  CreateReview := fun _ _ _ => none
  EditPullRequest := fun _ _ _ _ => none
  EditIssue := fun _ _ _ _ => none
  CreateIssueComment := fun _ _ _ _ => none
  CreatePullRequestComment := fun _ _ _ _ _ => none

end bot

namespace github

open utils

/-- A repository event for the rename of "o/old" to "o/new". -/
def demoRenameEvent : RepositoryEvent where
  Action := ascii "renamed"
  RepoFullName := ascii "o/new"
  RepoName := ascii "new"
  RepoHTMLURL := ascii "https://github.com/o/new"
  SenderLogin := ascii "octocat"

/-- A commit-comment event as `ParseWebHook` returns it for the body "{}":
every getter answers the empty string. -/
def emptyCommitCommentEvent : CommitCommentEvent where
  CommentBody := []
  CommentCommitID := []
  CommentHTMLURL := []
  RepoFullName := []
  SenderLogin := []
  Action := []

/-- A status event as `ParseWebHook` returns it for the body "{}". -/
def emptyStatusEvent : StatusEvent where
  State := []
  CommitSHA := []
  CommitHTMLURL := []
  RepoFullName := []
  Description := []
  SenderLogin := []

end github

namespace strings

open utils

/-! ## unicode/utf8, unicode and strings, as far as `normalizeMessage` uses them -/

/-- The rune `utf8.RuneError`, U+FFFD. -/
def RuneError : Nat := 65533

/-- Model of `unicode.IsSpace`: the code points with the property
White_Space. -/
def IsSpace (r : Nat) : Bool :=
  decide (r = 9 ∨ r = 10 ∨ r = 11 ∨ r = 12 ∨ r = 13 ∨ r = 32 ∨ r = 133 ∨ r = 160 ∨
    r = 5760 ∨ (8192 ≤ r ∧ r ≤ 8202) ∨ r = 8232 ∨ r = 8233 ∨ r = 8239 ∨ r = 8287 ∨
    r = 12288)

/-- The table `first` of unicode/utf8 for a byte from 0x80 on: the size of the
encoding that the byte starts and the range accepted for the second byte;
`none` for a byte that starts no encoding. -/
def leadInfo (b : Nat) : Option (Nat × Nat × Nat) :=
  if 194 ≤ b ∧ b ≤ 223 then some (2, 128, 191)
  else if b = 224 then some (3, 160, 191)
  else if (225 ≤ b ∧ b ≤ 236) ∨ b = 238 ∨ b = 239 then some (3, 128, 191)
  else if b = 237 then some (3, 128, 159)
  else if b = 240 then some (4, 144, 191)
  else if 241 ≤ b ∧ b ≤ 243 then some (4, 128, 191)
  else if b = 244 then some (4, 128, 143)
  else none

/-- The part of `utf8.DecodeRuneInString` for a first byte `s0` that starts
an encoding of `sz` bytes whose second byte lies between `lo` and `hi`. -/
def decodeMultiByte (s : GoString) (s0 sz lo hi : Nat) : Nat × Nat :=
  if s.length < sz then (RuneError, 1)
  else if (s.getD 1 0).val < lo ∨ hi < (s.getD 1 0).val then (RuneError, 1)
  else if sz ≤ 2 then (s0 % 32 * 64 + (s.getD 1 0).val % 64, 2)
  else if (s.getD 2 0).val < 128 ∨ 191 < (s.getD 2 0).val then (RuneError, 1)
  else if sz ≤ 3 then
    (s0 % 16 * 4096 + (s.getD 1 0).val % 64 * 64 + (s.getD 2 0).val % 64, 3)
  else if (s.getD 3 0).val < 128 ∨ 191 < (s.getD 3 0).val then (RuneError, 1)
  else
    (s0 % 8 * 262144 + (s.getD 1 0).val % 64 * 4096
      + (s.getD 2 0).val % 64 * 64 + (s.getD 3 0).val % 64, 4)

/-- Model of `utf8.DecodeRuneInString`: the first rune of the string and the
number of bytes of its encoding; an encoding that is not valid gives
`(RuneError, 1)`, the empty string `(RuneError, 0)`. -/
def DecodeRuneInString (s : GoString) : Nat × Nat :=
  match s with
  | [] => (RuneError, 0)
  | s0 :: _ =>
    if s0.val < 128 then (s0.val, 1)
    else
      match leadInfo s0.val with
      | none => (RuneError, 1)
      | some (sz, lo, hi) => decodeMultiByte s s0.val sz lo hi

/-- Model of `utf8.RuneStart`. -/
def RuneStart (b : Byte) : Bool := decide (¬ (128 ≤ b.val ∧ b.val ≤ 191))

/-- The index `start` of `utf8.DecodeLastRuneInString` after its loop: the
nearest byte before the last one that can start a rune, at most 4 bytes
back. -/
def lastRuneStart (s : GoString) : Nat :=
  if 2 ≤ s.length ∧ RuneStart (s.getD (s.length - 2) 0) then s.length - 2
  else if 3 ≤ s.length ∧ RuneStart (s.getD (s.length - 3) 0) then s.length - 3
  else if 4 ≤ s.length ∧ RuneStart (s.getD (s.length - 4) 0) then s.length - 4
  else s.length - 5

/-- Model of `utf8.DecodeLastRuneInString`: the last rune of the string and
the number of bytes of its encoding. -/
def DecodeLastRuneInString (s : GoString) : Nat × Nat :=
  if s = [] then (RuneError, 0)
  else if (s.getD (s.length - 1) 0).val < 128 then ((s.getD (s.length - 1) 0).val, 1)
  else
    if lastRuneStart s + (DecodeRuneInString (s.drop (lastRuneStart s))).2 ≠ s.length then
      (RuneError, 1)
    else DecodeRuneInString (s.drop (lastRuneStart s))

/-- The loop of `strings.TrimLeftFunc(s, unicode.IsSpace)`: runes are taken
from the front while they are white space. The first argument bounds the
number of steps. -/
def trimLeftSpaceLoop : Nat → GoString → GoString
  | 0, s => s
  | fuel + 1, s =>
    if s = [] then []
    else if IsSpace (DecodeRuneInString s).1 then
      trimLeftSpaceLoop fuel (s.drop (DecodeRuneInString s).2)
    else s

/-- The loop of `strings.TrimRightFunc(s, unicode.IsSpace)`: runes are taken
from the back while they are white space. -/
def trimRightSpaceLoop : Nat → GoString → GoString
  | 0, s => s
  | fuel + 1, s =>
    if s = [] then []
    else if IsSpace (DecodeLastRuneInString s).1 then
      trimRightSpaceLoop fuel (s.take (s.length - (DecodeLastRuneInString s).2))
    else s

/-- Model of `strings.TrimSpace`: all leading and trailing white space, as
defined by Unicode, is removed (the function is
`TrimFunc(s, unicode.IsSpace)` with a fast path for ASCII that computes the
same). -/
def TrimSpace (s : GoString) : GoString :=
  trimRightSpaceLoop s.length (trimLeftSpaceLoop s.length s)

/-- Model of `strings.TrimRight(s, cutset)` for a cutset of ASCII bytes: the
bytes of the cutset are taken from the back. -/
def TrimRight (s : GoString) (cutset : List Byte) : GoString :=
  (s.reverse.dropWhile (fun b => decide (b ∈ cutset))).reverse

/-- Model of `strings.Join(elems, sep)`. -/
def Join : List GoString → GoString → GoString
  | [], _ => []
  | [a], _ => a
  | a :: b :: rest, sep => a ++ sep ++ Join (b :: rest) sep

end strings

namespace github

open utils

/-! ## webhooks.go: normalizeMessage -/

/-- Model of `re.ReplaceAllString(out, "\n\n")` for the expression `\n{3,}`:
a match is a maximal run of three or more newlines (the repetition is greedy
and the search goes on after the match), so a newline is dropped as long as
two more follow it. -/
def collapseNewlines : GoString → GoString
  | [] => []
  | c :: rest =>
    if c = 10 ∧ rest.take 2 = [10, 10] then collapseNewlines rest
    else c :: collapseNewlines rest

/-- The string `out` of `normalizeMessage` after the loop over the lines and
the `Join`: every line with its trailing spaces and tabs removed. -/
def trimLines (s : GoString) : GoString :=
  strings.Join ((callbacks.Split s 10).map (fun ln => strings.TrimRight ln (ascii " \t")))
    (ascii "\n")

/-- Model of `normalizeMessage`. -/
def normalizeMessage (s : GoString) : GoString :=
  if s = [] then s
  else strings.TrimSpace (collapseNewlines (trimLines s))

/-- No space or tab stands right before a newline or at the end of the
string: no line ends in a space or a tab. -/
def noTrailingBlank : GoString → Prop
  | [] => True
  | [c] => c ≠ 32 ∧ c ≠ 9
  | c :: d :: rest => (d = 10 → c ≠ 32 ∧ c ≠ 9) ∧ noTrailingBlank (d :: rest)

/-- No three newlines stand in a row. -/
def noTripleNewline : GoString → Prop
  | c :: d :: e :: rest => ¬ (c = 10 ∧ d = 10 ∧ e = 10) ∧ noTripleNewline (d :: e :: rest)
  | _ => True

end github

namespace github

open utils cache models

/-! ## Calls on the message-context table -/

/-- One call that the program makes on the message-context table, with the
clock reading at the call: the `Set` of `storeMessageContext` after
`processEvent` has sent a notification (webhooks.go line 193, the only write
on the table), or the `Get` of a reply handler (`Approve`,
`handleIssueAction`, `HandleReply`). -/
inductive ContextOp where
  | store (now : Time) (messageID chatID : Int) (event : WebhookEvent)
  | lookup (now : Time) (chatID messageID : Int)
  deriving DecidableEq

/-- The table after one call. -/
def ContextOp.run (ContextCache : Cache GoString MessageContext) :
    ContextOp → Cache GoString MessageContext
  | .store now messageID chatID event =>
    storeMessageContext ContextCache now messageID chatID event
  | .lookup now chatID messageID => (lookupContext ContextCache now chatID messageID).2

/-- The table after a sequence of calls, first to last. -/
def runContextOps (ContextCache : Cache GoString MessageContext) (ops : List ContextOp) :
    Cache GoString MessageContext :=
  ops.foldl ContextOp.run ContextCache

/-- The calls between the recording and the lookup in the worked example: an
issue event recorded under the next message id of the same chat, a lookup of
the pair itself and a lookup of a pair without entry. -/
def demoContextOps : List ContextOp :=
  [.store 3600000000000 78 (-1001234567890)
      (.issues { OwnerLogin := ascii "octo", RepoName := ascii "repo", Number := 13,
                 CommentID := 0 }),
    .lookup 7200000000000 (-1001234567890) 77,
    .lookup 7200000000000 (-1001234567890) 5]

end github

namespace cache

namespace Cache

variable {K V : Type} [DecidableEq K]

/-! ## The calls of `Get` and `Cleanup` on the map, one by one -/

/-- Line 32 of `Get`: the call `c.items.Load(key)`, one call on the map. -/
def getLoad (c : Cache K V) (key : K) : Option (item V) :=
  c.items.Load key

/-- Lines 33 to 45 of `Get`, run when the clock reads `now` on the cache as
it is by then: what `Get` does with the value that its `Load` returned. The
`Delete` of line 40 is by key. -/
def getFinish [Inhabited V] (c : Cache K V) (now : Time) (key : K) :
    Option (item V) → (V × Bool) × Cache K V
  | none => ((default, false), c)
  | some itm =>
    if Time.After now itm.expiration then
      ((default, false), ⟨c.items.Delete key⟩)
    else
      ((itm.value, true), c)

/-- The callback of `Cleanup` (lines 56 to 60), run when the clock reads
`now` on the cache as it is by then, for a pair that `Range` has read. The
`Delete` of line 58 is by key. -/
def cleanupVisit (c : Cache K V) (now : Time) (key : K) (itm : item V) : Cache K V :=
  if Time.After now itm.expiration then ⟨c.items.Delete key⟩ else c

/-- A `Get(key)` of one goroutine and a `Set(key, value, ttl)` of another,
in this order of their calls on the map: the `Load` of `Get`, the `Store` of
`Set` (clock `tSet`), then the expiry test and the `Delete` of `Get` (clock
`tTest`). The result of `Get` and the cache afterwards. -/
def getAroundSet [Inhabited V] (c : Cache K V) (tSet tTest : Time) (key : K) (value : V)
    (ttl : Duration) : (V × Bool) × Cache K V :=
  let loaded := c.getLoad key
  let afterSet := c.Set tSet key value ttl
  afterSet.getFinish tTest key loaded

/-- A `Cleanup` that visits `key` and a `Set(key, value, ttl)` of another
goroutine, in this order: `Range` reads the pair of `key`, the `Store` of
`Set` (clock `tSet`), then the callback on the pair read (clock `tTest`).
The cache afterwards. -/
def cleanupVisitAroundSet (c : Cache K V) (tSet tTest : Time) (key : K) (value : V)
    (ttl : Duration) : Cache K V :=
  match c.items.Load key with
  | none => c.Set tSet key value ttl
  | some itm => (c.Set tSet key value ttl).cleanupVisit tTest key itm

end Cache

end cache

namespace main

open utils cache github

/-! ## The handler of /oauth/callback, call by call on the state table -/

/-- Where a request to "/oauth/callback" stands after line 138: answered, or
past the `Get` with the Telegram id that the state resolved to. -/
inductive CallbackPhase where
  | answered (r : Response)
  | resolved (telegramID : Int)
  deriving DecidableEq

/-- Lines 126 to 138 of the handler, when the clock reads `now`: up to and
including the call `oauthStateCache.Get(state)` of line 134. -/
def oauthCallbackGet (oauthStateCache : Cache GoString Int) (now : Time)
    (code state : GoString) : CallbackPhase × Cache GoString Int :=
  if code = [] then (.answered missingCode, oauthStateCache)
  else
    match oauthStateCache.Get now state with
    | ((_, false), c) => (.answered invalidState, c)
    | ((telegramID, true), c) => (.resolved telegramID, c)

/-- Lines 140 and on of the handler, on the table as it is by then: the call
`oauthStateCache.Delete(state)`, a call of its own on the table, and what
follows (the parameter `rest`, as in `oauthCallback`). -/
def oauthCallbackDelete (rest : Int → GoString → Response)
    (oauthStateCache : Cache GoString Int) (code state : GoString) :
    CallbackPhase → Response × Cache GoString Int
  | .answered r => (r, oauthStateCache)
  | .resolved telegramID => (rest telegramID code, oauthStateCache.Delete state)

/-- Two requests with the same state, each served in a goroutine of its own
(`net/http`), with their calls on the table in this order: the `Get` of the
first (clock `now1`), the `Get` of the second (clock `now2`), the `Delete` of
the first, the `Delete` of the second. Where the two requests stand after
their `Get`, their responses, and the table afterwards. -/
def overlappingCallbacks (rest : Int → GoString → Response)
    (oauthStateCache : Cache GoString Int) (now1 now2 : Time)
    (code1 code2 state : GoString) :
    (CallbackPhase × CallbackPhase) × (Response × Response) × Cache GoString Int :=
  let g1 := oauthCallbackGet oauthStateCache now1 code1 state
  let g2 := oauthCallbackGet g1.2 now2 code2 state
  let d1 := oauthCallbackDelete rest g2.2 code1 state g1.1
  let d2 := oauthCallbackDelete rest d1.2 code2 state g2.1
  ((g1.1, g2.1), (d1.1, d2.1), d2.2)

end main

/-! # Properties of the cache -/

namespace cache

namespace SyncMap

variable {K α : Type} [DecidableEq K]

theorem eq_of_entries {a b : SyncMap K α} (h : a.entries = b.entries) : a = b := by
  cases a; cases b; cases h; rfl

theorem find_filter_ne_self (l : List (K × α)) (k : K) :
    (l.filter (fun e => decide (e.1 ≠ k))).find? (fun e => decide (e.1 = k)) = none := by
  rw [List.find?_eq_none]
  intro e he
  have := (List.mem_filter.1 he).2
  simpa using this

theorem find_filter_ne_of_ne (l : List (K × α)) {k k' : K} (hne : k' ≠ k) :
    (l.filter (fun e => decide (e.1 ≠ k))).find? (fun e => decide (e.1 = k'))
      = l.find? (fun e => decide (e.1 = k')) := by
  rw [List.find?_filter]
  congr 1
  funext e
  by_cases h2 : e.1 = k'
  · simp [h2, hne]
  · simp [h2]

theorem Load_Store_self (m : SyncMap K α) (k : K) (v : α) :
    (m.Store k v).Load k = some v := by
  simp [Store, Load, List.find?_cons]

theorem Load_Store_ne (m : SyncMap K α) {k k' : K} (v : α) (hne : k' ≠ k) :
    (m.Store k v).Load k' = m.Load k' := by
  have h : ¬ k = k' := fun h => hne h.symm
  simp only [Store, Load, List.find?_cons, h, decide_False]
  rw [find_filter_ne_of_ne _ hne]

theorem Load_Delete_self (m : SyncMap K α) (k : K) : (m.Delete k).Load k = none := by
  simp only [Delete, Load, find_filter_ne_self, Option.map_none']

theorem Load_Delete_ne (m : SyncMap K α) {k k' : K} (hne : k' ≠ k) :
    (m.Delete k).Load k' = m.Load k' := by
  simp only [Delete, Load]
  rw [find_filter_ne_of_ne _ hne]

theorem not_mem_keys_of_Load_none (m : SyncMap K α) (k : K) (h : m.Load k = none) :
    ∀ e ∈ m.entries, e.1 ≠ k := by
  intro e he hk
  simp only [Load, Option.map_eq_none', List.find?_eq_none] at h
  exact (h e he) (by simp [hk])

theorem Delete_of_Load_none (m : SyncMap K α) (k : K) (h : m.Load k = none) :
    m.Delete k = m := by
  apply eq_of_entries
  simp only [Delete]
  rw [List.filter_eq_self]
  intro e he
  simpa using not_mem_keys_of_Load_none m k h e he

theorem Load_Delete_of_none (m : SyncMap K α) (k k' : K) (h : m.Load k = none) :
    (m.Delete k').Load k = none := by
  by_cases hk : k = k'
  · subst hk; exact Load_Delete_self m k
  · rw [Load_Delete_ne m hk]; exact h

theorem mem_of_Load_some (m : SyncMap K α) (k : K) (v : α) (h : m.Load k = some v) :
    (k, v) ∈ m.entries := by
  simp only [Load, Option.map_eq_some'] at h
  obtain ⟨e, he, hv⟩ := h
  have hk : e.1 = k := by simpa using List.find?_some he
  have hmem := List.mem_of_find?_eq_some he
  have : e = (k, v) := Prod.ext hk hv
  rw [← this]; exact hmem

theorem val_eq_of_Load_some (m : SyncMap K α) (k : K) (v : α) (h : m.Load k = some v)
    (e : K × α) (he : e ∈ m.entries) (hk : e.1 = k) : e.2 = v := by
  have hmem := mem_of_Load_some m k v h
  have := List.inj_on_of_nodup_map m.nodup he hmem hk
  rw [this]

theorem find_filter_val (l : List (K × α)) (hnd : (l.map Prod.fst).Nodup)
    (q : α → Bool) (k : K) :
    ((l.filter (fun e => q e.2)).find? (fun e => decide (e.1 = k))).map Prod.snd
      = ((l.find? (fun e => decide (e.1 = k))).map Prod.snd).filter q := by
  induction l with
  | nil => rfl
  | cons e l ih =>
    rw [List.map_cons, List.nodup_cons] at hnd
    by_cases hk : e.1 = k
    · have hnone : (l.filter (fun e => q e.2)).find? (fun e => decide (e.1 = k)) = none := by
        rw [List.find?_eq_none]
        intro x hx
        have hxl : x ∈ l := (List.mem_filter.1 hx).1
        have : x.1 ≠ e.1 := fun hxe => hnd.1 (hxe ▸ List.mem_map_of_mem Prod.fst hxl)
        simpa [← hk] using this
      cases hq : q e.2
      · simp [List.filter_cons, hq, hnone, List.find?_cons, hk, Option.filter]
      · simp [List.filter_cons, hq, List.find?_cons, hk, Option.filter]
    · cases hq : q e.2
      · simpa [List.filter_cons, hq, List.find?_cons, hk] using ih hnd.2
      · simpa [List.filter_cons, hq, List.find?_cons, hk] using ih hnd.2

/-- The callback that `Cleanup` hands to `Range`. -/
theorem rangeLoop_cleanup (now : Time) (ks : List K) (cur : SyncMap K (item α)) :
    (rangeLoop (fun key itm m =>
        (if Time.After now itm.expiration then m.Delete key else m, true)) ks cur).entries
      = cur.entries.filter
          (fun e => !(decide (e.1 ∈ ks) && Time.After now e.2.expiration)) := by
  induction ks generalizing cur with
  | nil => simp [rangeLoop]
  | cons k ks ih =>
    unfold rangeLoop
    cases hL : cur.Load k with
    | none =>
      simp only [ih]
      apply List.filter_congr
      intro e he
      have hne := not_mem_keys_of_Load_none cur k hL e he
      simp [hne]
    | some v =>
      by_cases hexp : Time.After now v.expiration = true
      · simp only [hexp, if_true]
        rw [ih]
        simp only [Delete, List.filter_filter]
        apply List.filter_congr
        intro e he
        by_cases hk : e.1 = k
        · have hv := val_eq_of_Load_some cur k v hL e he hk
          simp [hk, hv, hexp]
        · simp [hk]
      · simp only [hexp, ih]
        apply List.filter_congr
        intro e he
        by_cases hk : e.1 = k
        · have hv := val_eq_of_Load_some cur k v hL e he hk
          simp [hk, hv, hexp]
        · simp [hk]

end SyncMap

end cache

namespace cache

namespace Cache

variable {K V : Type} [DecidableEq K]

theorem eq_of_items {a b : Cache K V} (h : a.items = b.items) : a = b := by
  cases a; cases b; cases h; rfl

theorem Cleanup_entries (c : Cache K V) (now : Time) :
    (c.Cleanup now).items.entries
      = c.items.entries.filter (fun e => !Time.After now e.2.expiration) := by
  simp only [Cleanup, SyncMap.Range, SyncMap.rangeLoop_cleanup]
  apply List.filter_congr
  intro e he
  have : e.1 ∈ c.items.entries.map Prod.fst := List.mem_map_of_mem Prod.fst he
  simp only [List.mem_map] at this
  simp [this]

theorem Load_Cleanup (c : Cache K V) (now : Time) (k : K) :
    (c.Cleanup now).items.Load k
      = (c.items.Load k).filter (fun itm => !Time.After now itm.expiration) := by
  simp only [SyncMap.Load, Cleanup_entries]
  exact SyncMap.find_filter_val c.items.entries c.items.nodup
    (fun itm => !Time.After now itm.expiration) k

theorem Get_of_Load_none [Inhabited V] (c : Cache K V) (now : Time) (k : K)
    (h : c.items.Load k = none) : c.Get now k = ((default, false), c) := by
  simp [Get, h]

theorem Get_of_Load_live [Inhabited V] (c : Cache K V) (now : Time) (k : K) (itm : item V)
    (h : c.items.Load k = some itm) (hlive : now ≤ itm.expiration) :
    c.Get now k = ((itm.value, true), c) := by
  have hna : Time.After now itm.expiration = false := by
    simp only [Time.After, decide_eq_false_iff_not, not_lt]; exact hlive
  simp only [Get, h, hna]
  rfl

theorem Load_Set_self (c : Cache K V) (now : Time) (k : K) (v : V) (ttl : Duration) :
    (c.Set now k v ttl).items.Load k = some { value := v, expiration := now + ttl } := by
  simp only [Set, Time.Add, SyncMap.Load_Store_self]

theorem Load_Set_ne (c : Cache K V) (now : Time) {k k' : K} (v : V) (ttl : Duration)
    (hne : k' ≠ k) : (c.Set now k v ttl).items.Load k' = c.items.Load k' := by
  simp only [Set]
  exact SyncMap.Load_Store_ne _ _ hne

theorem Load_run_of_none [Inhabited V] (c : Cache K V) (k : K) (op : Op K V)
    (hop : Op.setsKey k op = false) (h : c.items.Load k = none) :
    (Op.run c op).items.Load k = none := by
  cases op with
  | set now key value ttl =>
    have hne : k ≠ key := by
      intro hk; simp [Op.setsKey, hk] at hop
    simp only [Op.run, Set]
    rw [SyncMap.Load_Store_ne _ _ hne]; exact h
  | get now key =>
    simp only [Op.run, Get]
    cases hL : c.items.Load key with
    | none => exact h
    | some itm =>
      by_cases hexp : Time.After now itm.expiration = true
      · simp only [hexp, if_true]
        exact SyncMap.Load_Delete_of_none _ _ _ h
      · simp only [hexp]; exact h
  | delete key =>
    exact SyncMap.Load_Delete_of_none _ _ _ h
  | cleanup now =>
    simp only [Op.run, Load_Cleanup, h, Option.filter]

theorem Load_runOps_of_none [Inhabited V] (ops : List (Op K V)) (c : Cache K V) (k : K)
    (hops : ∀ op ∈ ops, Op.setsKey k op = false) (h : c.items.Load k = none) :
    (runOps c ops).items.Load k = none := by
  induction ops generalizing c with
  | nil => exact h
  | cons op ops ih =>
    simp only [runOps, List.foldl_cons]
    exact ih (Op.run c op) (fun o ho => hops o (List.mem_cons_of_mem _ ho))
      (Load_run_of_none c k op (hops op (List.mem_cons_self _ _)) h)

end Cache

end cache

namespace cache

namespace Cache

variable {K V : Type} [DecidableEq K]

/-- C1: after `Set(k, v, ttl)` at time `t` with `ttl > 0`, whatever the cache
held before, the entry of `k` is `v` with expiration `t + ttl`, and a `Get(k)`
at any time `t'` with `t ≤ t' ≤ t + ttl` returns `(v, true)` and leaves the
cache as it is. -/
theorem C1_get_after_set [Inhabited V] (c : Cache K V) (k : K) (v : V)
    (ttl : Duration) (t t' : Time) (_httl : 0 < ttl) (_h1 : t ≤ t')
    (h2 : t' ≤ t + ttl) :
    (c.Set t k v ttl).items.Load k = some { value := v, expiration := t + ttl } ∧
    (c.Set t k v ttl).Get t' k = ((v, true), c.Set t k v ttl) := by
  have hL : (c.Set t k v ttl).items.Load k
      = some { value := v, expiration := t + ttl } := by
    simp only [Set, Time.Add, SyncMap.Load_Store_self]
  refine ⟨hL, ?_⟩
  have hna : Time.After t' (t + ttl) = false := by
    simp only [Time.After, decide_eq_false_iff_not, not_lt]; exact h2
  simp only [Get, hL, hna]
  rfl

/-- C1, on a cache that already holds an older entry for the key. -/
theorem C1_get_after_set_witness :
    (0 : Int) < 50 ∧ (100 : Int) ≤ 150 ∧ (150 : Int) ≤ 100 + 50 ∧
    (((New : Cache String Nat).Set 0 "k" 7 10).Set 100 "k" 9 50).items.Load "k"
      = some { value := 9, expiration := 100 + 50 } ∧
    (((New : Cache String Nat).Set 0 "k" 7 10).Set 100 "k" 9 50).Get 150 "k"
      = ((9, true), ((New : Cache String Nat).Set 0 "k" 7 10).Set 100 "k" 9 50) :=
  ⟨by decide, by decide, by decide,
    C1_get_after_set ((New : Cache String Nat).Set 0 "k" 7 10) "k" 9 50 100 150
      (by decide) (by decide) (by decide)⟩

/-- C2: after `Set(k, v, ttl)` at time `t` with `ttl > 0`, a `Get(k)` at a
time `t' > t + ttl` returns the zero value and `false`; and after any further
calls none of which is a `Set` on `k`, a `Get(k)` at any time still returns
the zero value and `false`. -/
theorem C2_expiry_no_resurrection [Inhabited V] (c : Cache K V) (k : K) (v : V)
    (ttl : Duration) (t t' t'' : Time) (ops : List (Op K V)) (_httl : 0 < ttl)
    (h : t + ttl < t') (hops : ∀ op ∈ ops, Op.setsKey k op = false) :
    ((c.Set t k v ttl).Get t' k).1 = (default, false) ∧
    ((runOps ((c.Set t k v ttl).Get t' k).2 ops).Get t'' k).1 = (default, false) := by
  have hL : (c.Set t k v ttl).items.Load k
      = some { value := v, expiration := t + ttl } := by
    simp only [Set, Time.Add, SyncMap.Load_Store_self]
  have ha : Time.After t' (t + ttl) = true := by
    simp only [Time.After, decide_eq_true_eq]; exact h
  have hG : (c.Set t k v ttl).Get t' k
      = ((default, false), ⟨(c.Set t k v ttl).items.Delete k⟩) := by
    simp only [Get, hL, ha, if_true]
  have hnone : ((c.Set t k v ttl).Get t' k).2.items.Load k = none := by
    rw [hG]; exact SyncMap.Load_Delete_self _ k
  refine ⟨by rw [hG], ?_⟩
  rw [Get_of_Load_none _ _ _ (Load_runOps_of_none ops _ k hops hnone)]

/-- C2, with other calls between the expired read and the later read. -/
theorem C2_expiry_no_resurrection_witness :
    (0 : Int) < 50 ∧ (100 : Int) + 50 < 151 ∧
    (∀ op ∈ [Op.set 160 "j" 1 5, Op.get 170 "k", Op.cleanup 180, Op.delete "j"],
      Op.setsKey "k" (op : Op String Nat) = false) ∧
    (((New : Cache String Nat).Set 100 "k" 9 50).Get 151 "k").1 = (default, false) ∧
    ((runOps (((New : Cache String Nat).Set 100 "k" 9 50).Get 151 "k").2
        [Op.set 160 "j" 1 5, Op.get 170 "k", Op.cleanup 180, Op.delete "j"]).Get
      120 "k").1 = (default, false) :=
  ⟨by decide, by decide, by decide,
    C2_expiry_no_resurrection (New : Cache String Nat) "k" 9 50 100 151 120
      [Op.set 160 "j" 1 5, Op.get 170 "k", Op.cleanup 180, Op.delete "j"]
      (by decide) (by decide) (by decide)⟩

/-- C3: a `Get(k)` on an entry whose expiration has passed returns the pair
that a `Get` of an absent key returns (in any cache, at any time), and leaves
the cache equal to the prior cache with `k` removed: `k` is absent and every
other key has the entry it had. -/
theorem C3_lazy_expiry [Inhabited V] (c : Cache K V) (now : Time) (k : K)
    (itm : item V) (hL : c.items.Load k = some itm) (hexp : itm.expiration < now) :
    (∀ (c' : Cache K V) (now' : Time) (k' : K), c'.items.Load k' = none →
      (c.Get now k).1 = (c'.Get now' k').1) ∧
    (c.Get now k).2 = c.Delete k ∧
    (c.Get now k).2.items.Load k = none ∧
    (∀ k', k' ≠ k → (c.Get now k).2.items.Load k' = c.items.Load k') := by
  have ha : Time.After now itm.expiration = true := by
    simp only [Time.After, decide_eq_true_eq]; exact hexp
  have hG : c.Get now k = ((default, false), c.Delete k) := by
    simp only [Get, hL, ha, if_true, Delete]
  refine ⟨?_, by rw [hG], ?_, ?_⟩
  · intro c' now' k' h'
    rw [hG, Get_of_Load_none c' now' k' h']
  · rw [hG]; exact SyncMap.Load_Delete_self _ k
  · intro k' hk'
    rw [hG]; exact SyncMap.Load_Delete_ne _ hk'

/-- C3, on a cache with an expired entry and a live one. -/
theorem C3_lazy_expiry_witness :
    (((New : Cache String Nat).Set 0 "a" 1 10).Set 0 "b" 2 100).items.Load "a"
      = some { value := 1, expiration := 10 } ∧
    (10 : Int) < 11 ∧
    (∀ (c' : Cache String Nat) (now' : Time) (k' : String), c'.items.Load k' = none →
      ((((New : Cache String Nat).Set 0 "a" 1 10).Set 0 "b" 2 100).Get 11 "a").1
        = (c'.Get now' k').1) ∧
    ((((New : Cache String Nat).Set 0 "a" 1 10).Set 0 "b" 2 100).Get 11 "a").2
      = (((New : Cache String Nat).Set 0 "a" 1 10).Set 0 "b" 2 100).Delete "a" ∧
    ((((New : Cache String Nat).Set 0 "a" 1 10).Set 0 "b" 2 100).Get 11 "a").2.items.Load "a"
      = none ∧
    (∀ k', k' ≠ "a" →
      ((((New : Cache String Nat).Set 0 "a" 1 10).Set 0 "b" 2 100).Get 11 "a").2.items.Load k'
        = (((New : Cache String Nat).Set 0 "a" 1 10).Set 0 "b" 2 100).items.Load k') :=
  ⟨by decide, by decide,
    C3_lazy_expiry (((New : Cache String Nat).Set 0 "a" 1 10).Set 0 "b" 2 100) 11 "a"
      { value := 1, expiration := 10 } (by decide) (by decide)⟩

/-- C4: `Delete(k)` removes the entry of `k` whether it has expired or not:
afterwards `k` is absent and `Get(k)` returns not found at every time; when
`k` was absent the cache is unchanged; every other key keeps its entry. -/
theorem C4_delete [Inhabited V] (c : Cache K V) (k : K) :
    (c.Delete k).items.Load k = none ∧
    (∀ now, (c.Delete k).Get now k = ((default, false), c.Delete k)) ∧
    (c.items.Load k = none → c.Delete k = c) ∧
    (∀ k', k' ≠ k → (c.Delete k).items.Load k' = c.items.Load k') := by
  have hnone : (c.Delete k).items.Load k = none := SyncMap.Load_Delete_self _ k
  refine ⟨hnone, fun now => Get_of_Load_none _ now k hnone, ?_, ?_⟩
  · intro h
    exact eq_of_items (SyncMap.Delete_of_Load_none c.items k h)
  · intro k' hk'
    exact SyncMap.Load_Delete_ne _ hk'

/-- C4 on a cache with two live entries: deleting a present key, and deleting
an absent one. -/
theorem C4_delete_witness :
    ((((New : Cache String Nat).Set 0 "a" 1 10).Set 0 "b" 2 100).Delete "a").items.Load "a"
      = none ∧
    (∀ now, ((((New : Cache String Nat).Set 0 "a" 1 10).Set 0 "b" 2 100).Delete "a").Get now "a"
      = ((default, false),
          (((New : Cache String Nat).Set 0 "a" 1 10).Set 0 "b" 2 100).Delete "a")) ∧
    (((New : Cache String Nat).Set 0 "a" 1 10).Set 0 "b" 2 100).Delete "z"
      = ((New : Cache String Nat).Set 0 "a" 1 10).Set 0 "b" 2 100 ∧
    ((((New : Cache String Nat).Set 0 "a" 1 10).Set 0 "b" 2 100).Delete "a").items.Load "b"
      = some { value := 2, expiration := 100 } :=
  ⟨(C4_delete (((New : Cache String Nat).Set 0 "a" 1 10).Set 0 "b" 2 100) "a").1,
    (C4_delete (((New : Cache String Nat).Set 0 "a" 1 10).Set 0 "b" 2 100) "a").2.1,
    (C4_delete (((New : Cache String Nat).Set 0 "a" 1 10).Set 0 "b" 2 100) "z").2.2.1
      (by decide),
    ((C4_delete (((New : Cache String Nat).Set 0 "a" 1 10).Set 0 "b" 2 100) "a").2.2.2
      "b" (by decide)).trans (by decide)⟩

/-- C5: `Cleanup` at time `t` removes every entry whose expiration is before
`t`, keeps every other entry as it is and adds none, does not change what any
`Get` at time `t` returns, and a second `Cleanup` at `t` changes nothing. -/
theorem C5_cleanup [Inhabited V] (c : Cache K V) (t : Time) :
    (∀ k itm, c.items.Load k = some itm → itm.expiration < t →
      (c.Cleanup t).items.Load k = none) ∧
    (∀ k itm, c.items.Load k = some itm → ¬ itm.expiration < t →
      (c.Cleanup t).items.Load k = some itm) ∧
    (∀ k, c.items.Load k = none → (c.Cleanup t).items.Load k = none) ∧
    (c.Cleanup t).items.entries
      = c.items.entries.filter (fun e => decide (¬ e.2.expiration < t)) ∧
    (∀ k, ((c.Cleanup t).Get t k).1 = (c.Get t k).1) ∧
    (c.Cleanup t).Cleanup t = c.Cleanup t := by
  refine ⟨?_, ?_, ?_, ?_, ?_, ?_⟩
  · intro k itm hL hexp
    simp [Load_Cleanup, hL, Option.filter, Time.After, hexp]
  · intro k itm hL hexp
    simp [Load_Cleanup, hL, Option.filter, Time.After, hexp]
  · intro k hL
    simp [Load_Cleanup, hL, Option.filter]
  · rw [Cleanup_entries]
    apply List.filter_congr
    intro e _
    by_cases h : e.2.expiration < t
    · simp [Time.After, h]
    · simp [Time.After, h]
  · intro k
    simp only [Get, Load_Cleanup]
    cases hL : c.items.Load k with
    | none => simp [Option.filter]
    | some itm =>
      by_cases hexp : Time.After t itm.expiration = true
      · simp [Option.filter, hexp]
      · simp [Option.filter, hexp]
  · apply eq_of_items
    apply SyncMap.eq_of_entries
    rw [Cleanup_entries, Cleanup_entries, List.filter_filter]
    apply List.filter_congr
    intro e _
    simp

/-- C5 on a cache with an expired entry and a live one. -/
theorem C5_cleanup_witness :
    ((((New : Cache String Nat).Set 0 "a" 1 10).Set 0 "b" 2 100).Cleanup 50).items.Load "a"
      = none ∧
    ((((New : Cache String Nat).Set 0 "a" 1 10).Set 0 "b" 2 100).Cleanup 50).items.Load "b"
      = some { value := 2, expiration := 100 } ∧
    (∀ k, (((((New : Cache String Nat).Set 0 "a" 1 10).Set 0 "b" 2 100).Cleanup 50).Get 50 k).1
      = ((((New : Cache String Nat).Set 0 "a" 1 10).Set 0 "b" 2 100).Get 50 k).1) ∧
    ((((New : Cache String Nat).Set 0 "a" 1 10).Set 0 "b" 2 100).Cleanup 50).Cleanup 50
      = (((New : Cache String Nat).Set 0 "a" 1 10).Set 0 "b" 2 100).Cleanup 50 :=
  ⟨(C5_cleanup (((New : Cache String Nat).Set 0 "a" 1 10).Set 0 "b" 2 100) 50).1 "a"
      { value := 1, expiration := 10 } (by decide) (by decide),
    (C5_cleanup (((New : Cache String Nat).Set 0 "a" 1 10).Set 0 "b" 2 100) 50).2.1 "b"
      { value := 2, expiration := 100 } (by decide) (by decide),
    (C5_cleanup (((New : Cache String Nat).Set 0 "a" 1 10).Set 0 "b" 2 100) 50).2.2.2.2.1,
    (C5_cleanup (((New : Cache String Nat).Set 0 "a" 1 10).Set 0 "b" 2 100) 50).2.2.2.2.2⟩

end Cache

end cache

/-! # Properties of the cipher wrapper -/

set_option maxRecDepth 8000

namespace utils

/-! ## base64 -/

theorem decodeMap_encodeChar_fin :
    ∀ v : Fin 64, decodeMap (encodeChar v.val) = some v.val := by decide

theorem decodeMap_encodeChar (v : Nat) : decodeMap (encodeChar v) = some (v % 64) := by
  have h := decodeMap_encodeChar_fin ⟨v % 64, Nat.mod_lt _ (by decide)⟩
  have h2 : encodeChar (v % 64) = encodeChar v := by
    simp only [encodeChar, Nat.mod_mod]
  simpa [h2] using h

theorem decodeMap_padChar : decodeMap padChar = none := by decide

theorem isNewline_padChar : isNewline padChar = false := by decide

theorem ofNat_val (a : Byte) (n : Nat) (h : n = a.val) : (Fin.ofNat n : Byte) = a := by
  apply Fin.ext
  subst h
  simp only [Fin.ofNat]
  exact Nat.mod_eq_of_lt a.isLt

theorem decodeLoop_quantum (v0 v1 v2 v3 : Nat) (rest : List Byte) :
    decodeLoop (encodeChar v0 :: encodeChar v1 :: encodeChar v2 :: encodeChar v3 :: rest) []
      = (quantumBytes [v0 % 64, v1 % 64, v2 % 64, v3 % 64] ++ (decodeLoop rest []).1,
          (decodeLoop rest []).2) := by
  simp [decodeLoop, decodeMap_encodeChar]

theorem decodeLoop_pad1 (v0 v1 v2 : Nat) :
    decodeLoop [encodeChar v0, encodeChar v1, encodeChar v2, padChar] []
      = (quantumBytes [v0 % 64, v1 % 64, v2 % 64], none) := by
  simp [decodeLoop, decodeMap_encodeChar, decodeMap_padChar, isNewline_padChar, skipNewlines]

theorem decodeLoop_pad2 (v0 v1 : Nat) :
    decodeLoop [encodeChar v0, encodeChar v1, padChar, padChar] []
      = (quantumBytes [v0 % 64, v1 % 64], none) := by
  simp [decodeLoop, decodeMap_encodeChar, decodeMap_padChar, isNewline_padChar, skipNewlines]

theorem quantumBytes_three (a b c : Byte) :
    quantumBytes [(a.val * 65536 + b.val * 256 + c.val) / 262144 % 64 % 64,
        (a.val * 65536 + b.val * 256 + c.val) / 4096 % 64 % 64,
        (a.val * 65536 + b.val * 256 + c.val) / 64 % 64 % 64,
        (a.val * 65536 + b.val * 256 + c.val) % 64 % 64] = [a, b, c] := by
  have ha := a.isLt
  have hb := b.isLt
  have hc := c.isLt
  simp only [quantumBytes, List.getD_cons_zero, List.getD_cons_succ, List.length_cons,
    List.length_nil, List.take]
  rw [ofNat_val a _ (by omega), ofNat_val b _ (by omega), ofNat_val c _ (by omega)]

theorem quantumBytes_two (a b : Byte) :
    quantumBytes [(a.val * 65536 + b.val * 256) / 262144 % 64 % 64,
        (a.val * 65536 + b.val * 256) / 4096 % 64 % 64,
        (a.val * 65536 + b.val * 256) / 64 % 64 % 64] = [a, b] := by
  have ha := a.isLt
  have hb := b.isLt
  simp only [quantumBytes, List.getD_cons_zero, List.getD_cons_succ, List.length_cons,
    List.length_nil, List.take, List.getD_nil]
  rw [ofNat_val a _ (by omega), ofNat_val b _ (by omega)]

theorem quantumBytes_one (a : Byte) :
    quantumBytes [(a.val * 65536) / 262144 % 64 % 64,
        (a.val * 65536) / 4096 % 64 % 64] = [a] := by
  have ha := a.isLt
  simp only [quantumBytes, List.getD_cons_zero, List.getD_cons_succ, List.length_cons,
    List.length_nil, List.take, List.getD_nil]
  rw [ofNat_val a _ (by omega)]

/-- Decoding what `EncodeToString` produced gives the bytes back, without error. -/
theorem base64Decode_encode : ∀ bs : List Byte, base64Decode (base64Encode bs) = (bs, none)
  | [] => by decide
  | [a] => by
    simp only [base64Decode, base64Encode, decodeLoop_pad2, quantumBytes_one]
  | [a, b] => by
    simp only [base64Decode, base64Encode, decodeLoop_pad1, quantumBytes_two]
  | a :: b :: c :: rest => by
    have ih := base64Decode_encode rest
    simp only [base64Decode] at ih
    simp only [base64Decode, base64Encode, decodeLoop_quantum, quantumBytes_three, ih]
    rfl

theorem base64Encode_injective (xs ys : List Byte)
    (h : base64Encode xs = base64Encode ys) : xs = ys := by
  have hx := base64Decode_encode xs
  rw [h, base64Decode_encode ys] at hx
  exact (congrArg Prod.fst hx).symm

/-! ## hex and keys -/

theorem hexDecodeString_length : ∀ (s : GoString) (out : List Byte),
    hexDecodeString s = (out, none) → out.length * 2 = s.length
  | [], out, h => by
    simp only [hexDecodeString, Prod.mk.injEq] at h
    simp [← h.1]
  | [p], out, h => by
    simp only [hexDecodeString] at h
    cases hp : fromHexChar p <;> simp [hp] at h
  | p :: q :: rest, out, h => by
    simp only [hexDecodeString] at h
    cases hp : fromHexChar p with
    | none => simp [hp] at h
    | some a =>
      cases hq : fromHexChar q with
      | none => simp [hp, hq] at h
      | some b =>
        simp only [hp, hq] at h
        have hrec := hexDecodeString_length rest (hexDecodeString rest).1
        cases hr : hexDecodeString rest with
        | mk o e =>
          simp only [hr, Prod.mk.injEq] at h
          obtain ⟨h1, h2⟩ := h
          subst h2
          have := hrec (by rw [hr])
          simp only [hr] at this
          simp only [← h1, List.length_cons]
          omega

theorem hexDecodeString_valid : ∀ (s : GoString),
    (hexDecodeString s).2 = none → ∀ c ∈ s, (fromHexChar c).isSome = true
  | [], _ => by simp
  | [p], h => by
    simp only [hexDecodeString] at h
    cases hp : fromHexChar p <;> simp [hp] at h
  | p :: q :: rest, h => by
    simp only [hexDecodeString] at h
    cases hp : fromHexChar p with
    | none => simp [hp] at h
    | some a =>
      cases hq : fromHexChar q with
      | none => simp [hp, hq] at h
      | some b =>
        simp only [hp, hq] at h
        have hrec := hexDecodeString_valid rest h
        intro c hc
        simp only [List.mem_cons] at hc
        rcases hc with rfl | rfl | hc
        · simp [hp]
        · simp [hq]
        · exact hrec c hc

theorem hexDecodeString_ok : ∀ (n : Nat) (s : GoString), s.length = 2 * n →
    (∀ c ∈ s, (fromHexChar c).isSome = true) → (hexDecodeString s).2 = none
  | 0, s, hlen, _ => by
    have : s = [] := List.length_eq_zero.1 (by omega)
    subst this; rfl
  | n + 1, s, hlen, hall => by
    match s, hlen, hall with
    | p :: q :: rest, hlen, hall =>
      have hp := hall p (by simp)
      have hq := hall q (by simp)
      have hrec := hexDecodeString_ok n rest (by simp at hlen; omega)
        (fun c hc => hall c (by simp [hc]))
      simp only [hexDecodeString]
      cases hp' : fromHexChar p with
      | none => simp [hp'] at hp
      | some a =>
        cases hq' : fromHexChar q with
        | none => simp [hq'] at hq
        | some b => simpa using hrec
    | [p], hlen, _ => simp at hlen; omega
    | [], hlen, _ => simp at hlen

theorem getKeyBytes_of_valid (k : GoString) (hk : validKey k) :
    ∃ key, getKeyBytes k = (key, none) ∧
      (key.length = 16 ∨ key.length = 24 ∨ key.length = 32) := by
  rcases hk with h | h | h | ⟨h, hall⟩
  · exact ⟨k, by simp [getKeyBytes, h], Or.inl h⟩
  · exact ⟨k, by simp [getKeyBytes, h], Or.inr (Or.inl h)⟩
  · exact ⟨k, by simp [getKeyBytes, h], Or.inr (Or.inr h)⟩
  · have hnone := hexDecodeString_ok 32 k (by omega) hall
    have hlen := hexDecodeString_length k (hexDecodeString k).1
      (by rw [← hnone])
    refine ⟨(hexDecodeString k).1, ?_, Or.inr (Or.inr (by omega))⟩
    simp only [getKeyBytes, h, if_true]
    rw [← hnone]

theorem validKey_of_getKeyBytes (k : GoString) (h : (getKeyBytes k).2 = none) :
    validKey k := by
  unfold getKeyBytes at h
  by_cases h64 : k.length = 64
  · simp only [h64, if_true] at h
    exact Or.inr (Or.inr (Or.inr ⟨h64, hexDecodeString_valid k h⟩))
  · simp only [h64, if_false] at h
    by_cases hraw : k.length = 32 ∨ k.length = 24 ∨ k.length = 16
    · rcases hraw with h1 | h1 | h1
      · exact Or.inr (Or.inr (Or.inl h1))
      · exact Or.inr (Or.inl h1)
      · exact Or.inl h1
    · simp [hraw] at h

theorem hexDecodeString_invalid : ∀ (n : Nat) (s : GoString), s.length = 2 * n →
    (∃ c ∈ s, fromHexChar c = none) →
    ∃ b ∈ s, fromHexChar b = none ∧ (hexDecodeString s).2 = some (.hexInvalidByte b)
  | 0, s, hlen, hex => by
    have : s = [] := List.length_eq_zero.1 (by omega)
    subst this
    obtain ⟨c, hc, _⟩ := hex
    simp at hc
  | n + 1, s, hlen, hex => by
    match s, hlen, hex with
    | p :: q :: rest, hlen, hex =>
      simp only [hexDecodeString]
      cases hp : fromHexChar p with
      | none => exact ⟨p, by simp, hp, rfl⟩
      | some a =>
        cases hq : fromHexChar q with
        | none => exact ⟨q, by simp, hq, rfl⟩
        | some b =>
          obtain ⟨c, hc, hcn⟩ := hex
          simp only [List.mem_cons] at hc
          rcases hc with rfl | rfl | hc
          · simp [hp] at hcn
          · simp [hq] at hcn
          · obtain ⟨b', hb', hbn, herr⟩ := hexDecodeString_invalid n rest
              (by simp at hlen; omega) ⟨c, hc, hcn⟩
            exact ⟨b', by simp [hb'], hbn, by simpa using herr⟩
    | [p], hlen, _ => simp at hlen; omega
    | [], hlen, _ => simp at hlen

/-! ## The stand-in library keeps the contract -/

theorem demoAEAD_lawful (key : List Byte) : (demoAEAD key).Lawful where
  seal_append := by
    intro dst nonce plaintext data
    simp [demoAEAD]
  open_seal := by
    intro nonce plaintext data _
    have hlen : (demoTag key nonce (plaintext.map (fun x => x + demoMask key nonce))
        data).length = 16 := by simp [demoTag]
    simp only [demoAEAD, List.nil_append, List.length_append, List.length_map, hlen]
    have h1 : ¬ plaintext.length + 16 < 16 := by omega
    have h2 : plaintext.length + 16 - 16 = plaintext.length := by omega
    have h3 : plaintext.length
        = (plaintext.map (fun x => x + demoMask key nonce)).length := by simp
    rw [if_neg h1, h2, List.drop_left' h3.symm, List.take_left' h3.symm, if_pos rfl,
      List.map_map]
    have hid : ((fun x => x - demoMask key nonce) ∘ fun x => x + demoMask key nonce)
        = (id : Byte → Byte) := by
      funext x
      simp only [Function.comp, id]
      exact add_sub_cancel_right x (demoMask key nonce)
    rw [hid, List.map_id]

theorem demoLib_lawful : demoLib.Lawful where
  newCipher_ok := by
    intro key hkey
    exact ⟨key, by simp [demoLib, hkey]⟩
  newGCM_ok := by
    intro key block _
    exact ⟨demoAEAD block, rfl, rfl, demoAEAD_lawful block⟩

/-! ## Encrypt and Decrypt -/

theorem lib_setup (lib : CipherLib) (hlib : lib.Lawful) (k : GoString) (hk : validKey k) :
    ∃ key block g, getKeyBytes k = (key, none) ∧ lib.NewCipher key = .ok block ∧
      lib.NewGCM block = .ok g ∧ g.NonceSize = 12 ∧ g.Lawful := by
  obtain ⟨key, hkey, hlen⟩ := getKeyBytes_of_valid k hk
  obtain ⟨block, hblock⟩ := hlib.newCipher_ok key hlen
  obtain ⟨g, hg, hN, hL⟩ := hlib.newGCM_ok key block hblock
  exact ⟨key, block, g, hkey, hblock, hg, hN, hL⟩

theorem Encrypt_eq (lib : CipherLib) (k key : GoString) (block : lib.Block) (g : AEAD)
    (h1 : getKeyBytes k = (key, none)) (h2 : lib.NewCipher key = .ok block)
    (h3 : lib.NewGCM block = .ok g) (hN : g.NonceSize = 12) (hg : g.Lawful)
    (rand : List Byte) (hr : 12 ≤ rand.length) (p : GoString) :
    Encrypt lib rand p k
      = (base64Encode (rand.take 12 ++ g.Seal [] (rand.take 12) p []), none) := by
  simp only [Encrypt, h1, h2, h3, hN, ReadFull, hr, if_true]
  rw [hg.seal_append]

theorem Decrypt_sealed (lib : CipherLib) (k key : GoString) (block : lib.Block) (g : AEAD)
    (h1 : getKeyBytes k = (key, none)) (h2 : lib.NewCipher key = .ok block)
    (h3 : lib.NewGCM block = .ok g) (hN : g.NonceSize = 12) (hg : g.Lawful)
    (nonce : List Byte) (hn : nonce.length = 12) (p : GoString) :
    Decrypt lib (base64Encode (nonce ++ g.Seal [] nonce p [])) k = .returned (p, none) := by
  have hlt : ¬ (nonce ++ g.Seal [] nonce p []).length < 12 := by
    simp only [List.length_append, hn]; omega
  have hle : 12 ≤ (nonce ++ g.Seal [] nonce p []).length := by
    simp only [List.length_append, hn]; omega
  have ht : (nonce ++ g.Seal [] nonce p []).take 12 = nonce := by
    rw [← hn, List.take_left]
  have hd : (nonce ++ g.Seal [] nonce p []).drop 12 = g.Seal [] nonce p [] := by
    rw [← hn, List.drop_left]
  simp only [Decrypt, h1, base64Decode_encode, h2, h3, hN, hlt, if_false, sliceTo,
    sliceFrom, hle, if_true, ht, hd]
  rw [hg.open_seal nonce p [] (by rw [hn, hN])]

theorem Encrypt_Decrypt (lib : CipherLib) (hlib : lib.Lawful) (rand : List Byte)
    (hrand : 12 ≤ rand.length) (p k : GoString) (hk : validKey k) :
    ∃ g : AEAD, g.Lawful ∧
      Encrypt lib rand p k
        = (base64Encode (rand.take 12 ++ g.Seal [] (rand.take 12) p []), none) ∧
      Decrypt lib (base64Encode (rand.take 12 ++ g.Seal [] (rand.take 12) p [])) k
        = .returned (p, none) := by
  obtain ⟨key, block, g, h1, h2, h3, hN, hg⟩ := lib_setup lib hlib k hk
  exact ⟨g, hg, Encrypt_eq lib k key block g h1 h2 h3 hN hg rand hrand p,
    Decrypt_sealed lib k key block g h1 h2 h3 hN hg (rand.take 12)
      (by rw [List.length_take]; omega) p⟩

theorem base64Encode_ne_nil (xs : List Byte) (h : xs ≠ []) : base64Encode xs ≠ [] := by
  intro he
  exact h (base64Encode_injective xs [] (by rw [he]; rfl))

theorem ReadFull_ok (r : List Byte) (n : Nat) (nonce : List Byte)
    (h : ReadFull r n = .ok nonce) : n ≤ r.length ∧ nonce = r.take n := by
  unfold ReadFull at h
  by_cases hn : n ≤ r.length
  · simp only [hn, if_true, Except.ok.injEq] at h
    exact ⟨hn, h.symm⟩
  · simp only [hn, if_false] at h
    split at h <;> cases h

theorem Decrypt_no_panic (lib : CipherLib) (enc k : GoString) :
    Decrypt lib enc k ≠ .panicked := by
  rcases hk : getKeyBytes k with ⟨key, _ | err⟩
  swap
  · simp [Decrypt, hk]
  rcases hb : base64Decode enc with ⟨data, _ | err⟩
  swap
  · simp [Decrypt, hk, hb]
  rcases hc : lib.NewCipher key with err | block
  · simp [Decrypt, hk, hb, hc]
  rcases hg : lib.NewGCM block with err | aesGCM
  · simp [Decrypt, hk, hb, hc, hg]
  by_cases hlt : data.length < aesGCM.NonceSize
  · simp [Decrypt, hk, hb, hc, hg, hlt]
  · have hle : aesGCM.NonceSize ≤ data.length := by omega
    simp only [Decrypt, hk, hb, hc, hg, hlt, if_false, sliceTo, sliceFrom, hle, if_true]
    split <;> simp

/-- C6: with a library that keeps the AES-GCM contract, for every plaintext
(the empty one included), every accepted key (16, 24 or 32 raw bytes, or 64
hexadecimal digits) and every nonce the random source supplies, `Encrypt`
returns no error and `Decrypt` of its result under the same key returns the
plaintext and no error. -/
theorem C6_encrypt_decrypt_round_trip (lib : CipherLib) (hlib : lib.Lawful)
    (rand : List Byte) (hrand : 12 ≤ rand.length) (p k : GoString) (hk : validKey k) :
    (Encrypt lib rand p k).2 = none ∧
    Decrypt lib (Encrypt lib rand p k).1 k = .returned (p, none) := by
  obtain ⟨g, _, henc, hdec⟩ := Encrypt_Decrypt lib hlib rand hrand p k hk
  rw [henc]
  exact ⟨rfl, hdec⟩

/-- C6 on the rows of `TestEncryptDecrypt` that expect success: the 32-byte
key, the same key in hexadecimal, and the empty text. -/
theorem C6_encrypt_decrypt_round_trip_witness :
    demoLib.Lawful ∧ 12 ≤ (List.replicate 12 (7 : Byte)).length ∧
    validKey (ascii "12345678901234567890123456789012") ∧
    validKey (ascii "3132333435363738393031323334353637383930313233343536373839303132") ∧
    ((Encrypt demoLib (List.replicate 12 7) (ascii "Hello World")
        (ascii "12345678901234567890123456789012")).2 = none ∧
      Decrypt demoLib (Encrypt demoLib (List.replicate 12 7) (ascii "Hello World")
          (ascii "12345678901234567890123456789012")).1
        (ascii "12345678901234567890123456789012")
        = .returned (ascii "Hello World", none)) ∧
    ((Encrypt demoLib (List.replicate 12 7) (ascii "Hello World")
        (ascii "3132333435363738393031323334353637383930313233343536373839303132")).2
        = none ∧
      Decrypt demoLib (Encrypt demoLib (List.replicate 12 7) (ascii "Hello World")
          (ascii "3132333435363738393031323334353637383930313233343536373839303132")).1
        (ascii "3132333435363738393031323334353637383930313233343536373839303132")
        = .returned (ascii "Hello World", none)) ∧
    ((Encrypt demoLib (List.replicate 12 7) (ascii "")
        (ascii "12345678901234567890123456789012")).2 = none ∧
      Decrypt demoLib (Encrypt demoLib (List.replicate 12 7) (ascii "")
          (ascii "12345678901234567890123456789012")).1
        (ascii "12345678901234567890123456789012")
        = .returned (ascii "", none)) :=
  ⟨demoLib_lawful, by decide, by decide, by decide,
    C6_encrypt_decrypt_round_trip demoLib demoLib_lawful (List.replicate 12 7) (by decide)
      (ascii "Hello World") (ascii "12345678901234567890123456789012") (by decide),
    C6_encrypt_decrypt_round_trip demoLib demoLib_lawful (List.replicate 12 7) (by decide)
      (ascii "Hello World")
      (ascii "3132333435363738393031323334353637383930313233343536373839303132")
      (by decide),
    C6_encrypt_decrypt_round_trip demoLib demoLib_lawful (List.replicate 12 7) (by decide)
      (ascii "") (ascii "12345678901234567890123456789012") (by decide)⟩

/-- C7: for a key string whose length is none of 16, 24, 32 and 64, `Encrypt`
and `Decrypt` both return the empty string and the invalid-key-length error;
for a key of 64 characters one of which is not a hexadecimal digit they both
return the empty string and an invalid-byte error; this for every library,
plaintext, ciphertext and random source. The key is never truncated or
padded: whenever `getKeyBytes` gives key bytes without error, they are the
key string itself (of 16, 24 or 32 bytes) or the 32 bytes that the 64
hexadecimal digits decode to. -/
theorem C7_key_length_rejection (lib : CipherLib) (rand : List Byte)
    (p enc k : GoString)
    (hk : (k.length ≠ 16 ∧ k.length ≠ 24 ∧ k.length ≠ 32 ∧ k.length ≠ 64) ∨
      (k.length = 64 ∧ ∃ c ∈ k, fromHexChar c = none)) :
    (∃ e, Encrypt lib rand p k = ([], some e) ∧ Decrypt lib enc k = .returned ([], some e) ∧
      (e = .invalidKeyLength ∨ ∃ b ∈ k, fromHexChar b = none ∧ e = .hexInvalidByte b)) ∧
    (∀ k' key : GoString, getKeyBytes k' = (key, none) →
      (key = k' ∧ (k'.length = 16 ∨ k'.length = 24 ∨ k'.length = 32)) ∨
      (k'.length = 64 ∧ key = (hexDecodeString k').1 ∧ key.length = 32)) := by
  constructor
  · rcases hk with ⟨h16, h24, h32, h64⟩ | ⟨h64, hex⟩
    · have hkey : getKeyBytes k = ([], some .invalidKeyLength) := by
        simp [getKeyBytes, h16, h24, h32, h64]
      exact ⟨.invalidKeyLength, by simp [Encrypt, hkey], by simp [Decrypt, hkey], Or.inl rfl⟩
    · obtain ⟨b, hb, hbn, herr⟩ := hexDecodeString_invalid 32 k (by omega) hex
      have hkey : getKeyBytes k = ((hexDecodeString k).1, some (.hexInvalidByte b)) := by
        simp only [getKeyBytes, h64, if_true]
        rw [← herr]
      exact ⟨.hexInvalidByte b, by simp [Encrypt, hkey], by simp [Decrypt, hkey],
        Or.inr ⟨b, hb, hbn, rfl⟩⟩
  · intro k' key hkey
    by_cases h64 : k'.length = 64
    · right
      have hdec : hexDecodeString k' = (key, none) := by
        simpa [getKeyBytes, h64] using hkey
      have hlen := hexDecodeString_length k' key hdec
      exact ⟨h64, by rw [hdec], by omega⟩
    · left
      by_cases hraw : k'.length = 32 ∨ k'.length = 24 ∨ k'.length = 16
      · have : key = k' := by
          simp only [getKeyBytes, h64, if_false, hraw, if_true, Prod.mk.injEq] at hkey
          exact hkey.1.symm
        refine ⟨this, ?_⟩
        rcases hraw with h | h | h
        · exact Or.inr (Or.inr h)
        · exact Or.inr (Or.inl h)
        · exact Or.inl h
      · simp [getKeyBytes, h64, hraw] at hkey

/-- C7 on the key of the test row "Invalid key length" and on a key of 64
characters that are not hexadecimal digits. -/
theorem C7_key_length_rejection_witness :
    (((ascii "shortkey").length ≠ 16 ∧ (ascii "shortkey").length ≠ 24 ∧
        (ascii "shortkey").length ≠ 32 ∧ (ascii "shortkey").length ≠ 64) ∨
      ((ascii "shortkey").length = 64 ∧ ∃ c ∈ ascii "shortkey", fromHexChar c = none)) ∧
    (∃ e, Encrypt demoLib (List.replicate 12 7) (ascii "Hello World") (ascii "shortkey")
        = ([], some e) ∧
      Decrypt demoLib (ascii "SGVsbG8gV29ybGQ=") (ascii "shortkey") = .returned ([], some e) ∧
      (e = .invalidKeyLength ∨
        ∃ b ∈ ascii "shortkey", fromHexChar b = none ∧ e = .hexInvalidByte b)) ∧
    (∃ e, Encrypt demoLib (List.replicate 12 7) (ascii "Hello World")
        (List.replicate 64 (122 : Byte)) = ([], some e) ∧
      Decrypt demoLib (ascii "SGVsbG8gV29ybGQ=") (List.replicate 64 (122 : Byte))
        = .returned ([], some e) ∧
      (e = .invalidKeyLength ∨
        ∃ b ∈ List.replicate 64 (122 : Byte), fromHexChar b = none ∧ e = .hexInvalidByte b)) :=
  ⟨by decide,
    (C7_key_length_rejection demoLib (List.replicate 12 7) (ascii "Hello World")
      (ascii "SGVsbG8gV29ybGQ=") (ascii "shortkey") (by decide)).1,
    (C7_key_length_rejection demoLib (List.replicate 12 7) (ascii "Hello World")
      (ascii "SGVsbG8gV29ybGQ=") (List.replicate 64 (122 : Byte))
      (Or.inr ⟨by decide, 122, by decide, by decide⟩)).1⟩

/-- C8: with a library that keeps the contract and a valid key, when the input
is not valid standard base64 `Decrypt` returns the empty string and the
decoder's error, and when it decodes to fewer than 12 bytes `Decrypt` returns
the empty string and the error "ciphertext too short". Whatever the library,
key and input, `Decrypt` returns rather than panics: the two slice
expressions stay within the decoded data. -/
theorem C8_decrypt_malformed (lib : CipherLib) (hlib : lib.Lawful) (k enc : GoString)
    (hk : validKey k)
    (h : (base64Decode enc).2 ≠ none ∨ (base64Decode enc).1.length < 12) :
    Decrypt lib enc k = .returned ([],
      some (match (base64Decode enc).2 with
        | some e => e
        | none => .ciphertextTooShort)) ∧
    (∀ (lib' : CipherLib) (enc' k' : GoString), Decrypt lib' enc' k' ≠ .panicked) := by
  refine ⟨?_, Decrypt_no_panic⟩
  obtain ⟨key, block, g, h1, h2, h3, hN, _⟩ := lib_setup lib hlib k hk
  rcases hb : base64Decode enc with ⟨data, _ | err⟩
  · have hlt : data.length < 12 := by
      rcases h with h | h
      · simp [hb] at h
      · simpa [hb] using h
    simp [Decrypt, h1, hb, h2, h3, hN, hlt]
  · simp [Decrypt, h1, hb]

/-- C8 on the two inputs of `TestDecryptErrors` and on the base64 of the five
bytes of "SHORT". -/
theorem C8_decrypt_malformed_witness :
    demoLib.Lawful ∧ validKey (ascii "12345678901234567890123456789012") ∧
    Decrypt demoLib (ascii "invalid-base64") (ascii "12345678901234567890123456789012")
      = .returned ([], some .base64CorruptInput) ∧
    Decrypt demoLib (ascii "SHORT") (ascii "12345678901234567890123456789012")
      = .returned ([], some .base64CorruptInput) ∧
    Decrypt demoLib (ascii "U0hPUlQ=") (ascii "12345678901234567890123456789012")
      = .returned ([], some .ciphertextTooShort) :=
  ⟨demoLib_lawful, by decide,
    (C8_decrypt_malformed demoLib demoLib_lawful (ascii "12345678901234567890123456789012")
      (ascii "invalid-base64") (by decide) (Or.inl (by decide))).1,
    (C8_decrypt_malformed demoLib demoLib_lawful (ascii "12345678901234567890123456789012")
      (ascii "SHORT") (by decide) (Or.inl (by decide))).1,
    (C8_decrypt_malformed demoLib demoLib_lawful (ascii "12345678901234567890123456789012")
      (ascii "U0hPUlQ=") (by decide) (Or.inr (by decide))).1⟩

end utils

/-! # Properties of the tenant token -/

namespace strconv

open utils

theorem formatUintAux_eq (n : Nat) : ∀ (fuel : Nat) (acc : GoString), n < fuel →
    formatUintAux fuel n acc = formatUint n ++ acc := by
  induction n using Nat.strong_induction_on with
  | _ n ih =>
    intro fuel acc hf
    cases fuel with
    | zero => omega
    | succ f =>
      by_cases h10 : n < 10
      · simp [formatUintAux, formatUint, h10]
      · have hlt : n / 10 < n := by omega
        have e1 : formatUintAux (f + 1) n acc
            = formatUint (n / 10) ++ (digitByte (n % 10) :: acc) := by
          rw [formatUintAux]
          simp only [h10, if_false]
          exact ih (n / 10) hlt f _ (by omega)
        have e2 : formatUint n = formatUint (n / 10) ++ [digitByte (n % 10)] := by
          have h0 : formatUint n = formatUintAux (n + 1) n [] := rfl
          rw [h0, formatUintAux]
          simp only [h10, if_false]
          exact ih (n / 10) hlt n _ hlt
        rw [e1, e2]; simp

theorem formatUint_small (n : Nat) (h : n < 10) : formatUint n = [digitByte n] := by
  simp [formatUint, formatUintAux, h]

theorem formatUint_step (n : Nat) (h : ¬ n < 10) :
    formatUint n = formatUint (n / 10) ++ [digitByte (n % 10)] := by
  have h0 : formatUint n = formatUintAux (n + 1) n [] := rfl
  rw [h0, formatUintAux]
  simp only [h, if_false]
  exact formatUintAux_eq (n / 10) n _ (by omega)

theorem digitByte_val (d : Nat) : (digitByte d).val = 48 + d % 10 := by
  simp only [digitByte, Fin.ofNat]
  omega

theorem formatUint_head (n : Nat) :
    ∃ d rest, formatUint n = d :: rest ∧ 48 ≤ d.val ∧ d.val ≤ 57 := by
  induction n using Nat.strong_induction_on with
  | _ n ih =>
    by_cases h10 : n < 10
    · refine ⟨digitByte n, [], formatUint_small n h10, ?_, ?_⟩
      · rw [digitByte_val]; omega
      · rw [digitByte_val]; omega
    · obtain ⟨d, rest, hd, h1, h2⟩ := ih (n / 10) (by omega)
      exact ⟨d, rest ++ [digitByte (n % 10)], by rw [formatUint_step n h10, hd]; rfl, h1, h2⟩

theorem parseUintLoop_append (xs : List Byte) (c : Byte) : ∀ (v v' : Nat),
    parseUintLoop v xs = (v', none) →
    parseUintLoop v (xs ++ [c]) = parseUintLoop v' [c] := by
  induction xs with
  | nil =>
    intro v v' h
    simp only [parseUintLoop, Prod.mk.injEq, and_true] at h
    rw [h]; rfl
  | cons x xs ih =>
    intro v v' h
    rw [List.cons_append, parseUintLoop]
    rw [parseUintLoop] at h
    by_cases hx : 48 ≤ x.val ∧ x.val ≤ 57
    · simp only [hx, and_self, if_true] at h ⊢
      by_cases hcut : v ≥ maxUint64 / 10 + 1
      · simp [hcut] at h
      · simp only [hcut, if_false] at h ⊢
        split at h
        · simp at h
        · rename_i hov
          rw [if_neg hov]
          exact ih _ _ h
    · simp [hx] at h

theorem parseUintLoop_formatUint (n : Nat) (hn : n < 18446744073709551616) :
    parseUintLoop 0 (formatUint n) = (n, none) := by
  induction n using Nat.strong_induction_on with
  | _ n ih =>
    by_cases h10 : n < 10
    · rw [formatUint_small n h10, parseUintLoop]
      have hv := digitByte_val n
      have h1 : 48 ≤ (digitByte n).val ∧ (digitByte n).val ≤ 57 := by omega
      have h2 : ¬ (0 ≥ maxUint64 / 10 + 1) := by simp [maxUint64]
      have h3 : (0 * 10 % 18446744073709551616 + ((digitByte n).val - 48))
          % 18446744073709551616 = n := by omega
      simp only [h1, and_self, if_true, h2, if_false, h3]
      have h4 : ¬ (n < 0 * 10 % 18446744073709551616 ∨ n > maxUint64) := by
        simp only [maxUint64]; omega
      rw [if_neg h4]
      rfl
    · rw [formatUint_step n h10,
        parseUintLoop_append _ _ 0 (n / 10) (ih (n / 10) (by omega) (by omega)),
        parseUintLoop]
      have hv := digitByte_val (n % 10)
      have h1 : 48 ≤ (digitByte (n % 10)).val ∧ (digitByte (n % 10)).val ≤ 57 := by omega
      have h2 : ¬ (n / 10 ≥ maxUint64 / 10 + 1) := by
        simp only [maxUint64]; omega
      have h3 : (n / 10 * 10 % 18446744073709551616 + ((digitByte (n % 10)).val - 48))
          % 18446744073709551616 = n := by omega
      simp only [h1, and_self, if_true, h2, if_false, h3]
      have h4 : ¬ (n < n / 10 * 10 % 18446744073709551616 ∨ n > maxUint64) := by
        simp only [maxUint64]; omega
      rw [if_neg h4]
      rfl

theorem ParseUint_formatUint (n : Nat) (hn : n < 18446744073709551616) :
    ParseUint (formatUint n) = (n, none) := by
  obtain ⟨d, rest, hd, _, _⟩ := formatUint_head n
  have hne : formatUint n ≠ [] := by rw [hd]; simp
  simp only [ParseUint, hne, if_false]
  exact parseUintLoop_formatUint n hn

theorem ParseInt_minus (s : GoString) (un : Nat) (h : ParseUint s = (un, none))
    (hle : un ≤ 9223372036854775808) :
    ParseInt ((45 : Byte) :: s) = (toInt64 (-(toInt64 un)), none) := by
  have hgt : ¬ un > 9223372036854775808 := by omega
  simp [ParseInt, h, hgt]

theorem ParseInt_digits (d : Byte) (rest : GoString) (un : Nat) (hd1 : 48 ≤ d.val)
    (h : ParseUint (d :: rest) = (un, none)) (hlt : un < 9223372036854775808) :
    ParseInt (d :: rest) = (toInt64 un, none) := by
  have h43 : ¬ d = 43 := by
    intro hd; rw [hd] at hd1; exact absurd hd1 (by decide)
  have h45 : ¬ d = 45 := by
    intro hd; rw [hd] at hd1; exact absurd hd1 (by decide)
  have hge : ¬ un ≥ 9223372036854775808 := by omega
  simp [ParseInt, h, h43, h45, hge]

/-- Parsing the decimal text of an `int64` gives the number back. -/
theorem ParseInt_FormatInt (c : Int) (hlo : -9223372036854775808 ≤ c)
    (hhi : c < 9223372036854775808) : ParseInt (FormatInt c) = (c, none) := by
  have hN : c.natAbs < 18446744073709551616 := by omega
  have hU := ParseUint_formatUint c.natAbs hN
  by_cases hneg : c < 0
  · simp only [FormatInt, hneg, if_true]
    rw [ParseInt_minus _ _ hU (by omega)]
    simp only [toInt64, Prod.mk.injEq, and_true]
    omega
  · obtain ⟨d, rest, hd, hd1, _⟩ := formatUint_head c.natAbs
    simp only [FormatInt, hneg, if_false]
    rw [hd] at hU ⊢
    rw [ParseInt_digits d rest _ hd1 hU (by omega)]
    simp only [toInt64, Prod.mk.injEq, and_true]
    omega

end strconv

namespace github

open utils strconv

theorem handlerChatID_mintToken (lib : CipherLib) (hlib : lib.Lawful) (rand : List Byte)
    (hrand : 12 ≤ rand.length) (key : GoString) (hk : validKey key) (c : Int)
    (hlo : -9223372036854775808 ≤ c) (hhi : c < 9223372036854775808) :
    (mintToken lib rand key c).2 = none ∧
    handlerChatID lib key (ascii "/webhook/" ++ (mintToken lib rand key c).1)
      = .returned c := by
  obtain ⟨g, _, henc, hdec⟩ := Encrypt_Decrypt lib hlib rand hrand (FormatInt c) key hk
  simp only [mintToken, henc, true_and]
  have hne : base64Encode (rand.take 12 ++ g.Seal [] (rand.take 12) (FormatInt c) []) ≠ [] := by
    apply base64Encode_ne_nil
    intro h
    have := congrArg List.length h
    simp only [List.length_append, List.length_take, List.length_nil] at this
    omega
  have hpos := List.length_pos.2 hne
  have hpre : HasPrefix (ascii "/webhook/"
      ++ base64Encode (rand.take 12 ++ g.Seal [] (rand.take 12) (FormatInt c) []))
      (ascii "/webhook/") = true := by
    simp only [HasPrefix]
    exact List.isPrefixOf_iff_prefix.2 (List.prefix_append _ _)
  have h9 : (ascii "/webhook/").length = 9 := by decide
  have hlen : (ascii "/webhook/"
      ++ base64Encode (rand.take 12 ++ g.Seal [] (rand.take 12) (FormatInt c) [])).length
      > 9 := by
    rw [List.length_append, h9]; omega
  have hdrop : sliceFrom (ascii "/webhook/"
      ++ base64Encode (rand.take 12 ++ g.Seal [] (rand.take 12) (FormatInt c) [])) 9
      = some (base64Encode (rand.take 12 ++ g.Seal [] (rand.take 12) (FormatInt c) [])) := by
    simp only [sliceFrom, Nat.le_of_lt hlen, if_true, List.drop_left' h9]
  simp only [handlerChatID, hpre, hlen, decide_True, Bool.and_self, if_true, hdrop, hdec,
    ParseInt_FormatInt c hlo hhi]

/-- C9: for every chat identifier `c` (an `int64` other than 0: tokens are
minted only from the identifier of an existing chat, `ctx.EffectiveChat.Id`,
and `Handler` keeps 0 for "no chat"), with a library that keeps the
contract, a valid configured key and a random source that supplies the
nonce, the token minted on linking a repository is made without error, the
handler's tenant step on the path "/webhook/" followed by the token sets
`chatID` to exactly `c`, and the request passes the test `chatID == 0` and
goes on with chat `c`. -/
theorem C9_tenant_token_round_trip (lib : CipherLib) (hlib : lib.Lawful)
    (rand : List Byte) (hrand : 12 ≤ rand.length) (key : GoString) (hk : validKey key)
    (c : Int) (hlo : -9223372036854775808 ≤ c) (hhi : c < 9223372036854775808)
    (hc : c ≠ 0) :
    (mintToken lib rand key c).2 = none ∧
    handlerChatID lib key (ascii "/webhook/" ++ (mintToken lib rand key c).1)
      = .returned c ∧
    resolveTenant lib key (ascii "/webhook/" ++ (mintToken lib rand key c).1)
      = .returned (.ok c) := by
  obtain ⟨h1, h2⟩ := handlerChatID_mintToken lib hlib rand hrand key hk c hlo hhi
  refine ⟨h1, h2, ?_⟩
  simp only [resolveTenant, h2, hc, if_false]

/-- C9 on the identifier of a supergroup chat. -/
theorem C9_tenant_token_round_trip_witness :
    demoLib.Lawful ∧ 12 ≤ (List.replicate 12 (7 : Byte)).length ∧
    validKey (ascii "12345678901234567890123456789012") ∧
    (-9223372036854775808 : Int) ≤ -1001234567890 ∧
    (-1001234567890 : Int) < 9223372036854775808 ∧ (-1001234567890 : Int) ≠ 0 ∧
    (mintToken demoLib (List.replicate 12 7) (ascii "12345678901234567890123456789012")
      (-1001234567890)).2 = none ∧
    handlerChatID demoLib (ascii "12345678901234567890123456789012")
      (ascii "/webhook/" ++ (mintToken demoLib (List.replicate 12 7)
        (ascii "12345678901234567890123456789012") (-1001234567890)).1)
      = .returned (-1001234567890) ∧
    resolveTenant demoLib (ascii "12345678901234567890123456789012")
      (ascii "/webhook/" ++ (mintToken demoLib (List.replicate 12 7)
        (ascii "12345678901234567890123456789012") (-1001234567890)).1)
      = .returned (.ok (-1001234567890)) :=
  ⟨demoLib_lawful, by decide, by decide, by decide, by decide, by decide,
    C9_tenant_token_round_trip demoLib demoLib_lawful (List.replicate 12 7) (by decide)
      (ascii "12345678901234567890123456789012") (by decide) (-1001234567890)
      (by decide) (by decide) (by decide)⟩

/-- The value 0 is the handler's "no chat": a token sealed over the text "0"
(no call site mints one) decrypts and parses to 0 and is answered 401, like
a request without a token. -/
theorem resolveTenant_token_of_zero :
    (mintToken demoLib (List.replicate 12 7) (ascii "12345678901234567890123456789012")
      0).2 = none ∧
    handlerChatID demoLib (ascii "12345678901234567890123456789012")
      (ascii "/webhook/" ++ (mintToken demoLib (List.replicate 12 7)
        (ascii "12345678901234567890123456789012") 0).1) = .returned 0 ∧
    resolveTenant demoLib (ascii "12345678901234567890123456789012")
      (ascii "/webhook/" ++ (mintToken demoLib (List.replicate 12 7)
        (ascii "12345678901234567890123456789012") 0).1)
      = .returned (.error unauthorizedTokenRequired) ∧
    resolveTenant demoLib (ascii "12345678901234567890123456789012")
      (ascii "/webhook/" ++ (mintToken demoLib (List.replicate 12 7)
        (ascii "12345678901234567890123456789012") 0).1)
      ≠ .returned (.ok 0) := by
  decide

/-- C10: for a fixed key and chat identifier, with a library that keeps the
contract, two `Encrypt` calls whose nonces (as read from the random source)
differ return, without error, two different tokens; each token is the base64
text of the nonce followed by the sealed data, and both decrypt to the same
decimal text of the chat identifier. -/
theorem C10_randomised_encoding (lib : CipherLib) (hlib : lib.Lawful)
    (key : GoString) (hk : validKey key) (c : Int) (rand1 rand2 nonce1 nonce2 : List Byte)
    (h1 : ReadFull rand1 12 = .ok nonce1) (h2 : ReadFull rand2 12 = .ok nonce2)
    (hne : nonce1 ≠ nonce2) :
    (mintToken lib rand1 key c).2 = none ∧ (mintToken lib rand2 key c).2 = none ∧
    (mintToken lib rand1 key c).1 ≠ (mintToken lib rand2 key c).1 ∧
    (∃ g : AEAD,
      (mintToken lib rand1 key c).1
        = base64Encode (nonce1 ++ g.Seal [] nonce1 (FormatInt c) []) ∧
      (mintToken lib rand2 key c).1
        = base64Encode (nonce2 ++ g.Seal [] nonce2 (FormatInt c) [])) ∧
    Decrypt lib (mintToken lib rand1 key c).1 key = .returned (FormatInt c, none) ∧
    Decrypt lib (mintToken lib rand2 key c).1 key = .returned (FormatInt c, none) := by
  obtain ⟨hr1, hn1⟩ := ReadFull_ok rand1 12 nonce1 h1
  obtain ⟨hr2, hn2⟩ := ReadFull_ok rand2 12 nonce2 h2
  obtain ⟨kb, block, g, hkb, hblock, hg, hN, hL⟩ := lib_setup lib hlib key hk
  have e1 := Encrypt_eq lib key kb block g hkb hblock hg hN hL rand1 hr1 (FormatInt c)
  have e2 := Encrypt_eq lib key kb block g hkb hblock hg hN hL rand2 hr2 (FormatInt c)
  have hl1 : nonce1.length = 12 := by rw [hn1, List.length_take]; omega
  have hl2 : nonce2.length = 12 := by rw [hn2, List.length_take]; omega
  rw [← hn1] at e1
  rw [← hn2] at e2
  simp only [mintToken, e1, e2, true_and]
  refine ⟨?_, ⟨g, rfl, rfl⟩, ?_, ?_⟩
  · intro heq
    have := base64Encode_injective _ _ heq
    exact hne (List.append_inj_left this (by rw [hl1, hl2]))
  · exact Decrypt_sealed lib key kb block g hkb hblock hg hN hL nonce1 hl1 (FormatInt c)
  · exact Decrypt_sealed lib key kb block g hkb hblock hg hN hL nonce2 hl2 (FormatInt c)

/-- C10 with two random sources that differ in the first byte. -/
theorem C10_randomised_encoding_witness :
    demoLib.Lawful ∧ validKey (ascii "12345678901234567890123456789012") ∧
    ReadFull (List.replicate 12 (7 : Byte)) 12 = .ok (List.replicate 12 7) ∧
    ReadFull ((8 : Byte) :: List.replicate 15 7) 12 = .ok (8 :: List.replicate 11 7) ∧
    List.replicate 12 (7 : Byte) ≠ 8 :: List.replicate 11 7 ∧
    (mintToken demoLib (List.replicate 12 7) (ascii "12345678901234567890123456789012")
        (-1001234567890)).1
      ≠ (mintToken demoLib ((8 : Byte) :: List.replicate 15 7)
        (ascii "12345678901234567890123456789012") (-1001234567890)).1 ∧
    Decrypt demoLib (mintToken demoLib (List.replicate 12 7)
        (ascii "12345678901234567890123456789012") (-1001234567890)).1
        (ascii "12345678901234567890123456789012")
      = .returned (FormatInt (-1001234567890), none) ∧
    Decrypt demoLib (mintToken demoLib ((8 : Byte) :: List.replicate 15 7)
        (ascii "12345678901234567890123456789012") (-1001234567890)).1
        (ascii "12345678901234567890123456789012")
      = .returned (FormatInt (-1001234567890), none) :=
  have h := C10_randomised_encoding demoLib demoLib_lawful
    (ascii "12345678901234567890123456789012") (by decide) (-1001234567890)
    (List.replicate 12 7) ((8 : Byte) :: List.replicate 15 7) (List.replicate 12 7)
    (8 :: List.replicate 11 7) (by decide) (by decide) (by decide)
  ⟨demoLib_lawful, by decide, by decide, by decide, by decide, h.2.2.1, h.2.2.2.2.1,
    h.2.2.2.2.2⟩

end github

/-! # Properties of the webhook handler, the message contexts and the callbacks -/

namespace callbacks

open utils strconv

/-! ## Split and decimal text -/

theorem Split_ne_nil (s : GoString) (sep : Byte) : Split s sep ≠ [] := by
  induction s with
  | nil => simp [Split]
  | cons c rest ih =>
    rw [Split]
    split
    · simp
    · split
      · simp
      · simp

theorem Split_of_not_mem (a : GoString) (sep : Byte) (h : sep ∉ a) : Split a sep = [a] := by
  induction a with
  | nil => rfl
  | cons c rest ih =>
    have hc : c ≠ sep := fun hc => h (by simp [hc])
    have hr : sep ∉ rest := fun hr => h (by simp [hr])
    rw [Split, if_neg hc, ih hr]

theorem Split_append (a rest : GoString) (sep : Byte) (h : sep ∉ a) :
    Split (a ++ sep :: rest) sep = a :: Split rest sep := by
  induction a with
  | nil => simp [Split]
  | cons c a ih =>
    have hc : c ≠ sep := fun hc => h (by simp [hc])
    have hr : sep ∉ a := fun hr => h (by simp [hr])
    rw [List.cons_append, Split, if_neg hc, ih hr]

theorem formatUint_digits (n : Nat) : ∀ b ∈ formatUint n, 48 ≤ b.val ∧ b.val ≤ 57 := by
  induction n using Nat.strong_induction_on with
  | _ n ih =>
    by_cases h10 : n < 10
    · rw [formatUint_small n h10]
      intro b hb
      simp only [List.mem_singleton] at hb
      rw [hb, digitByte_val]; omega
    · rw [formatUint_step n h10]
      intro b hb
      rcases List.mem_append.1 hb with hb | hb
      · exact ih (n / 10) (by omega) b hb
      · simp only [List.mem_singleton] at hb
        rw [hb, digitByte_val]; omega

theorem FormatInt_colon_free (i : Int) : (58 : Byte) ∉ FormatInt i := by
  intro h
  unfold FormatInt at h
  split at h
  · rcases List.mem_cons.1 h with h | h
    · exact absurd h (by decide)
    · exact absurd (formatUint_digits _ _ h).2 (by decide)
  · exact absurd (formatUint_digits _ _ h).2 (by decide)

theorem FormatInt_injective (a b : Int) (ha1 : -9223372036854775808 ≤ a)
    (ha2 : a < 9223372036854775808) (hb1 : -9223372036854775808 ≤ b)
    (hb2 : b < 9223372036854775808) (h : FormatInt a = FormatInt b) : a = b := by
  have h1 := ParseInt_FormatInt a ha1 ha2
  rw [h, ParseInt_FormatInt b hb1 hb2] at h1
  exact (congrArg Prod.fst h1).symm

end callbacks

namespace github

open utils strconv

/-! ## The tenant step -/

theorem Decrypt_congr (lib : CipherLib) (t t' key : GoString)
    (h : base64Decode t' = base64Decode t) : Decrypt lib t' key = Decrypt lib t key := by
  simp only [Decrypt, h]

theorem aeadOf_of_valid (lib : CipherLib) (hlib : lib.Lawful) (key : GoString)
    (hk : validKey key) : ∃ g, aeadOf lib key = some g ∧ g.NonceSize = 12 ∧ g.Lawful := by
  obtain ⟨kb, block, g, h1, h2, h3, hN, hL⟩ := lib_setup lib hlib key hk
  exact ⟨g, by simp only [aeadOf, h1, h2, h3], hN, hL⟩

theorem Decrypt_of_aead (lib : CipherLib) (key : GoString) (g : AEAD)
    (hg : aeadOf lib key = some g) (enc : GoString) :
    Decrypt lib enc key =
      (match base64Decode enc with
        | (_, some err) => .returned ([], some err)
        | (data, none) =>
          if data.length < g.NonceSize then .returned ([], some .ciphertextTooShort)
          else
            match g.Open [] (data.take g.NonceSize) (data.drop g.NonceSize) [] with
            | .error err => .returned ([], some err)
            | .ok plaintext => .returned (plaintext, none)) := by
  rcases hk : getKeyBytes key with ⟨kb, _ | err⟩
  swap
  · simp [aeadOf, hk] at hg
  rcases hc : lib.NewCipher kb with err | block
  · simp [aeadOf, hk, hc] at hg
  rcases hn : lib.NewGCM block with err | aesGCM
  · simp [aeadOf, hk, hc, hn] at hg
  have hgg : aesGCM = g := by
    simpa [aeadOf, hk, hc, hn] using hg
  subst hgg
  rcases hb : base64Decode enc with ⟨data, _ | err⟩
  swap
  · simp [Decrypt, hk, hb]
  by_cases hlt : data.length < aesGCM.NonceSize
  · simp [Decrypt, hk, hb, hc, hn, hlt]
  · have hle : aesGCM.NonceSize ≤ data.length := by omega
    simp only [Decrypt, hk, hb, hc, hn, hlt, if_false, sliceTo, sliceFrom, hle, if_true]

theorem handlerChatID_webhook (lib : CipherLib) (key t' : GoString) (ht : t' ≠ []) :
    handlerChatID lib key (ascii "/webhook/" ++ t') =
      (match Decrypt lib t' key with
        | .panicked => .panicked
        | .returned (decrypted, none) =>
          (match ParseInt decrypted with
            | (id, none) => .returned id
            | (_, some _) => .returned 0)
        | .returned (_, some _) => .returned 0) := by
  have hpos := List.length_pos.2 ht
  have hpre : HasPrefix (ascii "/webhook/" ++ t') (ascii "/webhook/") = true := by
    simp only [HasPrefix]
    exact List.isPrefixOf_iff_prefix.2 (List.prefix_append _ _)
  have h9 : (ascii "/webhook/").length = 9 := by decide
  have hlen : (ascii "/webhook/" ++ t').length > 9 := by
    rw [List.length_append, h9]; omega
  have hdrop : sliceFrom (ascii "/webhook/" ++ t') 9 = some t' := by
    simp only [sliceFrom, Nat.le_of_lt hlen, if_true, List.drop_left' h9]
  simp only [handlerChatID, hpre, hlen, decide_True, Bool.and_self, if_true, hdrop]

theorem handlerChatID_webhook_empty (lib : CipherLib) (key : GoString) :
    handlerChatID lib key (ascii "/webhook/" ++ []) = .returned 0 := by
  have h9 : ¬ (ascii "/webhook/" ++ ([] : GoString)).length > 9 := by decide
  simp only [handlerChatID, h9, decide_False, Bool.and_false]
  rfl

theorem resolveTenant_of_zero (lib : CipherLib) (key path : GoString)
    (h : handlerChatID lib key path = .returned 0) :
    resolveTenant lib key path = .returned (.error unauthorizedTokenRequired) := by
  simp only [resolveTenant, h, if_true]

theorem handlerChatID_of_Decrypt_error (lib : CipherLib) (key t' x : GoString) (e : Error)
    (h : Decrypt lib t' key = .returned (x, some e)) :
    handlerChatID lib key (ascii "/webhook/" ++ t') = .returned 0 := by
  by_cases ht : t' = []
  · subst ht; exact handlerChatID_webhook_empty lib key
  · rw [handlerChatID_webhook lib key t' ht, h]

/-- C11 (as amended): let `t` be the token minted for chat `c` with a library
that keeps the contract and a valid key, and let `t'` be any string, in
particular `t` with one bit flipped. Provided `Open` of AES-GCM rejects
the bytes that `t'` decodes to whenever they differ from the bytes that `t`
decodes to (the authentication of AES-GCM, a property of the library and not
of this program), either `Decrypt` of `t'` returns an error and the tenant
step on `t'` is answered 401, or `t'` base64-decodes to the same bytes as `t`
and the tenant step sets `chatID` to the same `c`; the tenant step never goes
on with a chat other than `c`. -/
theorem C11_token_integrity (lib : CipherLib) (hlib : lib.Lawful) (rand : List Byte)
    (hrand : 12 ≤ rand.length) (key : GoString) (hk : validKey key) (c : Int)
    (hlo : -9223372036854775808 ≤ c) (hhi : c < 9223372036854775808) (t' : GoString)
    (hauth : ∀ g data', aeadOf lib key = some g → base64Decode t' = (data', none) →
      data' ≠ (base64Decode (mintToken lib rand key c).1).1 → 12 ≤ data'.length →
      ∃ e, g.Open [] (data'.take 12) (data'.drop 12) [] = .error e) :
    (((∃ x e, Decrypt lib t' key = .returned (x, some e)) ∧
        resolveTenant lib key (ascii "/webhook/" ++ t')
          = .returned (.error unauthorizedTokenRequired)) ∨
      (base64Decode t' = base64Decode (mintToken lib rand key c).1 ∧
        handlerChatID lib key (ascii "/webhook/" ++ t') = .returned c)) ∧
    (∀ c', resolveTenant lib key (ascii "/webhook/" ++ t') = .returned (.ok c') →
      c' = c) := by
  suffices hmain : ((∃ x e, Decrypt lib t' key = .returned (x, some e)) ∧
        resolveTenant lib key (ascii "/webhook/" ++ t')
          = .returned (.error unauthorizedTokenRequired)) ∨
      (base64Decode t' = base64Decode (mintToken lib rand key c).1 ∧
        handlerChatID lib key (ascii "/webhook/" ++ t') = .returned c) by
    refine ⟨hmain, ?_⟩
    intro c' hc'
    rcases hmain with ⟨_, h⟩ | ⟨_, h⟩
    · rw [h] at hc'
      simp at hc'
    · simp only [resolveTenant, h] at hc'
      split_ifs at hc'
      · simp at hc'
      · simpa using hc'.symm
  obtain ⟨g, hg, hN, _⟩ := aeadOf_of_valid lib hlib key hk
  obtain ⟨g0, _, henc, _⟩ := Encrypt_Decrypt lib hlib rand hrand (FormatInt c) key hk
  obtain ⟨_, hchat⟩ := handlerChatID_mintToken lib hlib rand hrand key hk c hlo hhi
  have htok : (mintToken lib rand key c).1
      = base64Encode (rand.take 12 ++ g0.Seal [] (rand.take 12) (FormatInt c) []) := by
    simp only [mintToken, henc]
  have hdata : base64Decode (mintToken lib rand key c).1
      = (rand.take 12 ++ g0.Seal [] (rand.take 12) (FormatInt c) [], none) := by
    rw [htok, base64Decode_encode]
  have hdlen : 12 ≤ (rand.take 12 ++ g0.Seal [] (rand.take 12) (FormatInt c) []).length := by
    simp only [List.length_append, List.length_take]; omega
  have htne : (mintToken lib rand key c).1 ≠ [] := by
    intro h0
    rw [h0] at hdata
    have h1 : base64Decode ([] : GoString) = ([], none) := by decide
    rw [h1] at hdata
    have := congrArg (fun p => p.1.length) hdata
    simp only [List.length_nil] at this
    omega
  rcases hb : base64Decode t' with ⟨data', _ | err⟩
  · by_cases hsame : data' = (base64Decode (mintToken lib rand key c).1).1
    · right
      have heq : base64Decode t' = base64Decode (mintToken lib rand key c).1 := by
        rw [hb, hsame, hdata]
      have ht' : t' ≠ [] := by
        intro h0
        rw [h0] at heq
        have h1 : base64Decode ([] : GoString) = ([], none) := by decide
        rw [h1, hdata] at heq
        have := congrArg (fun p => p.1.length) heq
        simp only [List.length_nil] at this
        omega
      refine ⟨by rw [← hb, heq], ?_⟩
      rw [handlerChatID_webhook lib key t' ht',
        Decrypt_congr lib (mintToken lib rand key c).1 t' key heq,
        ← handlerChatID_webhook lib key _ htne]
      exact hchat
    · left
      by_cases hshort : data'.length < 12
      · have hD : Decrypt lib t' key = .returned ([], some .ciphertextTooShort) := by
          rw [Decrypt_of_aead lib key g hg, hb]
          simp only [hN, hshort, if_true]
        exact ⟨⟨_, _, hD⟩, resolveTenant_of_zero lib key _
          (handlerChatID_of_Decrypt_error lib key t' _ _ hD)⟩
      · obtain ⟨e, he⟩ := hauth g data' hg hb hsame (by omega)
        have hD : Decrypt lib t' key = .returned ([], some e) := by
          rw [Decrypt_of_aead lib key g hg, hb]
          simp only [hN, hshort, if_false, he]
        exact ⟨⟨_, _, hD⟩, resolveTenant_of_zero lib key _
          (handlerChatID_of_Decrypt_error lib key t' _ _ hD)⟩
  · left
    have hD : Decrypt lib t' key = .returned ([], some err) := by
      rw [Decrypt_of_aead lib key g hg, hb]
    exact ⟨⟨_, _, hD⟩, resolveTenant_of_zero lib key _
      (handlerChatID_of_Decrypt_error lib key t' _ _ hD)⟩

theorem demo_flip_rejected :
    ∀ g data', aeadOf demoLib (ascii "12345678901234567890123456789012") = some g →
      base64Decode (flipBit (mintToken demoLib (List.replicate 12 7) (ascii "12345678901234567890123456789012") 123456789).1 20 0) = (data', none) →
      data' ≠ (base64Decode (mintToken demoLib (List.replicate 12 7) (ascii "12345678901234567890123456789012") 123456789).1).1 → 12 ≤ data'.length →
      ∃ e, g.Open [] (data'.take 12) (data'.drop 12) [] = .error e := by
  intro g data' hg hd _ _
  have hg0 : aeadOf demoLib (ascii "12345678901234567890123456789012")
      = some (demoAEAD (ascii "12345678901234567890123456789012")) := rfl
  rw [hg0] at hg
  have hgg := Option.some.inj hg
  subst hgg
  have hdd : data' = (base64Decode (flipBit (mintToken demoLib (List.replicate 12 7) (ascii "12345678901234567890123456789012") 123456789).1 20 0)).1 := by rw [hd]
  subst hdd
  exact ⟨.errOpen, by decide⟩

theorem demo_flip_same_bytes :
    ∀ g data', aeadOf demoLib (ascii "12345678901234567890123456789012") = some g →
      base64Decode (flipBit (mintToken demoLib (List.replicate 12 7) (ascii "12345678901234567890123456789012") 123456789).1 49 1) = (data', none) →
      data' ≠ (base64Decode (mintToken demoLib (List.replicate 12 7) (ascii "12345678901234567890123456789012") 123456789).1).1 → 12 ≤ data'.length →
      ∃ e, g.Open [] (data'.take 12) (data'.drop 12) [] = .error e := by
  intro g data' _ hd hne _
  have hdd : data' = (base64Decode (flipBit (mintToken demoLib (List.replicate 12 7) (ascii "12345678901234567890123456789012") 123456789).1 49 1)).1 := by rw [hd]
  subst hdd
  exact absurd (by decide) hne

/-- C11 on the token of chat 123456789: a flip inside the sealed bytes, which
the stand-in AEAD rejects, is answered 401; a flip of bit 1 of the last
character before the padding decodes to the same bytes and gives the same
chat. -/
theorem C11_token_integrity_witness :
    demoLib.Lawful ∧ 12 ≤ (List.replicate 12 (7 : Byte)).length ∧
    validKey (ascii "12345678901234567890123456789012") ∧
    (-9223372036854775808 : Int) ≤ 123456789 ∧ (123456789 : Int) < 9223372036854775808 ∧
    base64Decode (flipBit (mintToken demoLib (List.replicate 12 7) (ascii "12345678901234567890123456789012") 123456789).1 20 0) ≠ base64Decode (mintToken demoLib (List.replicate 12 7) (ascii "12345678901234567890123456789012") 123456789).1 ∧
    flipBit (mintToken demoLib (List.replicate 12 7) (ascii "12345678901234567890123456789012") 123456789).1 49 1 ≠ (mintToken demoLib (List.replicate 12 7) (ascii "12345678901234567890123456789012") 123456789).1 ∧
    (((∃ x e, Decrypt demoLib (flipBit (mintToken demoLib (List.replicate 12 7) (ascii "12345678901234567890123456789012") 123456789).1 20 0) (ascii "12345678901234567890123456789012") = .returned (x, some e)) ∧
        resolveTenant demoLib (ascii "12345678901234567890123456789012") (ascii "/webhook/" ++ (flipBit (mintToken demoLib (List.replicate 12 7) (ascii "12345678901234567890123456789012") 123456789).1 20 0))
          = .returned (.error unauthorizedTokenRequired)) ∨
      (base64Decode (flipBit (mintToken demoLib (List.replicate 12 7) (ascii "12345678901234567890123456789012") 123456789).1 20 0) = base64Decode (mintToken demoLib (List.replicate 12 7) (ascii "12345678901234567890123456789012") 123456789).1 ∧
        handlerChatID demoLib (ascii "12345678901234567890123456789012") (ascii "/webhook/" ++ (flipBit (mintToken demoLib (List.replicate 12 7) (ascii "12345678901234567890123456789012") 123456789).1 20 0))
          = .returned 123456789)) ∧
    (((∃ x e, Decrypt demoLib (flipBit (mintToken demoLib (List.replicate 12 7) (ascii "12345678901234567890123456789012") 123456789).1 49 1) (ascii "12345678901234567890123456789012") = .returned (x, some e)) ∧
        resolveTenant demoLib (ascii "12345678901234567890123456789012") (ascii "/webhook/" ++ (flipBit (mintToken demoLib (List.replicate 12 7) (ascii "12345678901234567890123456789012") 123456789).1 49 1))
          = .returned (.error unauthorizedTokenRequired)) ∨
      (base64Decode (flipBit (mintToken demoLib (List.replicate 12 7) (ascii "12345678901234567890123456789012") 123456789).1 49 1) = base64Decode (mintToken demoLib (List.replicate 12 7) (ascii "12345678901234567890123456789012") 123456789).1 ∧
        handlerChatID demoLib (ascii "12345678901234567890123456789012") (ascii "/webhook/" ++ (flipBit (mintToken demoLib (List.replicate 12 7) (ascii "12345678901234567890123456789012") 123456789).1 49 1))
          = .returned 123456789)) :=
  ⟨demoLib_lawful, by decide, by decide, by decide, by decide, by decide, by decide,
    (C11_token_integrity demoLib demoLib_lawful (List.replicate 12 7) (by decide)
      (ascii "12345678901234567890123456789012") (by decide) 123456789 (by decide) (by decide) (flipBit (mintToken demoLib (List.replicate 12 7) (ascii "12345678901234567890123456789012") 123456789).1 20 0)
      demo_flip_rejected).1,
    (C11_token_integrity demoLib demoLib_lawful (List.replicate 12 7) (by decide)
      (ascii "12345678901234567890123456789012") (by decide) 123456789 (by decide) (by decide) (flipBit (mintToken demoLib (List.replicate 12 7) (ascii "12345678901234567890123456789012") 123456789).1 49 1)
      demo_flip_same_bytes).1⟩

/-- C11 as stated fails: in the token minted for chat 123456789, flipping
bit 1 of the character at index 49 (the last one before the padding, `Q`
becoming `S`) gives a different token that the tenant step does not answer
401: it resolves to chat 123456789 as the original does. -/
theorem C11_padding_bit_flip_accepted :
    (mintToken demoLib (List.replicate 12 7) (ascii "12345678901234567890123456789012") 123456789).1 = ascii "BwcHBwcHBwcHBwcHDxAREhMUFRYXiYmJiYmJiYmJiYmJiYmJiQ==" ∧
    flipBit (ascii "BwcHBwcHBwcHBwcHDxAREhMUFRYXiYmJiYmJiYmJiYmJiYmJiQ==") 49 1
      = ascii "BwcHBwcHBwcHBwcHDxAREhMUFRYXiYmJiYmJiYmJiYmJiYmJiS==" ∧
    resolveTenant demoLib (ascii "12345678901234567890123456789012")
      (ascii "/webhook/" ++ ascii "BwcHBwcHBwcHBwcHDxAREhMUFRYXiYmJiYmJiYmJiYmJiYmJiS==")
      = .returned (.ok 123456789) ∧
    resolveTenant demoLib (ascii "12345678901234567890123456789012")
      (ascii "/webhook/" ++ ascii "BwcHBwcHBwcHBwcHDxAREhMUFRYXiYmJiYmJiYmJiYmJiYmJiS==")
      ≠ .returned (.error unauthorizedTokenRequired) := by
  decide

/-! ## Handler -/

theorem handlerChatID_no_panic (lib : CipherLib) (key path : GoString) :
    ∃ c, handlerChatID lib key path = .returned c := by
  unfold handlerChatID
  split
  · rename_i hcond
    simp only [Bool.and_eq_true, decide_eq_true_eq] at hcond
    have hs : sliceFrom path 9 = some (path.drop 9) := by
      simp only [sliceFrom, Nat.le_of_lt hcond.2, if_true]
    rcases hd : Decrypt lib (path.drop 9) key with ⟨d, _ | e⟩ | _
    · rcases hp : ParseInt d with ⟨id, _ | e⟩
      · exact ⟨id, by simp only [hs, hd, hp]⟩
      · exact ⟨0, by simp only [hs, hd, hp]⟩
    · exact ⟨0, by simp only [hs, hd]⟩
    · exact absurd hd (Decrypt_no_panic lib _ key)
  · exact ⟨0, rfl⟩

theorem handlerChatID_of_tokenDecodes (lib : CipherLib) (key path : GoString) (c : Int)
    (h : tokenDecodes lib key path c) : handlerChatID lib key path = .returned c := by
  obtain ⟨hpre, hlen, d, hd, hp⟩ := h
  have hs : sliceFrom path 9 = some (path.drop 9) := by
    simp only [sliceFrom, Nat.le_of_lt hlen, if_true]
  simp only [handlerChatID, hpre, hlen, decide_True, Bool.and_self, if_true, hs, hd, hp]

theorem tokenDecodes_of_handlerChatID (lib : CipherLib) (key path : GoString) (c : Int)
    (h : handlerChatID lib key path = .returned c) (hc : c ≠ 0) :
    tokenDecodes lib key path c := by
  unfold handlerChatID at h
  split at h
  · rename_i hcond
    simp only [Bool.and_eq_true, decide_eq_true_eq] at hcond
    have hs : sliceFrom path 9 = some (path.drop 9) := by
      simp only [sliceFrom, Nat.le_of_lt hcond.2, if_true]
    rcases hd : Decrypt lib (path.drop 9) key with ⟨d, _ | e⟩ | _
    · rcases hp : ParseInt d with ⟨id, _ | e⟩
      · simp only [hs, hd, hp, Outcome.returned.injEq] at h
        subst h
        exact ⟨hcond.1, hcond.2, d, hd, hp⟩
      · simp only [hs, hd, hp, Outcome.returned.injEq] at h
        exact absurd h.symm hc
    · simp only [hs, hd, Outcome.returned.injEq] at h
      exact absurd h.symm hc
    · exact absurd hd (Decrypt_no_panic lib _ key)
  · simp only [Outcome.returned.injEq] at h
    exact absurd h.symm hc

theorem handlerChatID_bad_token (lib : CipherLib) (key path : GoString)
    (h : ∀ c, tokenDecodes lib key path c → c = 0) :
    handlerChatID lib key path = .returned 0 := by
  obtain ⟨c, hc⟩ := handlerChatID_no_panic lib key path
  by_cases h0 : c = 0
  · rw [hc, h0]
  · exact absurd (h c (tokenDecodes_of_handlerChatID lib key path c hc h0)) h0

theorem Handler_bad_token (lib : CipherLib) (key : GoString) (r : Request)
    (h : handlerChatID lib key r.path = .returned 0) :
    Handler lib key r
      = .returned { response := unauthorizedTokenRequired, processEvent := none } := by
  simp only [Handler, h, if_true]

theorem Handler_good_token (lib : CipherLib) (key : GoString) (r : Request) (c : Int)
    (h : handlerChatID lib key r.path = .returned c) (hc : c ≠ 0) :
    Handler lib key r =
      (match r.validatePayload with
        | .error _ => .returned { response := invalidSignature, processEvent := none }
        | .ok payload =>
          match r.parseWebHook payload with
          | .error _ => .returned { response := parseError, processEvent := none }
          | .ok event =>
            .returned { response := statusOK,
                        processEvent := some (event, c, handlerHookID r.hookIDHeader) }) := by
  simp only [Handler, h, hc, if_false]

theorem ParseInt_syntax_value (s : GoString) (h : (ParseInt s).2 = some .strconvSyntax) :
    (ParseInt s).1 = 0 := by
  unfold ParseInt at h ⊢
  split
  · rfl
  · rename_i c rest
    split
    rename_i un err heq
    simp only [heq] at h
    split
    · rfl
    · split at h
      · rename_i h1; exact absurd h1.1 (by simp_all)
      · split at h
        · simp at h
        · split at h
          · simp at h
          · split at h <;> simp at h

/-- C12: the response of `Handler` is 401 when the path token is empty or
does not decode to a chat identifier (no `c` at all, or the value 0, which
`Handler` keeps for "no chat identifier" and which is the identifier of no
chat); otherwise (the token decodes to a chat `c` other than 0) it is 401
when payload validation fails, otherwise 500 when the body does not parse,
otherwise 200. The event is handed to `processEvent`, with `c` and the
hook id, exactly in the 200 case, and `Handler` never panics. The hook id
is 0 when the header is absent or not an integer, and the header's value when
it parses. -/
theorem C12_handler_outcome (lib : CipherLib) (key : GoString) (r : Request) :
    ((∀ c, ¬ tokenDecodes lib key r.path c) ∨ tokenDecodes lib key r.path 0 →
      Handler lib key r
        = .returned { response := unauthorizedTokenRequired, processEvent := none }) ∧
    (∀ c, tokenDecodes lib key r.path c → c ≠ 0 →
      (∀ e, r.validatePayload = .error e →
        Handler lib key r
          = .returned { response := invalidSignature, processEvent := none }) ∧
      (∀ payload e, r.validatePayload = .ok payload → r.parseWebHook payload = .error e →
        Handler lib key r = .returned { response := parseError, processEvent := none }) ∧
      (∀ payload event, r.validatePayload = .ok payload →
        r.parseWebHook payload = .ok event →
        Handler lib key r
          = .returned { response := statusOK,
                        processEvent := some (event, c, handlerHookID r.hookIDHeader) })) ∧
    (unauthorizedTokenRequired.status = 401 ∧ invalidSignature.status = 401 ∧
      parseError.status = 500 ∧ statusOK.status = 200) ∧
    (handlerHookID [] = 0 ∧
      (∀ idStr, (ParseInt idStr).2 = some .strconvSyntax → handlerHookID idStr = 0) ∧
      (∀ idStr v, idStr ≠ [] → ParseInt idStr = (v, none) → handlerHookID idStr = v)) ∧
    (∃ res, Handler lib key r = .returned res ∧
      (res.processEvent.isSome = true ↔ res.response.status = 200)) := by
  refine ⟨?_, ?_, ⟨rfl, rfl, rfl, rfl⟩, ⟨rfl, ?_, ?_⟩, ?_⟩
  · intro h
    apply Handler_bad_token
    rcases h with h | h
    · exact handlerChatID_bad_token lib key r.path (fun c hc => absurd hc (h c))
    · exact handlerChatID_of_tokenDecodes lib key r.path 0 h
  · intro c hdec hc
    have hG := Handler_good_token lib key r c
      (handlerChatID_of_tokenDecodes lib key r.path c hdec) hc
    refine ⟨?_, ?_, ?_⟩
    · intro e he
      rw [hG, he]
    · intro payload e hv hp
      rw [hG, hv]
      simp only [hp]
    · intro payload event hv hp
      rw [hG, hv]
      simp only [hp]
  · intro idStr h
    unfold handlerHookID
    split
    · exact ParseInt_syntax_value idStr h
    · rfl
  · intro idStr v hne h
    simp only [handlerHookID, hne, ne_eq, not_false_eq_true, if_true, h]
  · obtain ⟨c, hc⟩ := handlerChatID_no_panic lib key r.path
    by_cases h0 : c = 0
    · subst h0
      exact ⟨_, Handler_bad_token lib key r hc, by decide⟩
    · rw [Handler_good_token lib key r c hc h0]
      rcases hv : r.validatePayload with e | payload
      · exact ⟨_, rfl, by decide⟩
      · rcases hp : r.parseWebHook payload with e | event
        · exact ⟨{ response := parseError, processEvent := none }, by simp only [hp],
            by decide⟩
        · exact ⟨{ response := statusOK,
                   processEvent := some (event, c, handlerHookID r.hookIDHeader) },
            by simp only [hp], by simp [statusOK]⟩

theorem demo_tokenDecodes :
    tokenDecodes demoLib (ascii "12345678901234567890123456789012") (ascii "/webhook/" ++ (mintToken demoLib (List.replicate 12 7) (ascii "12345678901234567890123456789012") (-1001234567890)).1) (-1001234567890) :=
  ⟨by decide, by decide, FormatInt (-1001234567890), by decide, by decide⟩

theorem demo_tokenDecodes_zero :
    tokenDecodes demoLib (ascii "12345678901234567890123456789012") (ascii "/webhook/" ++ (mintToken demoLib (List.replicate 12 7) (ascii "12345678901234567890123456789012") (0)).1) 0 :=
  ⟨by decide, by decide, ascii "0", by decide, by decide⟩

theorem demo_token_bad (c : Int)
    (h : tokenDecodes demoLib (ascii "12345678901234567890123456789012") (ascii "/webhook/not-a-token") c) : c = 0 := by
  obtain ⟨_, _, d, hd, _⟩ := h
  have : Decrypt demoLib ((ascii "/webhook/not-a-token").drop 9) (ascii "12345678901234567890123456789012")
      = .returned ([], some .base64CorruptInput) := by decide
  rw [this] at hd
  simp at hd

/-- C12 on a request whose token decodes to a supergroup chat: with a valid
signature and a body that parses it is answered 200 and the event goes to
`processEvent` with the chat and hook id 12345; with a bad signature it is
answered 401 and nothing is handed on. -/
theorem C12_handler_outcome_witness :
    tokenDecodes demoLib (ascii "12345678901234567890123456789012") (ascii "/webhook/" ++ (mintToken demoLib (List.replicate 12 7) (ascii "12345678901234567890123456789012") (-1001234567890)).1) (-1001234567890) ∧
    Handler demoLib (ascii "12345678901234567890123456789012") (demoRequest (ascii "/webhook/" ++ (mintToken demoLib (List.replicate 12 7) (ascii "12345678901234567890123456789012") (-1001234567890)).1) (ascii "12345") true)
      = .returned { response := statusOK,
                    processEvent := some (.other "ping", -1001234567890,
                      handlerHookID (ascii "12345")) } ∧
    handlerHookID (ascii "12345") = 12345 ∧
    Handler demoLib (ascii "12345678901234567890123456789012") (demoRequest (ascii "/webhook/" ++ (mintToken demoLib (List.replicate 12 7) (ascii "12345678901234567890123456789012") (-1001234567890)).1) (ascii "12345") false)
      = .returned { response := invalidSignature, processEvent := none } :=
  ⟨demo_tokenDecodes,
    ((C12_handler_outcome demoLib (ascii "12345678901234567890123456789012")
      (demoRequest (ascii "/webhook/" ++ (mintToken demoLib (List.replicate 12 7) (ascii "12345678901234567890123456789012") (-1001234567890)).1) (ascii "12345") true)).2.1
        (-1001234567890) demo_tokenDecodes (by decide)).2.2
      (ascii "payload") (.other "ping") rfl rfl,
    (C12_handler_outcome demoLib (ascii "12345678901234567890123456789012")
      (demoRequest (ascii "/webhook/" ++ (mintToken demoLib (List.replicate 12 7) (ascii "12345678901234567890123456789012") (-1001234567890)).1) (ascii "12345") true)).2.2.2.1.2.2
        (ascii "12345") 12345 (by decide) (by decide),
    ((C12_handler_outcome demoLib (ascii "12345678901234567890123456789012")
      (demoRequest (ascii "/webhook/" ++ (mintToken demoLib (List.replicate 12 7) (ascii "12345678901234567890123456789012") (-1001234567890)).1) (ascii "12345") false)).2.1
        (-1001234567890) demo_tokenDecodes (by decide)).1 "bad signature" rfl⟩

/-- A token sealed over the text "0" (no call site mints one) is answered
like a missing token: with a valid signature and a body that parses the
request is still answered 401 and no event is processed. -/
theorem Handler_token_of_zero :
    tokenDecodes demoLib (ascii "12345678901234567890123456789012") (ascii "/webhook/" ++ (mintToken demoLib (List.replicate 12 7) (ascii "12345678901234567890123456789012") (0)).1) 0 ∧
    (demoRequest (ascii "/webhook/" ++ (mintToken demoLib (List.replicate 12 7) (ascii "12345678901234567890123456789012") (0)).1) (ascii "12345") true).validatePayload
      = .ok (ascii "payload") ∧
    (demoRequest (ascii "/webhook/" ++ (mintToken demoLib (List.replicate 12 7) (ascii "12345678901234567890123456789012") (0)).1) (ascii "12345") true).parseWebHook
        (ascii "payload") = .ok (.other "ping") ∧
    Handler demoLib (ascii "12345678901234567890123456789012") (demoRequest (ascii "/webhook/" ++ (mintToken demoLib (List.replicate 12 7) (ascii "12345678901234567890123456789012") (0)).1) (ascii "12345") true)
      = .returned { response := unauthorizedTokenRequired, processEvent := none } :=
  ⟨demo_tokenDecodes_zero, rfl, rfl, by decide⟩

/-- C13 (as amended): a request with a bad tenant token (none, or one that
does not decode to a chat other than 0) and a request with a valid token but
a bad signature are both answered with status 401 and hand no event on, but
the bodies differ: "Unauthorized: Token required" for the token, "Invalid
signature" for the signature. -/
theorem C13_denial_responses (lib : CipherLib) (key : GoString) (r1 r2 : Request)
    (c : Int) (e : String) (hbad : ∀ c', tokenDecodes lib key r1.path c' → c' = 0)
    (hgood : tokenDecodes lib key r2.path c) (hc : c ≠ 0)
    (hsig : r2.validatePayload = .error e) :
    Handler lib key r1
      = .returned { response := unauthorizedTokenRequired, processEvent := none } ∧
    Handler lib key r2
      = .returned { response := invalidSignature, processEvent := none } ∧
    unauthorizedTokenRequired.status = 401 ∧ invalidSignature.status = 401 ∧
    unauthorizedTokenRequired.body = ascii "Unauthorized: Token required\n" ∧
    invalidSignature.body = ascii "Invalid signature\n" ∧
    unauthorizedTokenRequired.body ≠ invalidSignature.body := by
  refine ⟨?_, ?_, rfl, rfl, rfl, rfl, by decide⟩
  · exact Handler_bad_token lib key r1 (handlerChatID_bad_token lib key r1.path hbad)
  · rw [Handler_good_token lib key r2 c
      (handlerChatID_of_tokenDecodes lib key r2.path c hgood) hc, hsig]

/-- C13 on a request with a path that holds no token and a request with a
valid token and a bad signature. -/
theorem C13_denial_responses_witness :
    (∀ c', tokenDecodes demoLib (ascii "12345678901234567890123456789012")
      (demoRequest (ascii "/webhook/not-a-token") [] true).path c' → c' = 0) ∧
    tokenDecodes demoLib (ascii "12345678901234567890123456789012")
      (demoRequest (ascii "/webhook/" ++ (mintToken demoLib (List.replicate 12 7) (ascii "12345678901234567890123456789012") (-1001234567890)).1) [] false).path (-1001234567890) ∧
    Handler demoLib (ascii "12345678901234567890123456789012") (demoRequest (ascii "/webhook/not-a-token") [] true)
      = .returned { response := unauthorizedTokenRequired, processEvent := none } ∧
    Handler demoLib (ascii "12345678901234567890123456789012") (demoRequest (ascii "/webhook/" ++ (mintToken demoLib (List.replicate 12 7) (ascii "12345678901234567890123456789012") (-1001234567890)).1) [] false)
      = .returned { response := invalidSignature, processEvent := none } :=
  ⟨demo_token_bad, demo_tokenDecodes,
    (C13_denial_responses demoLib (ascii "12345678901234567890123456789012") (demoRequest (ascii "/webhook/not-a-token") [] true)
      (demoRequest (ascii "/webhook/" ++ (mintToken demoLib (List.replicate 12 7) (ascii "12345678901234567890123456789012") (-1001234567890)).1) [] false) (-1001234567890) "bad signature"
      demo_token_bad demo_tokenDecodes (by decide) rfl).1,
    (C13_denial_responses demoLib (ascii "12345678901234567890123456789012") (demoRequest (ascii "/webhook/not-a-token") [] true)
      (demoRequest (ascii "/webhook/" ++ (mintToken demoLib (List.replicate 12 7) (ascii "12345678901234567890123456789012") (-1001234567890)).1) [] false) (-1001234567890) "bad signature"
      demo_token_bad demo_tokenDecodes (by decide) rfl).2.1⟩

/-- C13 as stated fails: the response to a bad token and the response to a
valid token with a bad signature have the same status but not the same body. -/
theorem C13_bodies_differ :
    (∃ r1 r2,
      Handler demoLib (ascii "12345678901234567890123456789012") (demoRequest (ascii "/webhook/not-a-token") [] true)
        = .returned r1 ∧
      Handler demoLib (ascii "12345678901234567890123456789012") (demoRequest (ascii "/webhook/" ++ (mintToken demoLib (List.replicate 12 7) (ascii "12345678901234567890123456789012") (-1001234567890)).1) [] false)
        = .returned r2 ∧
      r1.response.status = r2.response.status ∧
      r1.response.body = ascii "Unauthorized: Token required\n" ∧
      r2.response.body = ascii "Invalid signature\n" ∧
      r1.response ≠ r2.response) :=
  ⟨{ response := unauthorizedTokenRequired, processEvent := none },
    { response := invalidSignature, processEvent := none },
    by decide, by decide, by decide, by decide, by decide, by decide⟩

/-! ## processEvent and the message contexts -/

open cache models in
theorem processEvent_empty (co : Collaborators) (ContextCache : Cache GoString MessageContext)
    (now : Time) (event : WebhookEvent) (chatID hookID : Int)
    (markup : Option InlineKeyboardMarkup)
    (h : formatMessage co event = .returned ([], markup)) :
    (processEvent co ContextCache now event chatID hookID).effects
      = renameEffects event chatID hookID ∧
    (processEvent co ContextCache now event chatID hookID).ContextCache = ContextCache ∧
    (processEvent co ContextCache now event chatID hookID).panicked = false := by
  simp only [processEvent, h, if_true, and_self]

open cache models in
theorem processEvent_sent (co : Collaborators) (ContextCache : Cache GoString MessageContext)
    (now : Time) (event : WebhookEvent) (chatID hookID m : Int) (msg : GoString)
    (markup : Option InlineKeyboardMarkup)
    (hfmt : formatMessage co event = .returned (msg, markup)) (hmsg : msg ≠ [])
    (hsend : co.SendMessage chatID (co.normalizeMessage msg) markup = .ok m) :
    (processEvent co ContextCache now event chatID hookID).ContextCache
      = storeMessageContext ContextCache now m chatID event := by
  simp only [processEvent, hfmt, hmsg, if_false, hsend]

open cache models in
theorem lookup_store (ContextCache : Cache GoString MessageContext) (now t' : Time)
    (event : WebhookEvent) (c m : Int) (ctx : MessageContext)
    (h : messageContextOf event = some ctx) (h2 : t' ≤ now + contextTTL) :
    (lookupContext (storeMessageContext ContextCache now m c event) t' c m).1
      = (ctx, true) := by
  simp only [lookupContext, storeMessageContext, h]
  rw [Cache.Get_of_Load_live _ t' _ _ (Cache.Load_Set_self _ _ _ _ _) h2]

theorem messageContextOf_type (event : WebhookEvent) (ctx : models.MessageContext)
    (h : messageContextOf event = some ctx) : ctx.EntityType ∈ entityTypes := by
  cases event <;> simp only [messageContextOf] at h <;> cases h <;> dsimp only <;> decide

open cache models in
theorem store_types (ContextCache : Cache GoString MessageContext) (now : Time)
    (event : WebhookEvent) (c m : Int)
    (hinv : ∀ k itm, ContextCache.items.Load k = some itm →
      itm.value.EntityType ∈ entityTypes) :
    ∀ k itm, (storeMessageContext ContextCache now m c event).items.Load k = some itm →
      itm.value.EntityType ∈ entityTypes := by
  intro k itm hL
  unfold storeMessageContext at hL
  cases hctx : messageContextOf event with
  | none =>
    simp only [hctx] at hL
    exact hinv k itm hL
  | some ctx =>
    simp only [hctx] at hL
    by_cases hk : k = contextKey c m
    · subst hk
      rw [Cache.Load_Set_self] at hL
      have hi := Option.some.inj hL
      subst hi
      exact messageContextOf_type event ctx hctx
    · rw [Cache.Load_Set_ne _ _ _ _ hk] at hL
      exact hinv k itm hL

theorem FormatPushEvent_empty (md : MarkdownUtils) (e : PushEvent) (hc : e.Commits = [])
    (hh : e.HeadCommit = none) : FormatPushEvent md e = .returned ([], none) := by
  simp [FormatPushEvent, pushCommits, hc, hh]

/-- C14 (as amended): for every push event with zero commits and no head
commit, `FormatPushEvent` returns the empty text, and `processEvent` makes
no call to the chat transport (nor to the store), leaves the message-context
table as it is and does not panic. -/
theorem C14_empty_push_suppressed (co : Collaborators)
    (ContextCache : cache.Cache GoString models.MessageContext) (now : cache.Time)
    (e : PushEvent) (chatID hookID : Int) (hc : e.Commits = [])
    (hh : e.HeadCommit = none) :
    FormatPushEvent co.md e = .returned ([], none) ∧
    (processEvent co ContextCache now (.push e) chatID hookID).effects = [] ∧
    (processEvent co ContextCache now (.push e) chatID hookID).ContextCache
      = ContextCache ∧
    (processEvent co ContextCache now (.push e) chatID hookID).panicked = false := by
  have hf := FormatPushEvent_empty co.md e hc hh
  have hfm : formatMessage co (.push e) = .returned ([], none) := by
    simp only [formatMessage, hf]
  exact ⟨hf, processEvent_empty co ContextCache now (.push e) chatID hookID none hfm⟩

/-- C14 on a push event without commits and without head commit. -/
theorem C14_empty_push_suppressed_witness :
    ({ demoPushEvent with HeadCommit := none } : PushEvent).Commits = [] ∧
    ({ demoPushEvent with HeadCommit := none } : PushEvent).HeadCommit = none ∧
    FormatPushEvent demoCollaborators.md { demoPushEvent with HeadCommit := none }
      = .returned ([], none) ∧
    (processEvent demoCollaborators cache.Cache.New 0
      (.push { demoPushEvent with HeadCommit := none }) 42 5).effects = [] :=
  ⟨rfl, rfl,
    (C14_empty_push_suppressed demoCollaborators cache.Cache.New 0
      { demoPushEvent with HeadCommit := none } 42 5 rfl rfl).1,
    (C14_empty_push_suppressed demoCollaborators cache.Cache.New 0
      { demoPushEvent with HeadCommit := none } 42 5 rfl rfl).2.1⟩

theorem hammer_ne_nil (rest : GoString) : utf8 "🔨 *" ++ rest ≠ [] := by
  have h : utf8 "🔨 *" = [240, 159, 148, 168, 32, 42] := by decide
  rw [h]
  simp

theorem ite_ne_nil (P : Prop) [Decidable P] (a b : GoString) (ha : a ≠ []) (hb : b ≠ []) :
    (if P then a else b) ≠ [] := by
  split <;> assumption

theorem FormatPushEvent_head_commit (md : MarkdownUtils) :
    ∃ msg label url, msg ≠ [] ∧
      FormatPushEvent md demoPushEvent
        = .returned (md.FormatMessageWithButton msg label url) := by
  refine ⟨_, _, _, ?_, rfl⟩
  apply ite_ne_nil
  · simp only [List.append_assoc]
    exact hammer_ne_nil _
  · simp only [List.append_assoc]
    exact hammer_ne_nil _

/-- C14 as stated fails for a push event with zero commits that carries a
head commit: whatever markdown_utils.go does, `FormatPushEvent` does not
return early but hands a non-empty text for one new commit to
`FormatMessageWithButton`; with a button helper that keeps the text,
`processEvent` sends it to the chat. -/
theorem C14_head_commit_is_sent :
    demoPushEvent.Commits = [] ∧
    (∀ md : MarkdownUtils, ∃ msg label url, msg ≠ [] ∧
      FormatPushEvent md demoPushEvent
        = .returned (md.FormatMessageWithButton msg label url)) ∧
    FormatPushEvent demoMarkdown demoPushEvent
      = .returned
          (utf8 "🔨 *1 new commit to* `repo:main`\n\n🌱 _New branch created_\n"
            ++ ascii "\\- [0123456](https://github.com/o/repo/commit/0123456789abcdef): "
            ++ ascii "init by octocat\n",
           some { buttons := [(ascii "View Commit",
             ascii "https://github.com/o/repo/commit/0123456789abcdef")] }) ∧
    (processEvent demoCollaborators cache.Cache.New 0 (.push demoPushEvent) 42 5).effects
      = [.sendMessage 42
          (utf8 "🔨 *1 new commit to* `repo:main`\n\n🌱 _New branch created_\n"
            ++ ascii "\\- [0123456](https://github.com/o/repo/commit/0123456789abcdef): "
            ++ ascii "init by octocat\n")
          (some { buttons := [(ascii "View Commit",
             ascii "https://github.com/o/repo/commit/0123456789abcdef")] })] :=
  ⟨rfl, FormatPushEvent_head_commit, by decide, by decide⟩

/-! ## The keys of the message-context table -/

theorem contextKey_eq (c m : Int) :
    contextKey c m = FormatInt c ++ (58 : Byte) :: FormatInt m := by
  unfold contextKey
  rw [show ascii ":" = [(58 : Byte)] from by decide, List.append_assoc]
  rfl

theorem contextKey_injective (c m c' m' : Int)
    (hc1 : -9223372036854775808 ≤ c) (hc2 : c < 9223372036854775808)
    (hm1 : -9223372036854775808 ≤ m) (hm2 : m < 9223372036854775808)
    (hc1' : -9223372036854775808 ≤ c') (hc2' : c' < 9223372036854775808)
    (hm1' : -9223372036854775808 ≤ m') (hm2' : m' < 9223372036854775808)
    (h : contextKey c m = contextKey c' m') : c = c' ∧ m = m' := by
  have hs := congrArg (fun k => callbacks.Split k 58) h
  simp only [contextKey_eq] at hs
  rw [callbacks.Split_append _ _ _ (callbacks.FormatInt_colon_free c),
    callbacks.Split_append _ _ _ (callbacks.FormatInt_colon_free c'),
    callbacks.Split_of_not_mem _ _ (callbacks.FormatInt_colon_free m),
    callbacks.Split_of_not_mem _ _ (callbacks.FormatInt_colon_free m')] at hs
  simp only [List.cons.injEq, and_true] at hs
  exact ⟨callbacks.FormatInt_injective c c' hc1 hc2 hc1' hc2' hs.1,
    callbacks.FormatInt_injective m m' hm1 hm2 hm1' hm2' hs.2⟩

open cache models in
theorem Load_store_other (ContextCache : Cache GoString MessageContext) (now : Time)
    (event : WebhookEvent) (c m : Int) (k : GoString) (hk : k ≠ contextKey c m) :
    (storeMessageContext ContextCache now m c event).items.Load k
      = ContextCache.items.Load k := by
  unfold storeMessageContext
  cases messageContextOf event with
  | none => rfl
  | some ctx => exact Cache.Load_Set_ne _ _ _ _ hk

/-- C16: over pairs of 64-bit signed integers the key
decimal(chatID) + ":" + decimal(messageID) is injective. So recording a
context under `(c, m)` leaves the entry of every other pair `(c', m')` as it
was, a lookup of another pair that had no entry still finds nothing, and
after one recording into the empty table a lookup with another message id
returns not found. -/
theorem C16_context_keys_injective (c m c' m' : Int)
    (hc1 : -9223372036854775808 ≤ c) (hc2 : c < 9223372036854775808)
    (hm1 : -9223372036854775808 ≤ m) (hm2 : m < 9223372036854775808)
    (hc1' : -9223372036854775808 ≤ c') (hc2' : c' < 9223372036854775808)
    (hm1' : -9223372036854775808 ≤ m') (hm2' : m' < 9223372036854775808) :
    (contextKey c m = contextKey c' m' → c = c' ∧ m = m') ∧
    ((c, m) ≠ (c', m') →
      ∀ (ContextCache : cache.Cache GoString models.MessageContext) (now : cache.Time)
        (event : WebhookEvent),
        (storeMessageContext ContextCache now m c event).items.Load (contextKey c' m')
          = ContextCache.items.Load (contextKey c' m') ∧
        (ContextCache.items.Load (contextKey c' m') = none → ∀ t',
          (lookupContext (storeMessageContext ContextCache now m c event) t' c' m').1
            = (default, false))) ∧
    (m' ≠ m → ∀ (now t' : cache.Time) (event : WebhookEvent),
      (lookupContext (storeMessageContext cache.Cache.New now m c event) t' c m').1
        = (default, false)) := by
  have hinj := contextKey_injective c m c' m' hc1 hc2 hm1 hm2 hc1' hc2' hm1' hm2'
  refine ⟨hinj, ?_, ?_⟩
  · intro hne ContextCache now event
    have hk : contextKey c' m' ≠ contextKey c m := by
      intro h
      obtain ⟨h1, h2⟩ := hinj h.symm
      exact hne (by rw [h1, h2])
    have hL := Load_store_other ContextCache now event c m _ hk
    refine ⟨hL, ?_⟩
    intro hnone t'
    simp only [lookupContext]
    rw [cache.Cache.Get_of_Load_none _ _ _ (by rw [hL]; exact hnone)]
  · intro hne now t' event
    have hk : contextKey c m' ≠ contextKey c m := by
      intro h
      exact hne (contextKey_injective c m' c m hc1 hc2 hm1' hm2' hc1 hc2 hm1 hm2 h).2
    simp only [lookupContext]
    rw [cache.Cache.Get_of_Load_none _ _ _
      (by rw [Load_store_other _ now event c m _ hk]; rfl)]

/-- C16 on a negative chat id: the keys of `(-12, 3)` and `(-1, 23)` differ,
and a context recorded under the first does not answer the second. -/
theorem C16_context_keys_injective_witness :
    (-9223372036854775808 : Int) ≤ -12 ∧ (-12 : Int) < 9223372036854775808 ∧
    (-9223372036854775808 : Int) ≤ 3 ∧ (3 : Int) < 9223372036854775808 ∧
    (-9223372036854775808 : Int) ≤ -1 ∧ (-1 : Int) < 9223372036854775808 ∧
    (-9223372036854775808 : Int) ≤ 23 ∧ (23 : Int) < 9223372036854775808 ∧
    contextKey (-12) 3 = ascii "-12:3" ∧ contextKey (-1) 23 = ascii "-1:23" ∧
    (contextKey (-12) 3 = contextKey (-1) 23 → (-12 : Int) = -1 ∧ (3 : Int) = 23) ∧
    (∀ t', (lookupContext (storeMessageContext cache.Cache.New 0 3 (-12) (.pullRequest { OwnerLogin := ascii "octo", RepoName := ascii "repo", Number := 12, CommentID := 0 })) t'
      (-1) 23).1 = (default, false)) :=
  ⟨by decide, by decide, by decide, by decide, by decide, by decide, by decide, by decide,
    by decide, by decide,
    (C16_context_keys_injective (-12) 3 (-1) 23 (by decide) (by decide) (by decide)
      (by decide) (by decide) (by decide) (by decide) (by decide)).1,
    ((C16_context_keys_injective (-12) 3 (-1) 23 (by decide) (by decide) (by decide)
      (by decide) (by decide) (by decide) (by decide) (by decide)).2.1 (by decide)
      cache.Cache.New 0 (.pullRequest { OwnerLogin := ascii "octo", RepoName := ascii "repo", Number := 12, CommentID := 0 })).2 rfl⟩

/-! ## Recording, further calls on the table, then the lookup -/

open cache models in
theorem Load_store_same (ContextCache : Cache GoString MessageContext) (now : Time)
    (event : WebhookEvent) (c m : Int) (ctx : MessageContext)
    (h : messageContextOf event = some ctx) :
    (storeMessageContext ContextCache now m c event).items.Load (contextKey c m)
      = some { value := ctx, expiration := now + contextTTL } := by
  simp only [storeMessageContext, h]
  exact Cache.Load_Set_self _ _ _ _ _

open cache models in
theorem Load_lookup_live (ContextCache : Cache GoString MessageContext) (k : GoString)
    (itm : item MessageContext) (h : ContextCache.items.Load k = some itm) (t : Time)
    (c' m' : Int) (ht : t ≤ itm.expiration) :
    (lookupContext ContextCache t c' m').2.items.Load k = some itm := by
  unfold lookupContext
  cases hL : ContextCache.items.Load (contextKey c' m') with
  | none => rw [Cache.Get_of_Load_none _ _ _ hL]; exact h
  | some itm' =>
    by_cases hexp : Time.After t itm'.expiration = true
    · by_cases hk : k = contextKey c' m'
      · subst hk
        rw [h] at hL
        have he := Option.some.inj hL
        rw [← he] at hexp
        simp only [Time.After, decide_eq_true_eq] at hexp
        exact absurd hexp (not_lt.2 ht)
      · simp only [Cache.Get, hL, hexp, if_true]
        rw [SyncMap.Load_Delete_ne _ hk]
        exact h
    · simp only [Cache.Get, hL, hexp]
      exact h

open cache models in
theorem Load_ContextOp_keep (ContextCache : Cache GoString MessageContext) (c m : Int)
    (hc1 : -9223372036854775808 ≤ c) (hc2 : c < 9223372036854775808)
    (hm1 : -9223372036854775808 ≤ m) (hm2 : m < 9223372036854775808)
    (itm : item MessageContext)
    (h : ContextCache.items.Load (contextKey c m) = some itm) (op : ContextOp)
    (hstore : ∀ t m' c' e, op = .store t m' c' e →
      (c', m') ≠ (c, m) ∧ -9223372036854775808 ≤ c' ∧ c' < 9223372036854775808 ∧
        -9223372036854775808 ≤ m' ∧ m' < 9223372036854775808)
    (hlookup : ∀ t c' m', op = .lookup t c' m' → t ≤ itm.expiration) :
    (ContextOp.run ContextCache op).items.Load (contextKey c m) = some itm := by
  cases op with
  | store t m' c' e =>
    obtain ⟨hne, h1, h2, h3, h4⟩ := hstore t m' c' e rfl
    have hk : contextKey c m ≠ contextKey c' m' := by
      intro heq
      obtain ⟨e1, e2⟩ := contextKey_injective c m c' m' hc1 hc2 hm1 hm2 h1 h2 h3 h4 heq
      exact hne (by rw [e1, e2])
    simp only [ContextOp.run]
    rw [Load_store_other ContextCache t e c' m' _ hk]
    exact h
  | lookup t c' m' =>
    exact Load_lookup_live ContextCache _ itm h t c' m' (hlookup t c' m' rfl)

open cache models in
theorem Load_runContextOps_keep (ops : List ContextOp)
    (ContextCache : Cache GoString MessageContext) (c m : Int)
    (hc1 : -9223372036854775808 ≤ c) (hc2 : c < 9223372036854775808)
    (hm1 : -9223372036854775808 ≤ m) (hm2 : m < 9223372036854775808)
    (itm : item MessageContext)
    (h : ContextCache.items.Load (contextKey c m) = some itm)
    (hstores : ∀ t m' c' e, ContextOp.store t m' c' e ∈ ops →
      (c', m') ≠ (c, m) ∧ -9223372036854775808 ≤ c' ∧ c' < 9223372036854775808 ∧
        -9223372036854775808 ≤ m' ∧ m' < 9223372036854775808)
    (hlookups : ∀ t c' m', ContextOp.lookup t c' m' ∈ ops → t ≤ itm.expiration) :
    (runContextOps ContextCache ops).items.Load (contextKey c m) = some itm := by
  induction ops generalizing ContextCache with
  | nil => exact h
  | cons op ops ih =>
    simp only [runContextOps, List.foldl_cons]
    apply ih
    · exact Load_ContextOp_keep ContextCache c m hc1 hc2 hm1 hm2 itm h op
        (fun t m' c' e he => hstores t m' c' e (he ▸ List.mem_cons_self _ _))
        (fun t c' m' he => hlookups t c' m' (he ▸ List.mem_cons_self _ _))
    · exact fun t m' c' e he => hstores t m' c' e (List.mem_cons_of_mem _ he)
    · exact fun t c' m' he => hlookups t c' m' (List.mem_cons_of_mem _ he)

open cache models in
theorem lookup_after_ops (ContextCache : Cache GoString MessageContext) (now t' : Time)
    (event : WebhookEvent) (c m : Int) (ctx : MessageContext) (ops : List ContextOp)
    (hc1 : -9223372036854775808 ≤ c) (hc2 : c < 9223372036854775808)
    (hm1 : -9223372036854775808 ≤ m) (hm2 : m < 9223372036854775808)
    (hstores : ∀ t m' c' e, ContextOp.store t m' c' e ∈ ops →
      (c', m') ≠ (c, m) ∧ -9223372036854775808 ≤ c' ∧ c' < 9223372036854775808 ∧
        -9223372036854775808 ≤ m' ∧ m' < 9223372036854775808)
    (hlookups : ∀ t c' m', ContextOp.lookup t c' m' ∈ ops → t ≤ now + contextTTL)
    (h : messageContextOf event = some ctx) (h2 : t' ≤ now + contextTTL) :
    (lookupContext (runContextOps (storeMessageContext ContextCache now m c event) ops)
      t' c m).1 = (ctx, true) := by
  have hL := Load_runContextOps_keep ops (storeMessageContext ContextCache now m c event)
    c m hc1 hc2 hm1 hm2 _ (Load_store_same ContextCache now event c m ctx h) hstores hlookups
  simp only [lookupContext]
  rw [Cache.Get_of_Load_live _ t' _ _ hL h2]

/-- C15: when `processEvent` has sent the notification of an event to chat
`c` and the transport has returned message id `m`, then after any further
calls on the table (recordings of other notifications, under pairs other than
`(c, m)`, and lookups of any pair made within the 48 hours) a lookup of
`(c, m)` at any time up to 48 hours after the recording returns the owner,
repository name, number and (for the two comment events) comment id of the
event, with entity type pr, issue, issue_comment, pr_review or
pr_review_comment for a pull-request, issue, issue-comment, review or
review-comment event. For an event of any other kind the table is left as it
is. If every entry of the table had one of the five entity types before, so
has every entry afterwards. All identifiers are `int64`. -/
theorem C15_record_then_resolve (co : Collaborators)
    (ContextCache : cache.Cache GoString models.MessageContext) (now t' : cache.Time)
    (event : WebhookEvent) (c hookID m : Int) (msg : GoString)
    (markup : Option InlineKeyboardMarkup) (ops : List ContextOp)
    (hfmt : formatMessage co event = .returned (msg, markup)) (hmsg : msg ≠ [])
    (hsend : co.SendMessage c (co.normalizeMessage msg) markup = .ok m)
    (hc1 : -9223372036854775808 ≤ c) (hc2 : c < 9223372036854775808)
    (hm1 : -9223372036854775808 ≤ m) (hm2 : m < 9223372036854775808)
    (hstores : ∀ t m' c' e, ContextOp.store t m' c' e ∈ ops →
      (c', m') ≠ (c, m) ∧ -9223372036854775808 ≤ c' ∧ c' < 9223372036854775808 ∧
        -9223372036854775808 ≤ m' ∧ m' < 9223372036854775808)
    (hlookups : ∀ t c' m', ContextOp.lookup t c' m' ∈ ops → t ≤ now + 48 * 3600000000000)
    (_h1 : now ≤ t') (h2 : t' ≤ now + 48 * 3600000000000) :
    (∀ e, event = .pullRequest e →
      (lookupContext (runContextOps
          (processEvent co ContextCache now event c hookID).ContextCache ops) t' c m).1
        = ({ Owner := e.OwnerLogin, Repo := e.RepoName, IssueNumber := e.Number,
             CommentID := 0, EntityType := ascii "pr" }, true)) ∧
    (∀ e, event = .issues e →
      (lookupContext (runContextOps
          (processEvent co ContextCache now event c hookID).ContextCache ops) t' c m).1
        = ({ Owner := e.OwnerLogin, Repo := e.RepoName, IssueNumber := e.Number,
             CommentID := 0, EntityType := ascii "issue" }, true)) ∧
    (∀ e, event = .issueComment e →
      (lookupContext (runContextOps
          (processEvent co ContextCache now event c hookID).ContextCache ops) t' c m).1
        = ({ Owner := e.OwnerLogin, Repo := e.RepoName, IssueNumber := e.Number,
             CommentID := e.CommentID, EntityType := ascii "issue_comment" }, true)) ∧
    (∀ e, event = .pullRequestReview e →
      (lookupContext (runContextOps
          (processEvent co ContextCache now event c hookID).ContextCache ops) t' c m).1
        = ({ Owner := e.OwnerLogin, Repo := e.RepoName, IssueNumber := e.Number,
             CommentID := 0, EntityType := ascii "pr_review" }, true)) ∧
    (∀ e, event = .pullRequestReviewComment e →
      (lookupContext (runContextOps
          (processEvent co ContextCache now event c hookID).ContextCache ops) t' c m).1
        = ({ Owner := e.OwnerLogin, Repo := e.RepoName, IssueNumber := e.Number,
             CommentID := e.CommentID, EntityType := ascii "pr_review_comment" }, true)) ∧
    ((∀ e, event ≠ .pullRequest e ∧ event ≠ .issues e ∧ event ≠ .issueComment e ∧
          event ≠ .pullRequestReview e ∧ event ≠ .pullRequestReviewComment e) →
      (processEvent co ContextCache now event c hookID).ContextCache = ContextCache) ∧
    ((∀ k itm, ContextCache.items.Load k = some itm →
        itm.value.EntityType ∈ entityTypes) →
      ∀ k itm, (processEvent co ContextCache now event c hookID).ContextCache.items.Load k
          = some itm → itm.value.EntityType ∈ entityTypes) := by
  have hs := processEvent_sent co ContextCache now event c hookID m msg markup hfmt hmsg hsend
  rw [hs]
  refine ⟨?_, ?_, ?_, ?_, ?_, ?_, ?_⟩
  · intro e he; subst he
    exact lookup_after_ops ContextCache now t' _ c m _ ops hc1 hc2 hm1 hm2 hstores hlookups
      rfl h2
  · intro e he; subst he
    exact lookup_after_ops ContextCache now t' _ c m _ ops hc1 hc2 hm1 hm2 hstores hlookups
      rfl h2
  · intro e he; subst he
    exact lookup_after_ops ContextCache now t' _ c m _ ops hc1 hc2 hm1 hm2 hstores hlookups
      rfl h2
  · intro e he; subst he
    exact lookup_after_ops ContextCache now t' _ c m _ ops hc1 hc2 hm1 hm2 hstores hlookups
      rfl h2
  · intro e he; subst he
    exact lookup_after_ops ContextCache now t' _ c m _ ops hc1 hc2 hm1 hm2 hstores hlookups
      rfl h2
  · intro hother
    cases event with
    | pullRequest e => exact absurd rfl (hother e).1
    | issues e => exact absurd rfl (hother e).2.1
    | issueComment e => exact absurd rfl (hother e).2.2.1
    | pullRequestReview e => exact absurd rfl (hother e).2.2.2.1
    | pullRequestReviewComment e => exact absurd rfl (hother e).2.2.2.2
    | push e => rfl
    | repository e => rfl
    | commitComment e => rfl
    | status e => rfl
    | other n => rfl
  · intro hinv
    exact store_types ContextCache now event c m hinv

theorem demoContextOps_stores :
    ∀ t m' c' e, ContextOp.store t m' c' e ∈ demoContextOps →
      (c', m') ≠ ((-1001234567890 : Int), (77 : Int)) ∧
        -9223372036854775808 ≤ c' ∧ c' < 9223372036854775808 ∧
        -9223372036854775808 ≤ m' ∧ m' < 9223372036854775808 := by
  intro t m' c' e h
  simp only [demoContextOps, List.mem_cons, List.mem_singleton, List.not_mem_nil,
    or_false] at h
  rcases h with h | h | h
  · cases h
    decide
  · cases h
  · cases h

theorem demoContextOps_lookups :
    ∀ t c' m', ContextOp.lookup t c' m' ∈ demoContextOps →
      t ≤ (0 : Int) + 48 * 3600000000000 := by
  intro t c' m' h
  simp only [demoContextOps, List.mem_cons, List.mem_singleton, List.not_mem_nil,
    or_false] at h
  rcases h with h | h | h
  · cases h
  · cases h
    decide
  · cases h
    decide

/-- C15 on a pull-request event sent to a supergroup chat, looked up three
hours later, after an issue event was recorded for the same chat and two
other lookups were made. -/
theorem C15_record_then_resolve_witness :
    formatMessage demoCollaborators (.pullRequest { OwnerLogin := ascii "octo", RepoName := ascii "repo", Number := 12, CommentID := 0 }) = .returned (ascii "event", none) ∧
    ascii "event" ≠ [] ∧
    demoCollaborators.SendMessage (-1001234567890)
      (demoCollaborators.normalizeMessage (ascii "event")) none = .ok 77 ∧
    (-9223372036854775808 : Int) ≤ -1001234567890 ∧ (-1001234567890 : Int) < 9223372036854775808 ∧
    (-9223372036854775808 : Int) ≤ 77 ∧ (77 : Int) < 9223372036854775808 ∧
    (∀ t m' c' e, ContextOp.store t m' c' e ∈ demoContextOps →
      (c', m') ≠ ((-1001234567890 : Int), (77 : Int)) ∧
        -9223372036854775808 ≤ c' ∧ c' < 9223372036854775808 ∧
        -9223372036854775808 ≤ m' ∧ m' < 9223372036854775808) ∧
    (∀ t c' m', ContextOp.lookup t c' m' ∈ demoContextOps →
      t ≤ (0 : Int) + 48 * 3600000000000) ∧
    (0 : Int) ≤ 10800000000000 ∧ (10800000000000 : Int) ≤ 0 + 48 * 3600000000000 ∧
    (lookupContext (runContextOps (processEvent demoCollaborators cache.Cache.New 0 (.pullRequest { OwnerLogin := ascii "octo", RepoName := ascii "repo", Number := 12, CommentID := 0 })
        (-1001234567890) 5).ContextCache demoContextOps) 10800000000000
        (-1001234567890) 77).1
      = ({ Owner := ascii "octo", Repo := ascii "repo", IssueNumber := 12,
           CommentID := 0, EntityType := ascii "pr" }, true) :=
  ⟨rfl, by decide, rfl, by decide, by decide, by decide, by decide,
    demoContextOps_stores, demoContextOps_lookups, by decide, by decide,
    (C15_record_then_resolve demoCollaborators cache.Cache.New 0 10800000000000 (.pullRequest { OwnerLogin := ascii "octo", RepoName := ascii "repo", Number := 12, CommentID := 0 })
      (-1001234567890) 5 77 (ascii "event") none demoContextOps rfl (by decide) rfl
      (by decide) (by decide) (by decide) (by decide) demoContextOps_stores
      demoContextOps_lookups (by decide) (by decide)).1 _ rfl⟩

end github

namespace callbacks

open utils models strconv github

/-! ## The settings callbacks -/

theorem colon_eq : ascii ":" = [(58 : Byte)] := by decide

theorem toggleCallbackData_eq (r : GoString) (e : Event) (n : Int) :
    toggleCallbackData r e n
      = ascii "c" ++ 58 :: (ascii "te" ++ 58 :: (r ++ 58 :: (e.Short ++ 58 :: FormatInt n))) := by
  unfold toggleCallbackData
  rw [show ascii "c:te:" = ascii "c" ++ 58 :: (ascii "te" ++ [(58 : Byte)]) from by decide,
    colon_eq]
  simp only [List.append_assoc, List.cons_append, List.nil_append, List.singleton_append]

theorem Split_toggleCallbackData (r : GoString) (e : Event) (n : Int) (hr : (58 : Byte) ∉ r)
    (he : (58 : Byte) ∉ e.Short) :
    Split (toggleCallbackData r e n) 58 = [ascii "c", ascii "te", r, e.Short, FormatInt n] := by
  rw [toggleCallbackData_eq, Split_append _ _ _ (by decide), Split_append _ _ _ (by decide),
    Split_append _ _ _ hr, Split_append _ _ _ he, Split_of_not_mem _ _ (FormatInt_colon_free n)]

theorem HandleSettings_te5 (env : SettingsEnv) (data r s p : GoString)
    (hallowed : env.allowed = true)
    (h : Split data 58 = [ascii "c", ascii "te", r, s, p]) :
    HandleSettings env data =
      match env.GetRepoLink r with
      | .error _ => .returned (.answer "Repo not found" false)
      | .ok link =>
        .returned (.toggleEvent link
          (match shortToEvent.lookup s with
            | some evt => evt
            | none => s) (Atoi p).1) := by
  simp +decide [HandleSettings, linkBlock, hallowed, h]

theorem SupportedEvents_shorts :
    ∀ e ∈ SupportedEvents, (58 : Byte) ∉ e.Short ∧ shortToEvent.lookup e.Short = some e.Name ∧
      eventToShort.lookup e.Name = some e.Short := by
  decide

/-- C17: for a caller that passes the admin check, every supported event
`e`, every colon-free repository name `r` and every page `n` of type `int`,
the callback data "c:te:" + r + ":" + e.Short + ":" + n splits into the five
segments c, te, r, e.Short, n, and `HandleSettings` looks the repository `r`
up and, when it is linked, goes on with the canonical event name `e.Name` and
the page `n`. The short codes of `SupportedEvents` are pairwise distinct and
colon-free, and `shortToEvent` inverts `eventToShort`. -/
theorem C17_toggle_round_trip (env : SettingsEnv) (r : GoString) (e : Event) (n : Int)
    (hallowed : env.allowed = true) (hr : (58 : Byte) ∉ r) (he : e ∈ SupportedEvents)
    (hn1 : -9223372036854775808 ≤ n) (hn2 : n < 9223372036854775808) :
    Split (toggleCallbackData r e n) 58 = [ascii "c", ascii "te", r, e.Short, FormatInt n] ∧
    HandleSettings env (toggleCallbackData r e n) =
      (match env.GetRepoLink r with
        | .error _ => .returned (.answer "Repo not found" false)
        | .ok link => .returned (.toggleEvent link e.Name n)) ∧
    (SupportedEvents.map Event.Short).Nodup ∧
    (∀ e' ∈ SupportedEvents, (58 : Byte) ∉ e'.Short) ∧
    (∀ e' ∈ SupportedEvents, ∀ s, eventToShort.lookup e'.Name = some s →
      shortToEvent.lookup s = some e'.Name) := by
  have hE := SupportedEvents_shorts e he
  have hsplit := Split_toggleCallbackData r e n hr hE.1
  refine ⟨hsplit, ?_, by decide, fun e' he' => (SupportedEvents_shorts e' he').1, ?_⟩
  · rw [HandleSettings_te5 env _ r e.Short (FormatInt n) hallowed hsplit, hE.2.1]
    simp only [Atoi, ParseInt_FormatInt n hn1 hn2]
  · intro e' he' s hs
    have h := SupportedEvents_shorts e' he'
    rw [h.2.2] at hs
    cases hs
    exact h.2.1

/-- C17 on the data "c:te:owner/repo:p:3": event push, page 3. -/
theorem C17_toggle_round_trip_witness :
    demoSettingsEnv.allowed = true ∧ (58 : Byte) ∉ ascii "owner/repo" ∧
    ({ Name := ascii "push", Label := ascii "Code", Short := ascii "p" } : Event)
      ∈ SupportedEvents ∧
    (-9223372036854775808 : Int) ≤ 3 ∧ (3 : Int) < 9223372036854775808 ∧
    toggleCallbackData (ascii "owner/repo")
      { Name := ascii "push", Label := ascii "Code", Short := ascii "p" } 3
      = ascii "c:te:owner/repo:p:3" ∧
    HandleSettings demoSettingsEnv (ascii "c:te:owner/repo:p:3") =
      .returned (.toggleEvent { RepoFullName := ascii "owner/repo", WebhookID := 5 }
        (ascii "push") 3) :=
  ⟨rfl, by decide, by decide, by decide, by decide, by decide,
    (C17_toggle_round_trip demoSettingsEnv (ascii "owner/repo")
      { Name := ascii "push", Label := ascii "Code", Short := ascii "p" } 3 rfl (by decide)
      (by decide) (by decide) (by decide)).2.1⟩

/-! ## Callback data that is not well formed -/

theorem Split_cons_sep (rest : GoString) (sep : Byte) :
    Split (sep :: rest) sep = [] :: Split rest sep := by
  rw [Split, if_pos rfl]

theorem Split_cons_ne (c : Byte) (rest : GoString) (sep : Byte) (hc : c ≠ sep) :
    ∃ hd tl, Split rest sep = hd :: tl ∧ Split (c :: rest) sep = (c :: hd) :: tl := by
  rcases hs : Split rest sep with _ | ⟨hd, tl⟩
  · exact absurd hs (Split_ne_nil rest sep)
  · refine ⟨hd, tl, rfl, ?_⟩
    rw [Split, if_neg hc, hs]

theorem Split_injective (sep : Byte) (s t : GoString) (h : Split s sep = Split t sep) :
    s = t := by
  induction s generalizing t with
  | nil =>
    cases t with
    | nil => rfl
    | cons d rest' =>
      by_cases hd : d = sep
      · subst hd
        rw [Split_cons_sep] at h
        have h1 : Split [] d = [[]] := rfl
        rw [h1] at h
        simp only [List.cons.injEq, true_and] at h
        exact absurd h.symm (Split_ne_nil rest' d)
      · obtain ⟨hd', tl', _, h2⟩ := Split_cons_ne d rest' sep hd
        have h1 : Split [] sep = [[]] := rfl
        rw [h1, h2] at h
        simp at h
  | cons c rest ih =>
    cases t with
    | nil =>
      by_cases hc : c = sep
      · subst hc
        rw [Split_cons_sep] at h
        have h1 : Split [] c = [[]] := rfl
        rw [h1] at h
        simp only [List.cons.injEq, true_and] at h
        exact absurd h (Split_ne_nil rest c)
      · obtain ⟨hd', tl', _, h2⟩ := Split_cons_ne c rest sep hc
        have h1 : Split [] sep = [[]] := rfl
        rw [h1, h2] at h
        simp at h
    | cons d rest' =>
      by_cases hc : c = sep
      · by_cases hd : d = sep
        · rw [hc, hd, Split_cons_sep, Split_cons_sep] at h
          simp only [List.cons.injEq, true_and] at h
          rw [hc, hd, ih rest' h]
        · obtain ⟨hd', tl', _, h2⟩ := Split_cons_ne d rest' sep hd
          rw [hc, Split_cons_sep, h2] at h
          simp at h
      · obtain ⟨hd1, tl1, e1, h1⟩ := Split_cons_ne c rest sep hc
        by_cases hd : d = sep
        · rw [hd, Split_cons_sep, h1] at h
          simp at h
        · obtain ⟨hd2, tl2, e2, h2⟩ := Split_cons_ne d rest' sep hd
          rw [h1, h2] at h
          simp only [List.cons.injEq] at h
          obtain ⟨⟨hcd, hhd⟩, htl⟩ := h
          have : Split rest sep = Split rest' sep := by rw [e1, e2, hhd, htl]
          rw [hcd, ih rest' this]

theorem HandleSettings_denied (env : SettingsEnv) (data : GoString)
    (hallowed : env.allowed = false) :
    HandleSettings env data = .returned (.answer "Only admins can change settings" true) := by
  simp [HandleSettings, hallowed]

theorem HandleSettings_short (env : SettingsEnv) (data : GoString)
    (h : (Split data 58).length < 2) (hallowed : env.allowed = true) :
    HandleSettings env data = .returned .ret := by
  simp [HandleSettings, hallowed, h]

theorem HandleSettings_namespace (env : SettingsEnv) (data pre : GoString)
    (rest : List GoString) (hallowed : env.allowed = true)
    (h : Split data 58 = pre :: rest) (hpre : pre ≠ ascii "c") :
    HandleSettings env data = .returned .ret := by
  cases rest with
  | nil => simp [HandleSettings, hallowed, h]
  | cons action rest => simp [HandleSettings, hallowed, h, hpre]

theorem HandleSettings_two (env : SettingsEnv) (data action : GoString)
    (hallowed : env.allowed = true)
    (h : Split data 58 = [ascii "c", action]) (hls : action ≠ ascii "ls") :
    HandleSettings env data = .returned .ret := by
  by_cases har : action = ascii "ar"
  · simp +decide [HandleSettings, hallowed, h, har, arBlock]
  · simp +decide [HandleSettings, hallowed, h, hls, har, linkBlock]

theorem HandleSettings_unmatched (env : SettingsEnv) (data action x : GoString)
    (rest : List GoString) (hallowed : env.allowed = true)
    (h : Split data 58 = ascii "c" :: action :: x :: rest)
    (hls : action ≠ ascii "ls") (hr : action ≠ ascii "r")
    (har : ¬ (action = ascii "ar" ∧ (x = ascii "pg" ∨ x = ascii "id")))
    (hte : ¬ (action = ascii "te" ∧ rest ≠ []))
    (hep : ¬ (action = ascii "ep" ∧ rest.length = 1))
    (hpresets : ¬ (action = ascii "presets" ∧ rest ≠ []))
    (hiev : ¬ (action = ascii "iev" ∧ rest.length = 1)) :
    HandleSettings env data =
      match env.GetRepoLink x with
      | .error _ => .returned (.answer "Repo not found" false)
      | .ok _ => .returned .ret := by
  have hA : (if action = ascii "ar" then arBlock (ascii "c" :: action :: x :: rest) else none)
      = none := by
    by_cases h1 : action = ascii "ar"
    · have hx := not_or.1 (fun hx => har ⟨h1, hx⟩)
      simp [h1, arBlock, hx.1, hx.2]
    · simp [h1]
  have hte' : ¬ (action = ascii "te" ∧ (ascii "c" :: action :: x :: rest).length ≥ 4) := by
    intro hh
    exact hte ⟨hh.1, by rintro rfl; simp at hh⟩
  have hep' : ¬ (action = ascii "ep" ∧ (ascii "c" :: action :: x :: rest).length = 4) := by
    intro hh
    exact hep ⟨hh.1, by simpa using hh.2⟩
  have hiev' : ¬ (action = ascii "iev" ∧ (ascii "c" :: action :: x :: rest).length = 4) := by
    intro hh
    exact hiev ⟨hh.1, by simpa using hh.2⟩
  have hL : linkBlock env (ascii "c" :: action :: x :: rest) action =
      match env.GetRepoLink x with
      | .error _ => .returned (.answer "Repo not found" false)
      | .ok _ => .returned .ret := by
    unfold linkBlock
    rw [if_neg (by simp)]
    simp only [List.getElem?_cons_succ, List.getElem?_cons_zero]
    cases env.GetRepoLink x with
    | error _ => rfl
    | ok link =>
      simp only
      rw [if_neg hr, if_neg hte', if_neg hep']
      by_cases hp : action = ascii "presets"
      · have hrest : rest = [] := by
          by_contra hne
          exact hpresets ⟨hp, hne⟩
        simp [hp, hrest]
      · rw [if_neg (fun hh => hp hh.1), if_neg hiev']
  unfold HandleSettings
  simp only [hallowed, h]
  rw [if_neg (by simp), if_neg (by simp)]
  simp only [List.getElem?_cons_succ, List.getElem?_cons_zero]
  rw [if_pos trivial, if_neg hls, hA, hL]

theorem HandleSettings_ls (env : SettingsEnv) (data : GoString) (rest : List GoString)
    (hallowed : env.allowed = true) (h : Split data 58 = ascii "c" :: ascii "ls" :: rest) :
    HandleSettings env data = .returned .showRepoList := by
  simp +decide [HandleSettings, hallowed, h]

theorem HandleSettings_ar_pg (env : SettingsEnv) (data : GoString) (rest : List GoString)
    (hallowed : env.allowed = true)
    (h : Split data 58 = ascii "c" :: ascii "ar" :: ascii "pg" :: rest) :
    HandleSettings env data =
      match rest with
      | [] => .panicked
      | p :: _ => .returned (.handleRepoPage (Atoi p).1) := by
  cases rest with
  | nil => simp +decide [HandleSettings, arBlock, hallowed, h]
  | cons p rest =>
    simp +decide [HandleSettings, arBlock, hallowed, h]
    rw [if_neg (by omega), if_neg (by omega)]

theorem HandleSettings_ar_id (env : SettingsEnv) (data : GoString) (rest : List GoString)
    (hallowed : env.allowed = true)
    (h : Split data 58 = ascii "c" :: ascii "ar" :: ascii "id" :: rest) :
    HandleSettings env data =
      match rest with
      | [] => .panicked
      | p :: _ => .returned (.handleAddRepoByID (ParseInt p).1) := by
  cases rest with
  | nil => simp +decide [HandleSettings, arBlock, hallowed, h]
  | cons p rest =>
    simp +decide [HandleSettings, arBlock, hallowed, h]
    rw [if_neg (by omega), if_neg (by omega)]

theorem HandleSettings_link (env : SettingsEnv) (data action x : GoString)
    (rest : List GoString) (hallowed : env.allowed = true)
    (h : Split data 58 = ascii "c" :: action :: x :: rest)
    (hls : action ≠ ascii "ls")
    (har : ¬ (action = ascii "ar" ∧ (x = ascii "pg" ∨ x = ascii "id"))) :
    HandleSettings env data = linkBlock env (ascii "c" :: action :: x :: rest) action := by
  have hA : (if action = ascii "ar" then arBlock (ascii "c" :: action :: x :: rest) else none)
      = none := by
    by_cases h1 : action = ascii "ar"
    · have hx := not_or.1 (fun hx => har ⟨h1, hx⟩)
      simp [h1, arBlock, hx.1, hx.2]
    · simp [h1]
  unfold HandleSettings
  simp only [hallowed, h]
  rw [if_neg (by simp), if_neg (by simp)]
  simp only [List.getElem?_cons_succ, List.getElem?_cons_zero]
  rw [if_pos trivial, if_neg hls, hA]

theorem linkBlock_no_panic (env : SettingsEnv) (a action x : GoString)
    (rest : List GoString) : linkBlock env (a :: action :: x :: rest) action ≠ .panicked := by
  unfold linkBlock
  rw [if_neg (by simp)]
  simp only [List.getElem?_cons_succ, List.getElem?_cons_zero]
  cases env.GetRepoLink x with
  | error _ => simp
  | ok link =>
    simp only
    rcases rest with _ | ⟨y, _ | ⟨z, rest⟩⟩ <;> simp <;> split_ifs <;> simp

theorem HandleSettings_panicked_iff (env : SettingsEnv) (data : GoString) :
    HandleSettings env data = .panicked ↔
      env.allowed = true ∧ (data = ascii "c:ar:pg" ∨ data = ascii "c:ar:id") := by
  cases hallowed : env.allowed with
  | false => simp [HandleSettings_denied env data hallowed]
  | true =>
    simp only [true_and]
    have hpg : Split (ascii "c:ar:pg") 58 = [ascii "c", ascii "ar", ascii "pg"] := by decide
    have hid : Split (ascii "c:ar:id") 58 = [ascii "c", ascii "ar", ascii "id"] := by decide
    constructor
    · intro hp
      rcases hs : Split data 58 with _ | ⟨a, _ | ⟨action, _ | ⟨x, rest⟩⟩⟩
      · exact absurd hs (Split_ne_nil _ _)
      · rw [HandleSettings_short env data (by simp [hs]) hallowed] at hp
        cases hp
      · by_cases ha : a = ascii "c"
        · by_cases hls : action = ascii "ls"
          · rw [HandleSettings_ls env data [] hallowed (by rw [hs, ha, hls])] at hp
            cases hp
          · rw [HandleSettings_two env data action hallowed (by rw [hs, ha]) hls] at hp
            cases hp
        · rw [HandleSettings_namespace env data a _ hallowed hs ha] at hp
          cases hp
      · by_cases ha : a = ascii "c"
        · subst ha
          by_cases hls : action = ascii "ls"
          · rw [HandleSettings_ls env data _ hallowed (by rw [hs, hls])] at hp
            cases hp
          · by_cases har : action = ascii "ar" ∧ (x = ascii "pg" ∨ x = ascii "id")
            · obtain ⟨h1, h2 | h2⟩ := har
              · subst h1
                subst h2
                rw [HandleSettings_ar_pg env data rest hallowed hs] at hp
                cases rest with
                | nil => exact Or.inl (Split_injective 58 _ _ (by rw [hs, hpg]))
                | cons p rest => cases hp
              · subst h1
                subst h2
                rw [HandleSettings_ar_id env data rest hallowed hs] at hp
                cases rest with
                | nil => exact Or.inr (Split_injective 58 _ _ (by rw [hs, hid]))
                | cons p rest => cases hp
            · rw [HandleSettings_link env data action x rest hallowed hs hls har] at hp
              exact absurd hp (linkBlock_no_panic env _ action x rest)
        · rw [HandleSettings_namespace env data a _ hallowed hs ha] at hp
          cases hp
    · rintro (h | h)
      · rw [HandleSettings_ar_pg env data [] hallowed (by rw [h, hpg])]
      · rw [HandleSettings_ar_id env data [] hallowed (by rw [h, hid])]

open cache in
theorem HandlePRAction_no_panic (ActionCache : Cache GoString PRActionContext) (now : Time)
    (data : GoString) : HandlePRAction ActionCache now data ≠ .panicked := by
  unfold HandlePRAction
  rcases hs : Split data 58 with _ | ⟨a, _ | ⟨action, _ | ⟨x, _ | ⟨y, rest⟩⟩⟩⟩ <;> simp
  rcases ActionCache.Get now x with ⟨⟨v, _ | _⟩, c⟩ <;> simp

end callbacks

namespace strconv

open utils

/-! ## The value of a failed parse -/

theorem parseUintLoop_error (s : List Byte) : ∀ n,
    (parseUintLoop n s).2 = none ∨ (parseUintLoop n s).2 = some .strconvSyntax ∨
      (parseUintLoop n s).2 = some .strconvRange := by
  induction s with
  | nil => intro n; exact Or.inl rfl
  | cons c rest ih =>
    intro n
    unfold parseUintLoop
    split_ifs
    · exact Or.inr (Or.inr rfl)
    · exact Or.inr (Or.inr rfl)
    · exact ih _
    · exact Or.inr (Or.inl rfl)

theorem ParseUint_error (s : GoString) :
    (ParseUint s).2 = none ∨ (ParseUint s).2 = some .strconvSyntax ∨
      (ParseUint s).2 = some .strconvRange := by
  unfold ParseUint
  split_ifs
  · exact Or.inr (Or.inl rfl)
  · exact parseUintLoop_error s 0

theorem ParseInt_error (s : GoString) :
    (ParseInt s).2 = none ∨ (ParseInt s).2 = some .strconvSyntax ∨
      (ParseInt s).2 = some .strconvRange := by
  unfold ParseInt
  split
  · exact Or.inr (Or.inl rfl)
  · rename_i c rest
    split
    rename_i un err heq
    have hU := ParseUint_error (if c = 43 ∨ c = 45 then rest else c :: rest)
    rw [heq] at hU
    simp only at hU
    split_ifs with h1 h2 h3 h4
    · rcases hU with hU | hU | hU
      · exact absurd hU h1.1
      · exact Or.inr (Or.inl hU)
      · exact absurd hU h1.2
    · exact Or.inr (Or.inr rfl)
    · exact Or.inr (Or.inr rfl)
    · exact Or.inl rfl
    · exact Or.inl rfl

theorem ParseInt_range_value (s : GoString) (h : (ParseInt s).2 = some .strconvRange) :
    (ParseInt s).1 = 9223372036854775807 ∨ (ParseInt s).1 = -9223372036854775808 := by
  unfold ParseInt at h ⊢
  split at h
  · cases h
  · rename_i c rest
    split at h
    rename_i un err heq
    split_ifs at h ⊢ with h1 h2 h3 h4
    all_goals first
      | exact absurd h h1.2
      | exact Or.inl rfl
      | exact Or.inr rfl

end strconv

namespace callbacks

open utils models strconv github

/-- C18, as the code has it: a caller that fails the admin check is answered
"Only admins can change settings" whatever the data. For a caller that passes
it, data with fewer than two segments, with a namespace other than "c", or
with two segments and an action other than "ls" is a no-op. Data with the
namespace "c", three or more segments and an unknown action, or three segments
and one of the actions te, ep, presets, iev (which need a fourth), has its
third segment looked up as a repository of the chat first: when it is linked
the call is a no-op, when it is not the user is answered "Repo not found". -/
theorem C18_malformed_callbacks (env : SettingsEnv) (data : GoString) :
    (env.allowed = false →
      HandleSettings env data = .returned (.answer "Only admins can change settings" true)) ∧
    (env.allowed = true →
      ((Split data 58).length < 2 → HandleSettings env data = .returned .ret) ∧
      (∀ pre rest, Split data 58 = pre :: rest → pre ≠ ascii "c" →
        HandleSettings env data = .returned .ret) ∧
      (∀ action, Split data 58 = [ascii "c", action] → action ≠ ascii "ls" →
        HandleSettings env data = .returned .ret) ∧
      (∀ action x rest, Split data 58 = ascii "c" :: action :: x :: rest →
        action ∉ [ascii "ls", ascii "ar", ascii "r", ascii "te", ascii "ep",
          ascii "presets", ascii "iev"] →
        HandleSettings env data =
          match env.GetRepoLink x with
          | .error _ => .returned (.answer "Repo not found" false)
          | .ok _ => .returned .ret) ∧
      (∀ action x, Split data 58 = [ascii "c", action, x] →
        action ∈ [ascii "te", ascii "ep", ascii "presets", ascii "iev"] →
        HandleSettings env data =
          match env.GetRepoLink x with
          | .error _ => .returned (.answer "Repo not found" false)
          | .ok _ => .returned .ret)) := by
  refine ⟨HandleSettings_denied env data, fun hallowed =>
    ⟨fun h => HandleSettings_short env data h hallowed,
      fun pre rest h hpre => HandleSettings_namespace env data pre rest hallowed h hpre,
      fun action h hls => HandleSettings_two env data action hallowed h hls, ?_, ?_⟩⟩
  · intro action x rest h hmem
    simp only [List.mem_cons, List.mem_singleton, List.not_mem_nil, or_false, not_or] at hmem
    obtain ⟨h1, h2, h3, h4, h5, h6, h7⟩ := hmem
    exact HandleSettings_unmatched env data action x rest hallowed h h1 h3
      (fun hh => h2 hh.1) (fun hh => h4 hh.1) (fun hh => h5 hh.1) (fun hh => h6 hh.1)
      (fun hh => h7 hh.1)
  · intro action x h hmem
    simp only [List.mem_cons, List.mem_singleton, List.not_mem_nil, or_false] at hmem
    refine HandleSettings_unmatched env data action x [] hallowed h ?_ ?_ ?_
      (fun hh => hh.2 rfl) (fun hh => by simp at hh) (fun hh => hh.2 rfl)
      (fun hh => by simp at hh)
    · rcases hmem with rfl | rfl | rfl | rfl <;> decide
    · rcases hmem with rfl | rfl | rfl | rfl <;> decide
    · rcases hmem with rfl | rfl | rfl | rfl <;> exact fun hh => absurd hh.1 (by decide)

/-- C18 on "c:bogus", on "conf:ls" and on "c:bogus:owner/repo" with the
repository linked: no-ops. -/
theorem C18_malformed_callbacks_witness :
    demoSettingsEnv.allowed = true ∧
    Split (ascii "c:bogus") 58 = [ascii "c", ascii "bogus"] ∧
    HandleSettings demoSettingsEnv (ascii "c:bogus") = .returned .ret ∧
    HandleSettings demoSettingsEnv (ascii "c") = .returned .ret ∧
    HandleSettings demoSettingsEnv (ascii "conf:ls") = .returned .ret ∧
    HandleSettings demoSettingsEnv (ascii "c:bogus:owner/repo") = .returned .ret :=
  ⟨rfl, by decide,
    ((C18_malformed_callbacks demoSettingsEnv (ascii "c:bogus")).2 rfl).2.2.1
      (ascii "bogus") (by decide) (by decide),
    ((C18_malformed_callbacks demoSettingsEnv (ascii "c")).2 rfl).1 (by decide),
    ((C18_malformed_callbacks demoSettingsEnv (ascii "conf:ls")).2 rfl).2.1
      (ascii "conf") [ascii "ls"] (by decide) (by decide),
    ((C18_malformed_callbacks demoSettingsEnv (ascii "c:bogus:owner/repo")).2 rfl).2.2.2.1
      (ascii "bogus") (ascii "owner/repo") [] (by decide) (by decide)⟩

/-- C18 as stated fails: "c:bogus:x", an unknown action, is answered
"Repo not found" to a caller that passes the admin check, and "c:bogus" is
answered "Only admins can change settings" to one that does not. -/
theorem C18_unknown_action_answered :
    HandleSettings demoSettingsEnv (ascii "c:bogus:x")
      = .returned (.answer "Repo not found" false) ∧
    HandleSettings demoSettingsEnv (ascii "c:bogus:x") ≠ .returned .ret ∧
    HandleSettings { allowed := false, GetRepoLink := demoSettingsEnv.GetRepoLink }
      (ascii "c:bogus") = .returned (.answer "Only admins can change settings" true) := by
  decide

/-- C19: `HandleSettings` ends in an index-out-of-range panic exactly when
the caller passes the admin check and the data is "c:ar:pg" or "c:ar:id":
`parts[3]` is read after the test `len(parts) < 3` alone. On every other data
it returns, and `HandlePRAction` returns on every data. -/
theorem C19_decoding_panics (env : SettingsEnv) (data : GoString)
    (ActionCache : cache.Cache GoString PRActionContext) (now : cache.Time) :
    (HandleSettings env data = .panicked ↔
      env.allowed = true ∧ (data = ascii "c:ar:pg" ∨ data = ascii "c:ar:id")) ∧
    HandlePRAction ActionCache now data ≠ .panicked :=
  ⟨HandleSettings_panicked_iff env data, HandlePRAction_no_panic ActionCache now data⟩

/-- C19 at the failing inputs: `HandleSettings` panics on "c:ar:pg" and on
"c:ar:id", and `HandlePRAction` returns on them. -/
theorem C19_decoding_panics_witness :
    Split (ascii "c:ar:pg") 58 = [ascii "c", ascii "ar", ascii "pg"] ∧
    HandleSettings demoSettingsEnv (ascii "c:ar:pg") = .panicked ∧
    HandleSettings demoSettingsEnv (ascii "c:ar:id") = .panicked ∧
    HandlePRAction (cache.Cache.New : cache.Cache GoString PRActionContext) 0
      (ascii "c:ar:pg") = .returned (.answerExpired, cache.Cache.New) :=
  ⟨by decide,
    (C19_decoding_panics demoSettingsEnv (ascii "c:ar:pg") cache.Cache.New 0).1.2
      ⟨rfl, Or.inl rfl⟩,
    (C19_decoding_panics demoSettingsEnv (ascii "c:ar:id") cache.Cache.New 0).1.2
      ⟨rfl, Or.inr rfl⟩,
    by decide⟩

/-! ## The page argument -/

theorem segments_eq (a : GoString) (rest : GoString) (lit : GoString)
    (h : lit = a ++ [(58 : Byte)]) : lit ++ rest = a ++ 58 :: rest := by
  rw [h, List.append_assoc]
  rfl

theorem Split_ar_pg (p : GoString) (hp : (58 : Byte) ∉ p) :
    Split (ascii "c:ar:pg:" ++ p) 58 = [ascii "c", ascii "ar", ascii "pg", p] := by
  have e : ascii "c:ar:pg:" ++ p
      = ascii "c" ++ 58 :: (ascii "ar" ++ 58 :: (ascii "pg" ++ 58 :: p)) := by
    rw [show ascii "c:ar:pg:"
      = ascii "c" ++ 58 :: (ascii "ar" ++ 58 :: (ascii "pg" ++ [(58 : Byte)])) from by decide]
    simp only [List.append_assoc, List.cons_append, List.nil_append, List.singleton_append]
  rw [e, Split_append _ _ _ (by decide), Split_append _ _ _ (by decide),
    Split_append _ _ _ (by decide), Split_of_not_mem _ _ hp]

theorem Split_repo_page (a lit r p : GoString) (ha : (58 : Byte) ∉ a)
    (hlit : lit = ascii "c" ++ 58 :: (a ++ [(58 : Byte)]))
    (hr : (58 : Byte) ∉ r) (hp : (58 : Byte) ∉ p) :
    Split (lit ++ r ++ ascii ":" ++ p) 58 = [ascii "c", a, r, p] := by
  have e : lit ++ r ++ ascii ":" ++ p = ascii "c" ++ 58 :: (a ++ 58 :: (r ++ 58 :: p)) := by
    rw [hlit, colon_eq]
    simp only [List.append_assoc, List.cons_append, List.nil_append, List.singleton_append]
  rw [e, Split_append _ _ _ (by decide), Split_append _ _ _ ha, Split_append _ _ _ hr,
    Split_of_not_mem _ _ hp]

theorem Split_te4 (r s : GoString) (hr : (58 : Byte) ∉ r) (hs : (58 : Byte) ∉ s) :
    Split (ascii "c:te:" ++ r ++ ascii ":" ++ s) 58 = [ascii "c", ascii "te", r, s] :=
  Split_repo_page (ascii "te") _ r s (by decide) (by decide) hr hs

theorem Split_te5 (r s p : GoString) (hr : (58 : Byte) ∉ r) (hs : (58 : Byte) ∉ s)
    (hp : (58 : Byte) ∉ p) :
    Split (ascii "c:te:" ++ r ++ ascii ":" ++ s ++ ascii ":" ++ p) 58
      = [ascii "c", ascii "te", r, s, p] := by
  have e : ascii "c:te:" ++ r ++ ascii ":" ++ s ++ ascii ":" ++ p
      = ascii "c" ++ 58 :: (ascii "te" ++ 58 :: (r ++ 58 :: (s ++ 58 :: p))) := by
    rw [show ascii "c:te:" = ascii "c" ++ 58 :: (ascii "te" ++ [(58 : Byte)]) from by decide,
      colon_eq]
    simp only [List.append_assoc, List.cons_append, List.nil_append, List.singleton_append]
  rw [e, Split_append _ _ _ (by decide), Split_append _ _ _ (by decide),
    Split_append _ _ _ hr, Split_append _ _ _ hs, Split_of_not_mem _ _ hp]

theorem HandleSettings_te4 (env : SettingsEnv) (data r s : GoString) (link : RepoLink)
    (hallowed : env.allowed = true) (hlink : env.GetRepoLink r = .ok link)
    (h : Split data 58 = [ascii "c", ascii "te", r, s]) :
    HandleSettings env data =
      .returned (.toggleEvent link
        (match shortToEvent.lookup s with
          | some evt => evt
          | none => s) 1) := by
  simp +decide [HandleSettings, linkBlock, hallowed, h, hlink]

theorem HandleSettings_ep (env : SettingsEnv) (data r p : GoString) (link : RepoLink)
    (hallowed : env.allowed = true) (hlink : env.GetRepoLink r = .ok link)
    (h : Split data 58 = [ascii "c", ascii "ep", r, p]) :
    HandleSettings env data = .returned (.showIndividualEvents link (Atoi p).1) := by
  simp +decide [HandleSettings, linkBlock, hallowed, h, hlink]

theorem HandleSettings_iev (env : SettingsEnv) (data r p : GoString) (link : RepoLink)
    (hallowed : env.allowed = true) (hlink : env.GetRepoLink r = .ok link)
    (h : Split data 58 = [ascii "c", ascii "iev", r, p]) :
    HandleSettings env data = .returned (.showIndividualEvents link (Atoi p).1) := by
  simp +decide [HandleSettings, linkBlock, hallowed, h, hlink]

/-- C20, as the code has it: in each callback with a page argument `p` the
page passed on is the value of `strconv.Atoi(p)` with its error dropped. For
"c:ar:pg:p" it goes to `handleRepoPage`, for "c:ep:r:p", "c:iev:r:p" and
"c:te:r:s:p" with a linked repository `r` to `showIndividualEvents`. That
value is 0 when `p` is not numeric, the largest or the smallest `int` when
`p` is a number beyond the range of `int`, and `n` itself when `p` is the
decimal text of an `int` `n`, whatever its sign and size. The data
"c:te:r:s", which has no page argument, passes page 1. -/
theorem C20_page_argument (env : SettingsEnv) (r s p : GoString) (link : RepoLink)
    (hallowed : env.allowed = true) (hlink : env.GetRepoLink r = .ok link)
    (hr : (58 : Byte) ∉ r) (hs : (58 : Byte) ∉ s) (hp : (58 : Byte) ∉ p) :
    HandleSettings env (ascii "c:ar:pg:" ++ p) = .returned (.handleRepoPage (Atoi p).1) ∧
    HandleSettings env (ascii "c:ep:" ++ r ++ ascii ":" ++ p)
      = .returned (.showIndividualEvents link (Atoi p).1) ∧
    HandleSettings env (ascii "c:iev:" ++ r ++ ascii ":" ++ p)
      = .returned (.showIndividualEvents link (Atoi p).1) ∧
    (∃ evt, HandleSettings env (ascii "c:te:" ++ r ++ ascii ":" ++ s ++ ascii ":" ++ p)
      = .returned (.toggleEvent link evt (Atoi p).1)) ∧
    (∃ evt, HandleSettings env (ascii "c:te:" ++ r ++ ascii ":" ++ s)
      = .returned (.toggleEvent link evt 1)) ∧
    ((Atoi p).2 = none ∨ (Atoi p).2 = some .strconvSyntax ∨
      (Atoi p).2 = some .strconvRange) ∧
    ((Atoi p).2 = some .strconvSyntax → (Atoi p).1 = 0) ∧
    ((Atoi p).2 = some .strconvRange →
      (Atoi p).1 = 9223372036854775807 ∨ (Atoi p).1 = -9223372036854775808) ∧
    (∀ n : Int, -9223372036854775808 ≤ n → n < 9223372036854775808 →
      p = FormatInt n → Atoi p = (n, none)) := by
  refine ⟨?_, ?_, ?_, ?_, ?_, ParseInt_error p, ParseInt_syntax_value p,
    ParseInt_range_value p, ?_⟩
  · rw [HandleSettings_ar_pg env _ [p] hallowed (Split_ar_pg p hp)]
  · exact HandleSettings_ep env _ r p link hallowed hlink
      (Split_repo_page (ascii "ep") _ r p (by decide) (by decide) hr hp)
  · exact HandleSettings_iev env _ r p link hallowed hlink
      (Split_repo_page (ascii "iev") _ r p (by decide) (by decide) hr hp)
  · have h5 := HandleSettings_te5 env _ r s p hallowed (Split_te5 r s p hr hs hp)
    rw [hlink] at h5
    exact ⟨_, h5⟩
  · exact ⟨_, HandleSettings_te4 env _ r s link hallowed hlink (Split_te4 r s hr hs)⟩
  · intro n h1 h2 hn
    rw [hn]
    exact ParseInt_FormatInt n h1 h2

/-- C20 on the page arguments "abc", "-7" and "99999999999999999999" with
the linked repository "owner/repo": the pages passed on are 0, -7 and the
largest `int`. -/
theorem C20_page_argument_witness :
    demoSettingsEnv.allowed = true ∧
    HandleSettings demoSettingsEnv (ascii "c:ar:pg:abc") = .returned (.handleRepoPage 0) ∧
    HandleSettings demoSettingsEnv (ascii "c:ep:owner/repo:abc")
      = .returned (.showIndividualEvents
          { RepoFullName := ascii "owner/repo", WebhookID := 5 } 0) ∧
    Atoi (ascii "abc") = (0, some .strconvSyntax) ∧
    Atoi (ascii "-7") = (-7, none) ∧
    Atoi (ascii "99999999999999999999") = (9223372036854775807, some .strconvRange) :=
  ⟨rfl,
    (C20_page_argument demoSettingsEnv (ascii "owner/repo") (ascii "p") (ascii "abc")
      { RepoFullName := ascii "owner/repo", WebhookID := 5 } rfl (by decide) (by decide)
      (by decide) (by decide)).1,
    (C20_page_argument demoSettingsEnv (ascii "owner/repo") (ascii "p") (ascii "abc")
      { RepoFullName := ascii "owner/repo", WebhookID := 5 } rfl (by decide) (by decide)
      (by decide) (by decide)).2.1,
    by decide, by decide, by decide⟩

/-- C20 as stated fails: the non-numeric page argument of "c:ar:pg:abc"
passes page 0 to `handleRepoPage`, and the page argument -7 of
"c:iev:owner/repo:-7", below every page, passes -7 to `showIndividualEvents`;
neither passes page 1. -/
theorem C20_page_not_defaulted :
    HandleSettings demoSettingsEnv (ascii "c:ar:pg:abc") = .returned (.handleRepoPage 0) ∧
    HandleSettings demoSettingsEnv (ascii "c:ar:pg:abc") ≠ .returned (.handleRepoPage 1) ∧
    HandleSettings demoSettingsEnv (ascii "c:iev:owner/repo:-7")
      = .returned (.showIndividualEvents
          { RepoFullName := ascii "owner/repo", WebhookID := 5 } (-7)) ∧
    HandleSettings demoSettingsEnv (ascii "c:te:owner/repo:p:abc")
      = .returned (.toggleEvent { RepoFullName := ascii "owner/repo", WebhookID := 5 }
          (ascii "push") 0) := by
  decide

end callbacks

/-! # Properties of the OAuth state, the reply handlers and the button actions -/

namespace main

open utils cache github

theorem Load_StateOp_of_none (rest : Int → GoString → Response) (c : Cache GoString Int)
    (state : GoString) (op : StateOp) (hop : StateOp.stores state op = false)
    (h : c.items.Load state = none) : (StateOp.run rest c op).items.Load state = none := by
  cases op with
  | connect now isPrivate generated userID =>
    simp only [StateOp.run, commands.Connect]
    cases isPrivate with
    | false => exact h
    | true =>
      cases generated with
      | error e => exact h
      | ok s =>
        have hne : state ≠ s := by
          intro hs
          simp [StateOp.stores, hs] at hop
        simp only [Bool.not_true, Bool.false_eq_true, if_false]
        rw [Cache.Load_Set_ne _ _ _ _ hne]
        exact h
  | callback now code s =>
    simp only [StateOp.run, oauthCallback]
    by_cases hcode : code = []
    · simp only [hcode, if_true]
      exact h
    · simp only [hcode, if_false]
      have hG := Cache.Load_run_of_none c state (.get now s) rfl h
      simp only [Cache.Op.run] at hG
      rcases hg : c.Get now s with ⟨⟨v, b⟩, c'⟩
      rw [hg] at hG
      cases b with
      | false => exact hG
      | true => exact SyncMap.Load_Delete_of_none _ _ _ hG

theorem Load_runStateOps_of_none (rest : Int → GoString → Response) (ops : List StateOp)
    (c : Cache GoString Int) (state : GoString)
    (hops : ∀ op ∈ ops, StateOp.stores state op = false)
    (h : c.items.Load state = none) :
    (runStateOps rest c ops).items.Load state = none := by
  induction ops generalizing c with
  | nil => exact h
  | cons op ops ih =>
    simp only [runStateOps, List.foldl_cons]
    exact ih (StateOp.run rest c op) (fun o ho => hops o (List.mem_cons_of_mem _ ho))
      (Load_StateOp_of_none rest c state op (hops op (List.mem_cons_self _ _)) h)

theorem oauthCallback_of_Load_none (rest : Int → GoString → Response)
    (c : Cache GoString Int) (now : Time) (code state : GoString) (hcode : code ≠ [])
    (h : c.items.Load state = none) : oauthCallback rest c now code state = (invalidState, c) := by
  simp only [oauthCallback, hcode, if_false, Cache.Get_of_Load_none c now state h]

theorem Get_hit (c c' : Cache GoString Int) (now : Time) (k : GoString) (v : Int)
    (h : c.Get now k = ((v, true), c')) :
    ∃ itm, c.items.Load k = some itm ∧ itm.value = v ∧ c' = c := by
  unfold Cache.Get at h
  cases hL : c.items.Load k with
  | none => simp [hL] at h
  | some itm =>
    simp only [hL] at h
    split_ifs at h with hexp
    · simp at h
    · simp only [Prod.mk.injEq, and_true] at h
      exact ⟨itm, rfl, h.1, h.2.symm⟩

theorem Get_hit_again (c : Cache GoString Int) (now : Time) (k : GoString)
    (itm : item Int) (hL : c.items.Load k = some itm) (h : (c.Get now k).1.2 = true) :
    c.Get now k = ((itm.value, true), c) := by
  unfold Cache.Get at h ⊢
  simp only [hL] at h ⊢
  split_ifs at h ⊢ with hexp
  rfl

theorem oauthCallback_eq_steps (rest : Int → GoString → Response) (c : Cache GoString Int)
    (now : Time) (code state : GoString) :
    oauthCallback rest c now code state
      = oauthCallbackDelete rest (oauthCallbackGet c now code state).2 code state
          (oauthCallbackGet c now code state).1 := by
  unfold oauthCallback oauthCallbackGet
  by_cases hcode : code = []
  · simp only [hcode, if_true, oauthCallbackDelete]
  · simp only [hcode, if_false]
    rcases hg : c.Get now state with ⟨⟨v, b⟩, c'⟩
    cases b <;> simp only [oauthCallbackDelete]

theorem oauthCallbackGet_hit (c : Cache GoString Int) (now : Time) (code state : GoString)
    (itm : item Int) (hcode : code ≠ []) (hL : c.items.Load state = some itm)
    (h : (c.Get now state).1.2 = true) :
    oauthCallbackGet c now code state = (.resolved itm.value, c) := by
  simp only [oauthCallbackGet, hcode, if_false, Get_hit_again c now state itm hL h]

/-- C21: the handler makes its `Get` (line 134) and its `Delete` (line 140)
as two calls on the state table. Served one after the other, requests behave
as the claim says: when a request with a non-empty code finds its state, the
handler removes the state and goes on with the Telegram id stored for it, and
after that, whatever requests and `/connect` commands follow, as long as none
of them stores the same state again, every request with that state and a
non-empty code is answered 400 "Invalid or expired state" and leaves the
table as it is. But when a second request with the same state makes its
`Get` before the first has made its `Delete`, both requests resolve the state
and go on with the Telegram id stored for it: the state of one `Set` is
resolved twice. -/
theorem C21_state_single_use (rest : Int → GoString → Response) (c c' : Cache GoString Int)
    (now : Time) (code state : GoString) (telegramID : Int) (hcode : code ≠ [])
    (hget : c.Get now state = ((telegramID, true), c')) :
    oauthCallback rest c now code state
      = oauthCallbackDelete rest (oauthCallbackGet c now code state).2 code state
          (oauthCallbackGet c now code state).1 ∧
    oauthCallback rest c now code state = (rest telegramID code, c'.Delete state) ∧
    (oauthCallback rest c now code state).2.items.Load state = none ∧
    (∀ ops : List StateOp, (∀ op ∈ ops, StateOp.stores state op = false) →
      ∀ (now' : Time) (code' : GoString), code' ≠ [] →
        oauthCallback rest (runStateOps rest (oauthCallback rest c now code state).2 ops)
            now' code' state
          = (invalidState, runStateOps rest (oauthCallback rest c now code state).2 ops) ∧
        invalidState.status = 400 ∧
        invalidState.body = ascii "Invalid or expired state\n") ∧
    (∀ (now2 : Time) (code2 : GoString), code2 ≠ [] → (c.Get now2 state).1.2 = true →
      (overlappingCallbacks rest c now now2 code code2 state).1
        = (.resolved telegramID, .resolved telegramID) ∧
      (overlappingCallbacks rest c now now2 code code2 state).2.1
        = (rest telegramID code, rest telegramID code2) ∧
      (overlappingCallbacks rest c now now2 code code2 state).2.2.items.Load state
        = none) := by
  have h1 : oauthCallback rest c now code state = (rest telegramID code, c'.Delete state) := by
    simp only [oauthCallback, hcode, if_false, hget]
  have h2 : (oauthCallback rest c now code state).2.items.Load state = none := by
    rw [h1]
    exact SyncMap.Load_Delete_self _ _
  refine ⟨oauthCallback_eq_steps rest c now code state, h1, h2, ?_, ?_⟩
  · intro ops hops now' code' hcode'
    exact ⟨oauthCallback_of_Load_none rest _ now' code' state hcode'
      (Load_runStateOps_of_none rest ops _ state hops h2), rfl, rfl⟩
  · intro now2 code2 hcode2 hlive2
    obtain ⟨itm, hL, hv, _⟩ := Get_hit c c' now state telegramID hget
    have hlive1 : (c.Get now state).1.2 = true := by rw [hget]
    have hg1 := oauthCallbackGet_hit c now code state itm hcode hL hlive1
    have hg2 := oauthCallbackGet_hit c now2 code2 state itm hcode2 hL hlive2
    simp only [overlappingCallbacks, hg1, hg2, oauthCallbackDelete, hv, true_and]
    exact SyncMap.Load_Delete_self _ _

/-- C21 on the state "abc" stored by `/connect` for user 42. One after the
other: the first request resolves it, and after a request with another state
and a `/connect` of another user the second request is answered 400.
Overlapping: both requests resolve it to user 42. -/
theorem C21_state_single_use_witness :
    ascii "code1" ≠ [] ∧
    (commands.Connect Cache.New 0 true (.ok (ascii "abc")) 42).Get 1000 (ascii "abc")
      = ((42, true), (commands.Connect Cache.New 0 true (.ok (ascii "abc")) 42)) ∧
    (oauthCallback (fun _ _ => { status := 200, body := [] })
      (commands.Connect Cache.New 0 true (.ok (ascii "abc")) 42) 1000 (ascii "code1")
      (ascii "abc")).1 = { status := 200, body := [] } ∧
    (oauthCallback (fun _ _ => { status := 200, body := [] })
      (runStateOps (fun _ _ => { status := 200, body := [] })
        (oauthCallback (fun _ _ => { status := 200, body := [] })
          (commands.Connect Cache.New 0 true (.ok (ascii "abc")) 42) 1000 (ascii "code1")
          (ascii "abc")).2
        [.callback 1001 (ascii "code2") (ascii "xyz"),
          .connect 1002 true (.ok (ascii "def")) 43])
      1003 (ascii "code1") (ascii "abc")).1 = invalidState ∧
    (overlappingCallbacks (fun _ _ => { status := 200, body := [] }) (commands.Connect Cache.New 0 true (.ok (ascii "abc")) 42) 1000 1001 (ascii "code1") (ascii "code1")
      (ascii "abc")).1 = (.resolved 42, .resolved 42) :=
  ⟨by decide, by decide,
    congrArg Prod.fst (C21_state_single_use (fun _ _ => { status := 200, body := [] })
      (commands.Connect Cache.New 0 true (.ok (ascii "abc")) 42)
      (commands.Connect Cache.New 0 true (.ok (ascii "abc")) 42) 1000 (ascii "code1")
      (ascii "abc") 42 (by decide) (by decide)).2.1,
    congrArg Prod.fst ((C21_state_single_use (fun _ _ => { status := 200, body := [] })
      (commands.Connect Cache.New 0 true (.ok (ascii "abc")) 42)
      (commands.Connect Cache.New 0 true (.ok (ascii "abc")) 42) 1000 (ascii "code1")
      (ascii "abc") 42 (by decide) (by decide)).2.2.2.1
      [.callback 1001 (ascii "code2") (ascii "xyz"),
        .connect 1002 true (.ok (ascii "def")) 43]
      (by decide) 1003 (ascii "code1") (by decide)).1,
    ((C21_state_single_use (fun _ _ => { status := 200, body := [] }) (commands.Connect Cache.New 0 true (.ok (ascii "abc")) 42) (commands.Connect Cache.New 0 true (.ok (ascii "abc")) 42) 1000 (ascii "code1") (ascii "abc") 42 (by decide)
      (by decide)).2.2.2.2 1001 (ascii "code1") (by decide) (by decide)).1⟩

end main

namespace callbacks

open utils cache models bot

/-! ## The button actions -/

theorem HandlePRAction_other_length (ActionCache : Cache GoString PRActionContext)
    (now : Time) (data : GoString) (h : (Split data 58).length ≠ 3) :
    HandlePRAction ActionCache now data = .returned (.ret, ActionCache) := by
  simp [HandlePRAction, h]

theorem HandlePRAction_miss (ActionCache : Cache GoString PRActionContext)
    (now : Time) (data a action id : GoString) (h : Split data 58 = [a, action, id])
    (hmiss : (ActionCache.Get now id).1.2 = false) :
    HandlePRAction ActionCache now data
      = .returned (.answerExpired, (ActionCache.Get now id).2) := by
  simp only [HandlePRAction, h]
  rcases hg : ActionCache.Get now id with ⟨⟨v, b⟩, c⟩
  rw [hg] at hmiss
  simp only at hmiss
  subst hmiss
  simp [hg]

theorem Get_miss_of_absent_or_expired {V : Type} [Inhabited V] (c : Cache GoString V)
    (now : Time) (id : GoString)
    (h : c.items.Load id = none ∨
      ∃ itm, c.items.Load id = some itm ∧ itm.expiration < now) :
    (c.Get now id).1 = (default, false) ∧ (c.Get now id).2.items.Load id = none := by
  rcases h with h | ⟨itm, h, hexp⟩
  · rw [Cache.Get_of_Load_none c now id h]
    exact ⟨rfl, h⟩
  · have ha : Time.After now itm.expiration = true := by
      simp only [Time.After, decide_eq_true_eq]
      exact hexp
    have hG : c.Get now id = ((default, false), ⟨c.items.Delete id⟩) := by
      simp only [Cache.Get, h, ha, if_true]
    rw [hG]
    exact ⟨rfl, SyncMap.Load_Delete_self _ _⟩

/-- C22: `HandlePRAction` never panics. On data that does not split into
exactly three segments it makes no call and leaves the action table as it is.
On data of three segments whose id has no entry in the action table, or an
entry that has expired, its only call is the alert "Action expired. Please
open the PR link manually.": no call to the GitHub client and none to the
store; afterwards the table has no entry for the id. -/
theorem C22_unknown_action_token (up : Update) (sv : Services)
    (ActionCache : Cache GoString PRActionContext) (now : Time) (data : GoString) :
    HandlePRActionCalls up sv ActionCache now data ≠ .panicked ∧
    ((Split data 58).length ≠ 3 →
      HandlePRActionCalls up sv ActionCache now data = .returned ([], ActionCache)) ∧
    (∀ a action id, Split data 58 = [a, action, id] →
      (ActionCache.items.Load id = none ∨
        ∃ itm, ActionCache.items.Load id = some itm ∧ itm.expiration < now) →
      HandlePRActionCalls up sv ActionCache now data
        = .returned ([.answer (ascii "Action expired. Please open the PR link manually.")
            true], (ActionCache.Get now id).2) ∧
      (ActionCache.Get now id).2.items.Load id = none ∧
      ∀ call ∈ [Call.answer (ascii "Action expired. Please open the PR link manually.")
          true], call.isGitHub = false ∧ call.isStore = false) := by
  refine ⟨?_, ?_, ?_⟩
  · intro hp
    unfold HandlePRActionCalls at hp
    rcases hh : HandlePRAction ActionCache now data with ⟨d, c⟩ | _
    · rw [hh] at hp
      simp at hp
    · exact HandlePRAction_no_panic ActionCache now data hh
  · intro h
    simp only [HandlePRActionCalls, HandlePRAction_other_length ActionCache now data h,
      prDispatchCalls]
  · intro a action id h hmiss
    have hm := Get_miss_of_absent_or_expired ActionCache now id hmiss
    refine ⟨?_, hm.2, by decide⟩
    simp only [HandlePRActionCalls,
      HandlePRAction_miss ActionCache now data a action id h (by rw [hm.1]), prDispatchCalls]

/-- C22 on "act:approve:123e4567" with an empty action table, and on an id
whose entry has expired. -/
theorem C22_unknown_action_token_witness :
    Split (ascii "act:approve:123e4567") 58
      = [ascii "act", ascii "approve", ascii "123e4567"] ∧
    HandlePRActionCalls demoUpdate demoServices Cache.New 0 (ascii "act:approve:123e4567")
      = .returned ([.answer (ascii "Action expired. Please open the PR link manually.")
          true], Cache.New) ∧
    HandlePRActionCalls demoUpdate demoServices
        ((Cache.New : Cache GoString PRActionContext).Set 0 (ascii "123e4567")
          { Owner := ascii "o", Repo := ascii "r", PRNumber := 1 } 10)
        11 (ascii "act:approve:123e4567")
      = .returned ([.answer (ascii "Action expired. Please open the PR link manually.")
          true], Cache.New) ∧
    HandlePRActionCalls demoUpdate demoServices Cache.New 0 (ascii "act:approve")
      = .returned ([], Cache.New) :=
  ⟨by decide,
    ((C22_unknown_action_token demoUpdate demoServices Cache.New 0
      (ascii "act:approve:123e4567")).2.2 (ascii "act") (ascii "approve") (ascii "123e4567")
      (by decide) (Or.inl rfl)).1,
    by decide,
    (C22_unknown_action_token demoUpdate demoServices Cache.New 0
      (ascii "act:approve")).2.1 (by decide)⟩

end callbacks

namespace callbacks

open utils cache models bot

theorem HandlePRAction_New (now : Time) (data : GoString) :
    HandlePRAction (Cache.New : Cache GoString PRActionContext) now data
      = .returned (if (Split data 58).length = 3 then .answerExpired else .ret, Cache.New) := by
  by_cases h : (Split data 58).length = 3
  · rw [if_pos h]
    rcases hs : Split data 58 with _ | ⟨a, _ | ⟨action, _ | ⟨id, _ | ⟨y, rest⟩⟩⟩⟩ <;>
      rw [hs] at h <;> simp at h
    exact HandlePRAction_miss Cache.New now data a action id hs rfl
  · rw [if_neg h]
    exact HandlePRAction_other_length Cache.New now data h

theorem runPRActions_New (presses : List (Time × GoString)) :
    runPRActions Cache.New presses = .returned Cache.New := by
  induction presses with
  | nil => rfl
  | cons p rest ih =>
    obtain ⟨now, data⟩ := p
    simp only [runPRActions, HandlePRAction_New]
    exact ih

/-- C29: the action table is created empty, and the only function that
calls a method of it is `HandlePRAction`, which reads it. So after any
sequence of button presses the table is still the empty table, and on it
`HandlePRAction` answers "Action expired" for every data of three segments,
makes no call for any other data, and never calls the GitHub client. -/
theorem C29_action_table_empty (up : Update) (sv : Services)
    (presses : List (Time × GoString)) (now : Time) (data : GoString) :
    runPRActions Cache.New presses = .returned Cache.New ∧
    HandlePRActionCalls up sv Cache.New now data
      = .returned (if (Split data 58).length = 3 then
            [.answer (ascii "Action expired. Please open the PR link manually.") true]
          else [], Cache.New) ∧
    (∀ calls c, HandlePRActionCalls up sv Cache.New now data = .returned (calls, c) →
      ∀ call ∈ calls, call.isGitHub = false) := by
  have h2 : HandlePRActionCalls up sv Cache.New now data
      = .returned (if (Split data 58).length = 3 then
            [.answer (ascii "Action expired. Please open the PR link manually.") true]
          else [], Cache.New) := by
    simp only [HandlePRActionCalls, HandlePRAction_New]
    by_cases h : (Split data 58).length = 3
    · simp only [h, if_true, prDispatchCalls]
    · simp only [h, if_false, prDispatchCalls]
  refine ⟨runPRActions_New presses, h2, ?_⟩
  intro calls c hc call hmem
  rw [h2] at hc
  simp only [Outcome.returned.injEq, Prod.mk.injEq] at hc
  rw [← hc.1] at hmem
  by_cases h : (Split data 58).length = 3
  · simp only [h, if_true, List.mem_singleton] at hmem
    rw [hmem]
    rfl
  · simp only [h, if_false, List.not_mem_nil] at hmem

/-- C29 after three button presses, the last an approve with a well-formed
id: the table is empty and the press is answered "Action expired". -/
theorem C29_action_table_empty_witness :
    runPRActions Cache.New
      [(10, ascii "act:approve:1"), (20, ascii "act:close:2"), (30, ascii "act")]
      = .returned Cache.New ∧
    HandlePRActionCalls demoUpdate demoServices Cache.New 40 (ascii "act:approve:1")
      = .returned ([.answer (ascii "Action expired. Please open the PR link manually.")
          true], Cache.New) :=
  ⟨(C29_action_table_empty demoUpdate demoServices
      [(10, ascii "act:approve:1"), (20, ascii "act:close:2"), (30, ascii "act")] 40
      (ascii "act:approve:1")).1,
    by decide⟩

/-! ## The authentication errors of GitHub -/

theorem callbackAuthError_true_iff (up : Update) (err : GoError) :
    (handleAuthError up err).1 = true ↔
      ∃ status, asErrorResponse err = some status ∧ (status = 401 ∨ status = 403) := by
  unfold handleAuthError
  cases h : asErrorResponse err with
  | none => simp
  | some status =>
    by_cases hs : status = 401 ∨ status = 403
    · simp [hs]
    · simp [hs]

theorem callbackAuthError_calls (up : Update) (err : GoError) :
    (handleAuthError up err).2 =
      if (handleAuthError up err).1 = true then
        [.clearUserToken up.userID,
          .answer (ascii "GitHub auth error. Token revoked or expired.") true]
      else [] := by
  unfold handleAuthError
  cases h : asErrorResponse err with
  | none => simp
  | some status =>
    by_cases hs : status = 401 ∨ status = 403
    · simp [hs]
    · simp [hs]

end callbacks

namespace commands

open utils cache models bot

theorem handleAuthError_true_iff (up : Update) (err : GoError) :
    (handleAuthError up err).1 = true ↔
      ∃ status text, err = .errorResponse status text ∧ (status = 401 ∨ status = 403) := by
  unfold handleAuthError
  cases err with
  | errorResponse status text =>
    by_cases hs : status = 401 ∨ status = 403
    · simp [hs]
    · simp [hs]
  | other text => simp
  | wrapped text inner => simp

theorem handleAuthError_calls (up : Update) (err : GoError) :
    (handleAuthError up err).2 =
      if (handleAuthError up err).1 = true then
        [.clearUserToken up.userID,
          .reply (utf8 "⚠️ <b>GitHub authentication failed.</b>\nIt seems your token has expired or was revoked. Please /connect again.")]
      else [] := by
  unfold handleAuthError
  cases err with
  | errorResponse status text =>
    by_cases hs : status = 401 ∨ status = 403
    · simp [hs]
    · simp [hs]
  | other text => simp
  | wrapped text inner => simp

/-- C24: on an error as the call sites pass it (the error of the GitHub
client unchanged: an error response itself, or an error that wraps no error
response), in both the command and the callback handlers `handleAuthError`
returns true exactly when the error is a GitHub error response with status
401 or 403; then it clears the user's stored token and notifies the user (a
reply in the command handlers, an alert in the callback handlers); on every
other error (another status, an error of another type, with or without
wrapped errors of other types) it returns false and makes no call, so the
stored token is left as it is. -/
theorem C24_auth_error (up : Update) (err : GoError)
    (hw : ∀ text inner, err = .wrapped text inner →
      callbacks.asErrorResponse inner = none) :
    ((handleAuthError up err).1 = true ↔
      ∃ status text, err = .errorResponse status text ∧ (status = 401 ∨ status = 403)) ∧
    ((callbacks.handleAuthError up err).1 = true ↔
      ∃ status text, err = .errorResponse status text ∧ (status = 401 ∨ status = 403)) ∧
    ((∃ status text, err = .errorResponse status text ∧ (status = 401 ∨ status = 403)) →
      handleAuthError up err
        = (true, [.clearUserToken up.userID,
            .reply (utf8 "⚠️ <b>GitHub authentication failed.</b>\nIt seems your token has expired or was revoked. Please /connect again.")]) ∧
      callbacks.handleAuthError up err
        = (true, [.clearUserToken up.userID,
            .answer (ascii "GitHub auth error. Token revoked or expired.") true])) ∧
    ((¬ ∃ status text, err = .errorResponse status text ∧ (status = 401 ∨ status = 403)) →
      handleAuthError up err = (false, []) ∧
      callbacks.handleAuthError up err = (false, [])) := by
  cases err with
  | errorResponse status text =>
    by_cases hs : status = 401 ∨ status = 403
    · simp [handleAuthError, callbacks.handleAuthError, callbacks.asErrorResponse, hs]
    · simp [handleAuthError, callbacks.handleAuthError, callbacks.asErrorResponse, hs]
  | other text =>
    simp [handleAuthError, callbacks.handleAuthError, callbacks.asErrorResponse]
  | wrapped text inner =>
    simp [handleAuthError, callbacks.handleAuthError, callbacks.asErrorResponse,
      hw text inner rfl]

/-- C24 on a GitHub error response with status 401: both handlers return
true, clear the token of user 42 and notify the user; and on a transport
error that wraps a network error: both return false and make no call. -/
theorem C24_auth_error_witness :
    (∀ text inner, GoError.errorResponse 401 (ascii "Bad credentials")
      = .wrapped text inner → callbacks.asErrorResponse inner = none) ∧
    handleAuthError demoUpdate (.errorResponse 401 (ascii "Bad credentials"))
      = (true, [.clearUserToken 42,
          .reply (utf8 "⚠️ <b>GitHub authentication failed.</b>\nIt seems your token has expired or was revoked. Please /connect again.")]) ∧
    callbacks.handleAuthError demoUpdate (.errorResponse 401 (ascii "Bad credentials"))
      = (true, [.clearUserToken 42,
          .answer (ascii "GitHub auth error. Token revoked or expired.") true]) ∧
    (∀ text inner, GoError.wrapped (ascii "Get: dial tcp: timeout")
        (.other (ascii "dial tcp: timeout")) = .wrapped text inner →
      callbacks.asErrorResponse inner = none) ∧
    handleAuthError demoUpdate
      (.wrapped (ascii "Get: dial tcp: timeout") (.other (ascii "dial tcp: timeout")))
      = (false, []) ∧
    callbacks.handleAuthError demoUpdate
      (.wrapped (ascii "Get: dial tcp: timeout") (.other (ascii "dial tcp: timeout")))
      = (false, []) :=
  ⟨fun _ _ h => GoError.noConfusion h,
    ((C24_auth_error demoUpdate (.errorResponse 401 (ascii "Bad credentials"))
      (fun _ _ h => GoError.noConfusion h)).2.2.1
      ⟨401, ascii "Bad credentials", rfl, Or.inl rfl⟩).1,
    ((C24_auth_error demoUpdate (.errorResponse 401 (ascii "Bad credentials"))
      (fun _ _ h => GoError.noConfusion h)).2.2.1
      ⟨401, ascii "Bad credentials", rfl, Or.inl rfl⟩).2,
    fun _ _ h => by cases h; rfl,
    (C24_auth_error demoUpdate
      (.wrapped (ascii "Get: dial tcp: timeout") (.other (ascii "dial tcp: timeout")))
      (fun _ _ h => by cases h; rfl)).2.2.2
      (fun ⟨_, _, h, _⟩ => GoError.noConfusion h)⟩

/-- On a GitHub error response with status 404, on an error of another type
and on an error that wraps one of another type both handlers return false
and make no call. -/
theorem handleAuthError_other_errors :
    handleAuthError demoUpdate (.errorResponse 404 (ascii "Not Found")) = (false, []) ∧
    callbacks.handleAuthError demoUpdate (.errorResponse 404 (ascii "Not Found"))
      = (false, []) ∧
    handleAuthError demoUpdate (.other (ascii "timeout")) = (false, []) ∧
    callbacks.handleAuthError demoUpdate (.other (ascii "timeout")) = (false, []) ∧
    handleAuthError demoUpdate
      (.wrapped (ascii "Get: dial tcp: timeout") (.other (ascii "dial tcp: timeout")))
      = (false, []) ∧
    callbacks.handleAuthError demoUpdate
      (.wrapped (ascii "Get: dial tcp: timeout") (.other (ascii "dial tcp: timeout")))
      = (false, []) := by
  decide

/-- Outside the errors that the call sites pass: on an error that wraps a
GitHub error response with status 401 the type assertion of the command
handlers does not see the response, `errors.As` of the callback handlers
does. -/
theorem handleAuthError_on_wrapped :
    handleAuthError demoUpdate
      (.wrapped (ascii "edit hook: 401 Bad credentials")
        (.errorResponse 401 (ascii "401 Bad credentials"))) = (false, []) ∧
    callbacks.handleAuthError demoUpdate
      (.wrapped (ascii "edit hook: 401 Bad credentials")
        (.errorResponse 401 (ascii "401 Bad credentials")))
      = (true, [.clearUserToken 42,
          .answer (ascii "GitHub auth error. Token revoked or expired.") true]) := by
  decide

/-! ## The reply handlers -/

theorem Approve_miss (up : Update) (sv : Services)
    (ContextCache : Cache GoString MessageContext) (now : Time) (m : Int)
    (hreply : up.replyTo = some m)
    (hmiss : (ContextCache.Get now (github.contextKey up.chatID m)).1 = (default, false)) :
    Approve up sv ContextCache now
      = ([.reply (ascii "Context not found. The message might be too old.")],
          (ContextCache.Get now (github.contextKey up.chatID m)).2) := by
  simp only [Approve, hreply]
  rcases hg : ContextCache.Get now (github.contextKey up.chatID m) with ⟨⟨v, b⟩, c⟩
  rw [hg] at hmiss
  cases hmiss
  rfl

theorem handleIssueAction_miss (up : Update) (sv : Services)
    (ContextCache : Cache GoString MessageContext) (now : Time) (state : GoString) (m : Int)
    (hreply : up.replyTo = some m)
    (hmiss : (ContextCache.Get now (github.contextKey up.chatID m)).1 = (default, false)) :
    handleIssueAction up sv ContextCache now state
      = ([.reply (ascii "Context not found. The message might be too old.")],
          (ContextCache.Get now (github.contextKey up.chatID m)).2) := by
  simp only [handleIssueAction, hreply]
  rcases hg : ContextCache.Get now (github.contextKey up.chatID m) with ⟨⟨v, b⟩, c⟩
  rw [hg] at hmiss
  cases hmiss
  rfl

theorem HandleReply_miss (up : Update) (sv : Services)
    (ContextCache : Cache GoString MessageContext) (now : Time) (m : Int)
    (hreply : up.replyTo = some m)
    (hmiss : (ContextCache.Get now (github.contextKey up.chatID m)).1 = (default, false)) :
    HandleReply up sv ContextCache now
      = ([], (ContextCache.Get now (github.contextKey up.chatID m)).2) := by
  simp only [HandleReply, hreply]
  rcases hg : ContextCache.Get now (github.contextKey up.chatID m) with ⟨⟨v, b⟩, c⟩
  rw [hg] at hmiss
  cases hmiss
  rfl

/-- C23, as the code has it: when the message replied to has no entry in the
message-context table, or an entry that has expired, `/approve`, `/close` and
`/reopen` make one call, the reply "Context not found. The message might be
too old.", and no call to the GitHub client; the handler of a free-text reply
makes no call at all, neither to the GitHub client nor to the user. -/
theorem C23_expired_reply_context (up : Update) (sv : Services)
    (ContextCache : Cache GoString MessageContext) (now : Time) (m : Int)
    (hreply : up.replyTo = some m)
    (hmiss : ContextCache.items.Load (github.contextKey up.chatID m) = none ∨
      ∃ itm, ContextCache.items.Load (github.contextKey up.chatID m) = some itm ∧
        itm.expiration < now) :
    (Approve up sv ContextCache now).1
      = [.reply (ascii "Context not found. The message might be too old.")] ∧
    (Close up sv ContextCache now).1
      = [.reply (ascii "Context not found. The message might be too old.")] ∧
    (Reopen up sv ContextCache now).1
      = [.reply (ascii "Context not found. The message might be too old.")] ∧
    (HandleReply up sv ContextCache now).1 = [] ∧
    (Call.reply (ascii "Context not found. The message might be too old.")).isGitHub
      = false := by
  have hm := (callbacks.Get_miss_of_absent_or_expired ContextCache now _ hmiss).1
  refine ⟨?_, ?_, ?_, ?_, rfl⟩
  · rw [Approve_miss up sv ContextCache now m hreply hm]
  · rw [Close, handleIssueAction_miss up sv ContextCache now _ m hreply hm]
  · rw [Reopen, handleIssueAction_miss up sv ContextCache now _ m hreply hm]
  · rw [HandleReply_miss up sv ContextCache now m hreply hm]

/-- C23 on a reply to message 5 with an empty message-context table. -/
theorem C23_expired_reply_context_witness :
    demoUpdate.replyTo = some 5 ∧
    (Cache.New : Cache GoString MessageContext).items.Load
      (github.contextKey demoUpdate.chatID 5) = none ∧
    (Approve demoUpdate demoServices Cache.New 0).1
      = [.reply (ascii "Context not found. The message might be too old.")] ∧
    (Close demoUpdate demoServices Cache.New 0).1
      = [.reply (ascii "Context not found. The message might be too old.")] :=
  ⟨rfl, rfl,
    (C23_expired_reply_context demoUpdate demoServices Cache.New 0 5 rfl (Or.inl rfl)).1,
    (C23_expired_reply_context demoUpdate demoServices Cache.New 0 5 rfl (Or.inl rfl)).2.1⟩

/-- C23 as stated fails for the free-text reply: with no entry for the
message replied to, `HandleReply` returns without any call, so the user is
sent nothing. -/
theorem C23_free_text_reply_silent :
    demoUpdate.replyTo = some 5 ∧
    HandleReply demoUpdate demoServices Cache.New 0 = ([], Cache.New) := by
  decide

end commands

namespace github

open utils cache models

/-! ## The rename of a repository and the formatters that shorten a SHA -/

theorem renameEffects_zero (event : WebhookEvent) (chatID : Int) :
    renameEffects event chatID 0 = [] := by
  cases event <;> simp [renameEffects]

theorem processEvent_hookID (co : Collaborators) (ContextCache : Cache GoString MessageContext)
    (now : Time) (event : WebhookEvent) (chatID hookID : Int) :
    (processEvent co ContextCache now event chatID hookID).effects
      = renameEffects event chatID hookID
        ++ (processEvent co ContextCache now event chatID 0).effects ∧
    (processEvent co ContextCache now event chatID hookID).ContextCache
      = (processEvent co ContextCache now event chatID 0).ContextCache ∧
    (processEvent co ContextCache now event chatID hookID).panicked
      = (processEvent co ContextCache now event chatID 0).panicked := by
  simp only [processEvent, renameEffects_zero]
  rcases formatMessage co event with ⟨msg, markup⟩ | _
  · by_cases hmsg : msg = []
    · simp [hmsg]
    · simp only [hmsg, if_false]
      cases co.SendMessage chatID (co.normalizeMessage msg) markup <;> simp
  · simp

theorem processEvent_sends (co : Collaborators) (ContextCache : Cache GoString MessageContext)
    (now : Time) (event : WebhookEvent) (chatID hookID : Int) (msg : GoString)
    (markup : Option InlineKeyboardMarkup)
    (hfmt : formatMessage co event = .returned (msg, markup)) (hmsg : msg ≠ []) :
    (processEvent co ContextCache now event chatID hookID).effects
      = renameEffects event chatID hookID
        ++ [.sendMessage chatID (co.normalizeMessage msg) markup] := by
  simp only [processEvent, hfmt, hmsg, if_false]
  cases co.SendMessage chatID (co.normalizeMessage msg) markup <;> rfl

/-- C25, as the code has it: for a repository event with action "renamed", a
non-empty new full name and a non-zero hook id, `processEvent` first calls
`UpdateRepoLinkName` for the chat id, the hook id and the new name, and then
goes on as for every event: it hands the event to the formatter
(`FormatRepositoryEvent`) and, when the text is not empty, sends it to the
chat. For every event that is not such a rename there is no call to the store.
In both cases what is formatted, sent and recorded is what it would be with
hook id 0, where no rename is done. -/
theorem C25_rename_dispatch (co : Collaborators)
    (ContextCache : Cache GoString MessageContext) (now : Time) (event : WebhookEvent)
    (chatID hookID : Int) :
    (∀ e, event = .repository e → e.Action = ascii "renamed" → e.RepoFullName ≠ [] →
      hookID ≠ 0 →
      formatMessage co event = .returned (FormatRepositoryEvent co.md e) ∧
      (processEvent co ContextCache now event chatID hookID).effects
        = .updateRepoLinkName chatID hookID e.RepoFullName
          :: (processEvent co ContextCache now event chatID 0).effects ∧
      ((FormatRepositoryEvent co.md e).1 ≠ [] →
        (processEvent co ContextCache now event chatID hookID).effects
          = [.updateRepoLinkName chatID hookID e.RepoFullName,
              .sendMessage chatID (co.normalizeMessage (FormatRepositoryEvent co.md e).1)
                (FormatRepositoryEvent co.md e).2])) ∧
    ((¬ ∃ e, event = .repository e ∧ e.Action = ascii "renamed" ∧ e.RepoFullName ≠ [] ∧
        hookID ≠ 0) →
      (processEvent co ContextCache now event chatID hookID).effects
        = (processEvent co ContextCache now event chatID 0).effects ∧
      ∀ c h n, Effect.updateRepoLinkName c h n
        ∉ (processEvent co ContextCache now event chatID hookID).effects) ∧
    (processEvent co ContextCache now event chatID hookID).ContextCache
      = (processEvent co ContextCache now event chatID 0).ContextCache := by
  have hH := processEvent_hookID co ContextCache now event chatID hookID
  refine ⟨?_, ?_, hH.2.1⟩
  · intro e he ha hn hh
    subst he
    have hr : renameEffects (.repository e) chatID hookID
        = [.updateRepoLinkName chatID hookID e.RepoFullName] := by
      simp [renameEffects, ha, hn, hh]
    refine ⟨rfl, ?_, ?_⟩
    · rw [hH.1, hr]
      rfl
    · intro hne
      rw [processEvent_sends co ContextCache now (.repository e) chatID hookID
        (FormatRepositoryEvent co.md e).1 (FormatRepositoryEvent co.md e).2 rfl hne, hr]
      rfl
  · intro hnot
    have hr : renameEffects event chatID hookID = [] := by
      cases event with
      | repository e =>
        simp only [renameEffects]
        rw [if_neg]
        intro hc
        exact hnot ⟨e, rfl, hc.1, hc.2.1, hc.2.2⟩
      | _ => rfl
    have heq : (processEvent co ContextCache now event chatID hookID).effects
        = (processEvent co ContextCache now event chatID 0).effects := by
      rw [hH.1, hr]
      rfl
    refine ⟨heq, ?_⟩
    intro c h n hmem
    rw [heq] at hmem
    simp only [processEvent, renameEffects_zero] at hmem
    rcases hf : formatMessage co event with ⟨msg, markup⟩ | _
    · rw [hf] at hmem
      by_cases hmsg : msg = []
      · simp [hmsg] at hmem
      · simp only [hmsg, if_false] at hmem
        cases hsend : co.SendMessage chatID (co.normalizeMessage msg) markup <;>
          rw [hsend] at hmem <;> simp at hmem
    · rw [hf] at hmem
      simp at hmem

end github

namespace github

open utils cache models

/-- C25 on the rename of "o/old" to "o/new" received on hook 5 of chat 7. -/
theorem C25_rename_dispatch_witness :
    demoRenameEvent.Action = ascii "renamed" ∧ demoRenameEvent.RepoFullName ≠ [] ∧
    (5 : Int) ≠ 0 ∧
    (processEvent demoCollaborators Cache.New 0 (.repository demoRenameEvent) 7 5).effects
      = .updateRepoLinkName 7 5 (ascii "o/new")
        :: (processEvent demoCollaborators Cache.New 0 (.repository demoRenameEvent)
            7 0).effects :=
  ⟨rfl, by decide, by decide,
    ((C25_rename_dispatch demoCollaborators Cache.New 0 (.repository demoRenameEvent) 7 5).1
      demoRenameEvent rfl rfl (by decide) (by decide)).2.1⟩

/-- C25 as stated fails: on the rename of "o/old" to "o/new" `processEvent`
updates the stored name and also sends the text of `FormatRepositoryEvent` to
the chat. -/
theorem C25_rename_is_also_sent :
    (processEvent demoCollaborators Cache.New 0 (.repository demoRenameEvent) 7 5).effects
      = [.updateRepoLinkName 7 5 (ascii "o/new"),
          .sendMessage 7
            (utf8 "🔄 o/new renamed to new\n\n👤 *By:* octocat")
            (some { buttons := [(ascii "View Repository",
              ascii "https://github.com/o/new")] })] := by
  decide

theorem sliceTo_none_iff (s : List Byte) (n : Nat) : sliceTo s n = none ↔ s.length < n := by
  unfold sliceTo
  split_ifs with h
  · simp only [reduceCtorEq, false_iff, not_lt]
    exact h
  · simp only [true_iff]
    omega

theorem FormatCommitCommentEvent_panicked_iff (md : MarkdownUtils) (e : CommitCommentEvent) :
    FormatCommitCommentEvent md e = .panicked ↔ e.CommentCommitID.length < 7 := by
  rw [← sliceTo_none_iff]
  cases h : sliceTo e.CommentCommitID 7 with
  | none => simp [FormatCommitCommentEvent, h]
  | some short => simp [FormatCommitCommentEvent, h]

theorem FormatStatusEvent_panicked_iff (md : MarkdownUtils) (Title : GoString → GoString)
    (e : StatusEvent) : FormatStatusEvent md Title e = .panicked ↔ e.CommitSHA.length < 7 := by
  rw [← sliceTo_none_iff]
  cases h : sliceTo e.CommitSHA 7 with
  | none => simp [FormatStatusEvent, h]
  | some short => simp [FormatStatusEvent, h]

theorem processEvent_panicked (co : Collaborators)
    (ContextCache : Cache GoString MessageContext) (now : Time) (event : WebhookEvent)
    (chatID hookID : Int) (h : formatMessage co event = .panicked) :
    (processEvent co ContextCache now event chatID hookID).panicked = true ∧
    (processEvent co ContextCache now event chatID hookID).ContextCache = ContextCache := by
  simp only [processEvent, h, and_self]

theorem commitLines_some (md : MarkdownUtils) (repoURL : GoString)
    (commits : List (Option HeadCommit)) (h : ∀ c ∈ commits, c ≠ none) :
    ∀ msg, ∃ full, commitLines md repoURL commits msg = some full := by
  induction commits with
  | nil => intro msg; exact ⟨msg, rfl⟩
  | cons c rest ih =>
    intro msg
    cases c with
    | none => exact absurd rfl (h none (List.mem_cons_self _ _))
    | some commit =>
      simp only [commitLines, commitLine]
      exact ih (fun c hc => h c (List.mem_cons_of_mem _ hc)) _

theorem FormatPushEvent_no_panic (md : MarkdownUtils) (e : PushEvent)
    (h : ∀ c ∈ pushCommits e, c ≠ none) : FormatPushEvent md e ≠ .panicked := by
  unfold FormatPushEvent
  simp only
  by_cases h0 : (pushCommits e).length = 0
  · simp [h0]
  · rw [if_neg h0]
    split
    · rename_i hnone
      obtain ⟨full, hfull⟩ := commitLines_some md e.RepoHTMLURL (pushCommits e) h _
      rw [hfull] at hnone
      cases hnone
    · by_cases h1 : (pushCommits e).length = 1
      · rw [if_pos h1]
        cases hh : (pushCommits e).head? with
        | none =>
          rw [List.head?_eq_none_iff] at hh
          rw [hh] at h0
          simp at h0
        | some first => simp
      · rw [if_neg h1]
        simp

/-- C30: `FormatCommitCommentEvent` panics exactly when the commit id of the
comment has fewer than 7 bytes, and `FormatStatusEvent` exactly when the SHA
of the commit has fewer than 7 bytes: both take `[:7]` of it without a test of
its length. `formatMessage` and `processEvent` panic with them, before
anything is sent. `FormatPushEvent` tests the length first and puts a SHA of
at most 7 bytes into the line as it is; it does not panic on a push whose
commits are not nil. -/
theorem C30_sha_shortening (co : Collaborators)
    (ContextCache : Cache GoString MessageContext) (now : Time) (chatID hookID : Int) :
    (∀ e : CommitCommentEvent,
      (formatMessage co (.commitComment e) = .panicked ↔ e.CommentCommitID.length < 7) ∧
      (e.CommentCommitID.length < 7 →
        (processEvent co ContextCache now (.commitComment e) chatID hookID).panicked
          = true)) ∧
    (∀ e : StatusEvent,
      (formatMessage co (.status e) = .panicked ↔ e.CommitSHA.length < 7) ∧
      (e.CommitSHA.length < 7 →
        (processEvent co ContextCache now (.status e) chatID hookID).panicked = true)) ∧
    (∀ e : PushEvent, (∀ c ∈ pushCommits e, c ≠ none) →
      formatMessage co (.push e) ≠ .panicked) ∧
    (∀ (repoURL : GoString) (c : HeadCommit), c.ID.length ≤ 7 →
      commitLine co.md repoURL (some c)
        = some (ascii "\\- [" ++ co.md.EscapeMarkdownV2 c.ID ++ ascii "]("
          ++ co.md.EscapeMarkdownV2URL (repoURL ++ ascii "/commit/" ++ c.ID) ++ ascii "): "
          ++ co.md.FormatTextWithMarkdown c.Message ++ ascii " by "
          ++ (if c.AuthorLogin ≠ [] then co.md.FormatUser c.AuthorLogin
              else co.md.EscapeMarkdownV2 c.AuthorName) ++ ascii "\n")) := by
  refine ⟨?_, ?_, ?_, ?_⟩
  · intro e
    have h : formatMessage co (.commitComment e) = .panicked ↔ e.CommentCommitID.length < 7 :=
      FormatCommitCommentEvent_panicked_iff co.md e
    exact ⟨h, fun hl => (processEvent_panicked co ContextCache now (.commitComment e)
      chatID hookID (h.2 hl)).1⟩
  · intro e
    have h : formatMessage co (.status e) = .panicked ↔ e.CommitSHA.length < 7 :=
      FormatStatusEvent_panicked_iff co.md co.Title e
    exact ⟨h, fun hl => (processEvent_panicked co ContextCache now (.status e)
      chatID hookID (h.2 hl)).1⟩
  · intro e h
    exact FormatPushEvent_no_panic co.md e h
  · intro repoURL c hc
    have h7 : ¬ c.ID.length > 7 := by omega
    simp only [commitLine, h7, if_false]

/-- C30 at the failing inputs: a commit-comment event and a status event
without a commit id (the body "{}") make `processEvent` panic before anything
is sent. -/
theorem C30_sha_shortening_witness :
    emptyCommitCommentEvent.CommentCommitID.length < 7 ∧
    formatMessage demoCollaborators (.commitComment emptyCommitCommentEvent) = .panicked ∧
    (processEvent demoCollaborators Cache.New 0 (.commitComment emptyCommitCommentEvent)
      7 5).panicked = true ∧
    (processEvent demoCollaborators Cache.New 0 (.status emptyStatusEvent) 7 5).panicked
      = true ∧
    (processEvent demoCollaborators Cache.New 0 (.status emptyStatusEvent) 7 5).effects
      = [] :=
  ⟨by decide,
    ((C30_sha_shortening demoCollaborators Cache.New 0 7 5).1 emptyCommitCommentEvent).1.2
      (by decide),
    ((C30_sha_shortening demoCollaborators Cache.New 0 7 5).1 emptyCommitCommentEvent).2
      (by decide),
    ((C30_sha_shortening demoCollaborators Cache.New 0 7 5).2.1 emptyStatusEvent).2
      (by decide),
    by decide⟩

end github

namespace callbacks

open utils cache models bot

/-! ## The toggle of an event -/

theorem currentEventsLoop_eq (l acc : List GoString) :
    currentEventsLoop l acc
      = (acc ++ l.takeWhile (fun e => decide (e ≠ ascii "*")), decide (ascii "*" ∈ l)) := by
  induction l generalizing acc with
  | nil => simp [currentEventsLoop]
  | cons e rest ih =>
    by_cases he : e = ascii "*"
    · simp [currentEventsLoop, he]
    · have he' : ¬ ascii "*" = e := fun h => he h.symm
      rw [currentEventsLoop, if_neg he, ih]
      simp [he, he', List.takeWhile_cons]

theorem newEventsLoop_eq (evt : GoString) (l acc : List GoString) (found : Bool) :
    newEventsLoop evt l acc found
      = (acc ++ l.filter (fun e => decide (e ≠ evt)), found || decide (evt ∈ l)) := by
  induction l generalizing acc found with
  | nil => simp [newEventsLoop]
  | cons e rest ih =>
    by_cases he : e = evt
    · rw [newEventsLoop, if_pos he, ih]
      simp [he]
    · have he' : ¬ evt = e := fun h => he h.symm
      rw [newEventsLoop, if_neg he, ih]
      simp [he, he', List.filter_cons]

theorem currentEvents_eq (hookEvents : List GoString) :
    currentEvents hookEvents =
      if ascii "*" ∈ hookEvents then
        hookEvents.takeWhile (fun e => decide (e ≠ ascii "*"))
          ++ github.SupportedEvents.map github.Event.Name
      else hookEvents := by
  unfold currentEvents
  rw [currentEventsLoop_eq]
  by_cases h : ascii "*" ∈ hookEvents
  · simp [h]
  · simp only [h, decide_False, List.nil_append, if_false]
    rw [List.takeWhile_eq_self_iff.2]
    intro e he
    simp only [ne_eq, decide_not, Bool.not_eq_eq_eq_not, Bool.not_true, decide_eq_false_iff_not]
    intro hs
    exact h (hs ▸ he)

theorem star_not_mem_currentEvents (hookEvents : List GoString) :
    ascii "*" ∉ currentEvents hookEvents := by
  rw [currentEvents_eq]
  by_cases h : ascii "*" ∈ hookEvents
  · rw [if_pos h]
    intro hm
    rcases List.mem_append.1 hm with hm | hm
    · have := List.mem_takeWhile_imp hm
      simp at this
    · revert hm
      decide
  · rw [if_neg h]
    exact h

theorem toggledEvents_eq (hookEvents : List GoString) (evt : GoString) :
    toggledEvents hookEvents evt =
      if evt ∈ currentEvents hookEvents then
        (currentEvents hookEvents).filter (fun e => decide (e ≠ evt))
      else currentEvents hookEvents ++ [evt] := by
  unfold toggledEvents
  rw [newEventsLoop_eq]
  by_cases h : evt ∈ currentEvents hookEvents
  · simp [h]
  · simp only [h, decide_False, Bool.or_false, List.nil_append, if_false]
    rw [List.filter_eq_self.2]
    intro e he
    simp only [ne_eq, decide_not, Bool.not_eq_eq_eq_not, Bool.not_true, decide_eq_false_iff_not]
    intro hs
    exact h (hs ▸ he)

theorem mem_toggledEvents (hookEvents : List GoString) (evt e : GoString) :
    e ∈ toggledEvents hookEvents evt ↔
      (e = evt ∧ evt ∉ currentEvents hookEvents) ∨
      (e ≠ evt ∧ e ∈ currentEvents hookEvents) := by
  rw [toggledEvents_eq]
  by_cases h : evt ∈ currentEvents hookEvents
  · rw [if_pos h]
    simp only [List.mem_filter, ne_eq, decide_not, Bool.not_eq_eq_eq_not, Bool.not_true,
      decide_eq_false_iff_not]
    constructor
    · rintro ⟨h1, h2⟩
      exact Or.inr ⟨h2, h1⟩
    · rintro (⟨_, h2⟩ | ⟨h1, h2⟩)
      · exact absurd h h2
      · exact ⟨h2, h1⟩
  · rw [if_neg h]
    simp only [List.mem_append, List.mem_singleton]
    constructor
    · rintro (h1 | h1)
      · exact Or.inr ⟨fun he => h (he ▸ h1), h1⟩
      · exact Or.inl ⟨h1, h⟩
    · rintro (⟨h1, _⟩ | ⟨_, h2⟩)
      · exact Or.inr h1
      · exact Or.inl h2

theorem currentEvents_toggledEvents (hookEvents : List GoString) (evt : GoString)
    (hevt : evt ≠ ascii "*") :
    currentEvents (toggledEvents hookEvents evt) = toggledEvents hookEvents evt := by
  rw [currentEvents_eq (toggledEvents hookEvents evt), if_neg]
  intro hm
  rcases (mem_toggledEvents hookEvents evt _).1 hm with ⟨h1, _⟩ | ⟨_, h2⟩
  · exact hevt h1.symm
  · exact star_not_mem_currentEvents hookEvents h2

/-- C28, as the code has it: the list `currentEvents` that the branch `te`
works on is the events of the hook when none is "*", and otherwise the events
before the first "*" followed by the names of all supported events (the
events after the first "*" are dropped); it never holds "*". The list written
back holds the toggled event exactly when `currentEvents` did not hold it,
exactly once when it was added, and holds every other event exactly when
`currentEvents` held it. Toggling the same event twice gives the events of
`currentEvents` again, provided the event is not "*". A short code that is not
in the alias table is the event name as it is; the short code of a supported
event gives its name. -/
theorem C28_toggle_semantics (hookEvents : List GoString) (evt : GoString) :
    (ascii "*" ∉ hookEvents → currentEvents hookEvents = hookEvents) ∧
    (ascii "*" ∈ hookEvents →
      currentEvents hookEvents
        = hookEvents.takeWhile (fun e => decide (e ≠ ascii "*"))
          ++ github.SupportedEvents.map github.Event.Name) ∧
    ascii "*" ∉ currentEvents hookEvents ∧
    (evt ∈ toggledEvents hookEvents evt ↔ evt ∉ currentEvents hookEvents) ∧
    (evt ∉ currentEvents hookEvents → (toggledEvents hookEvents evt).count evt = 1) ∧
    (∀ e, e ≠ evt → (e ∈ toggledEvents hookEvents evt ↔ e ∈ currentEvents hookEvents)) ∧
    (evt ≠ ascii "*" →
      ∀ e, e ∈ toggledEvents (toggledEvents hookEvents evt) evt
        ↔ e ∈ currentEvents hookEvents) ∧
    (∀ shortEvt, shortToEvent.lookup shortEvt = none → eventOfShort shortEvt = shortEvt) ∧
    (∀ e ∈ github.SupportedEvents, eventOfShort e.Short = e.Name) := by
  refine ⟨?_, ?_, star_not_mem_currentEvents hookEvents, ?_, ?_, ?_, ?_, ?_, ?_⟩
  · intro h
    rw [currentEvents_eq, if_neg h]
  · intro h
    rw [currentEvents_eq, if_pos h]
  · rw [mem_toggledEvents]
    constructor
    · rintro (⟨_, h⟩ | ⟨h, _⟩)
      · exact h
      · exact absurd rfl h
    · intro h
      exact Or.inl ⟨rfl, h⟩
  · intro h
    rw [toggledEvents_eq, if_neg h, List.count_append, List.count_eq_zero_of_not_mem h]
    simp
  · intro e he
    rw [mem_toggledEvents]
    constructor
    · rintro (⟨h, _⟩ | ⟨_, h⟩)
      · exact absurd h he
      · exact h
    · intro h
      exact Or.inr ⟨he, h⟩
  · intro hevt e
    have h1 := mem_toggledEvents (toggledEvents hookEvents evt) evt e
    rw [currentEvents_toggledEvents hookEvents evt hevt] at h1
    rw [h1]
    by_cases he : e = evt
    · subst he
      rw [mem_toggledEvents]
      by_cases hc : e ∈ currentEvents hookEvents <;> simp [hc]
    · have h2 := mem_toggledEvents hookEvents evt e
      simp only [he, false_and, false_or, ne_eq, not_false_eq_true, true_and] at h2 ⊢
      exact h2
  · intro shortEvt h
    simp only [eventOfShort, h]
  · intro e he
    simp only [eventOfShort, (SupportedEvents_shorts e he).2.1]

/-- C28 on a hook with the events push and issues: toggling issues removes
it, toggling it again brings it back, and toggling the unknown event release
adds it once. -/
theorem C28_toggle_semantics_witness :
    ascii "issues" ≠ ascii "*" ∧
    toggledEvents [ascii "push", ascii "issues"] (ascii "issues") = [ascii "push"] ∧
    toggledEvents [ascii "push"] (ascii "issues") = [ascii "push", ascii "issues"] ∧
    (∀ e, e ∈ toggledEvents (toggledEvents [ascii "push", ascii "issues"] (ascii "issues"))
        (ascii "issues") ↔ e ∈ currentEvents [ascii "push", ascii "issues"]) ∧
    (toggledEvents [ascii "push"] (ascii "release")).count (ascii "release") = 1 :=
  ⟨by decide, by decide, by decide,
    (C28_toggle_semantics [ascii "push", ascii "issues"] (ascii "issues")).2.2.2.2.2.2.1
      (by decide),
    (C28_toggle_semantics [ascii "push"] (ascii "release")).2.2.2.2.1 (by decide)⟩

/-- C28 as stated fails in two places. The short code "*" is not in the alias
table and is used as the event name: toggling it twice on a hook with the one
event push leaves a list that holds issues, which the hook did not have. And
on a hook with the events "*" and release the list worked on, and so the list
written back after toggling push, does not hold release. -/
theorem C28_star_toggle_not_restored :
    shortToEvent.lookup (ascii "*") = none ∧ eventOfShort (ascii "*") = ascii "*" ∧
    currentEvents [ascii "push"] = [ascii "push"] ∧
    ascii "issues" ∈ toggledEvents (toggledEvents [ascii "push"] (ascii "*")) (ascii "*") ∧
    ascii "issues" ∉ currentEvents [ascii "push"] ∧
    ascii "release" ∉ currentEvents [ascii "*", ascii "release"] ∧
    ascii "release" ∉ toggledEvents [ascii "*", ascii "release"] (ascii "push") := by
  decide

end callbacks

/-! # Properties of normalizeMessage -/

namespace strings

open utils

theorem IsSpace_RuneError : IsSpace RuneError = false := by decide

theorem DecodeRuneInString_ascii (b : Byte) (rest : GoString) (h : b.val < 128) :
    DecodeRuneInString (b :: rest) = (b.val, 1) := by
  simp only [DecodeRuneInString, h, if_true]

theorem DecodeLastRuneInString_ascii (s : GoString) (hs : s ≠ [])
    (h : (s.getD (s.length - 1) 0).val < 128) :
    DecodeLastRuneInString s = ((s.getD (s.length - 1) 0).val, 1) := by
  simp only [DecodeLastRuneInString, hs, h, if_true, if_false]

theorem leadInfo_size (b sz lo hi : Nat) (h : leadInfo b = some (sz, lo, hi)) :
    sz = 2 ∨ sz = 3 ∨ sz = 4 := by
  unfold leadInfo at h
  split_ifs at h <;> simp only [Option.some.injEq, Prod.mk.injEq, reduceCtorEq] at h <;> omega

theorem decodeMultiByte_size (s : GoString) (s0 sz lo hi : Nat) :
    1 ≤ (decodeMultiByte s s0 sz lo hi).2 ∧ (decodeMultiByte s s0 sz lo hi).2 ≤ 4 := by
  unfold decodeMultiByte
  split_ifs <;> simp

theorem DecodeRuneInString_size (s : GoString) (hs : s ≠ []) :
    1 ≤ (DecodeRuneInString s).2 ∧ (DecodeRuneInString s).2 ≤ 4 := by
  cases s with
  | nil => exact absurd rfl hs
  | cons s0 t =>
    unfold DecodeRuneInString
    simp only
    by_cases h0 : s0.val < 128
    · simp [h0]
    · rw [if_neg h0]
      cases hl : leadInfo s0.val with
      | none => simp
      | some x =>
        obtain ⟨sz, lo, hi⟩ := x
        exact decodeMultiByte_size _ _ _ _ _

theorem decodeMultiByte_append (p u : GoString) (s0 sz lo hi : Nat)
    (hsz : sz = 2 ∨ sz = 3 ∨ sz = 4) (hlen : sz ≤ p.length) :
    decodeMultiByte (p ++ u) s0 sz lo hi = decodeMultiByte p s0 sz lo hi := by
  have hl1 : ¬ (p ++ u).length < sz := by
    rw [List.length_append]; omega
  have hl2 : ¬ p.length < sz := by omega
  have h1 : (p ++ u).getD 1 0 = p.getD 1 0 := List.getD_append _ _ _ _ (by omega)
  unfold decodeMultiByte
  rw [if_neg hl1, if_neg hl2, h1]
  rcases hsz with h | h | h
  · subst h
    simp
  · subst h
    have h2 : (p ++ u).getD 2 0 = p.getD 2 0 := List.getD_append _ _ _ _ (by omega)
    rw [h2]
    simp
  · subst h
    have h2 : (p ++ u).getD 2 0 = p.getD 2 0 := List.getD_append _ _ _ _ (by omega)
    have h3 : (p ++ u).getD 3 0 = p.getD 3 0 := List.getD_append _ _ _ _ (by omega)
    rw [h2, h3]

theorem DecodeRuneInString_append (p u : GoString)
    (hsp : IsSpace (DecodeRuneInString p).1 = true) :
    DecodeRuneInString (p ++ u) = DecodeRuneInString p := by
  cases p with
  | nil =>
    simp only [DecodeRuneInString, IsSpace_RuneError] at hsp
    cases hsp
  | cons s0 t =>
    simp only [List.cons_append, DecodeRuneInString] at hsp ⊢
    by_cases h0 : s0.val < 128
    · simp only [h0, if_true]
    · simp only [h0, if_false] at hsp ⊢
      cases hl : leadInfo s0.val with
      | none => rfl
      | some x =>
        obtain ⟨sz, lo, hi⟩ := x
        simp only [hl] at hsp ⊢
        by_cases hlen : sz ≤ (s0 :: t).length
        · exact decodeMultiByte_append (s0 :: t) u _ sz lo hi
            (leadInfo_size _ _ _ _ hl) hlen
        · have : decodeMultiByte (s0 :: t) s0.val sz lo hi = (RuneError, 1) := by
            unfold decodeMultiByte
            rw [if_pos (by omega)]
          rw [this, IsSpace_RuneError] at hsp
          cases hsp

theorem DecodeLastRuneInString_size (s : GoString) (hs : s ≠ []) :
    1 ≤ (DecodeLastRuneInString s).2 := by
  unfold DecodeLastRuneInString
  rw [if_neg hs]
  split_ifs with h1 h2
  · simp
  · simp
  · have hlen : 1 ≤ s.length := List.length_pos.2 hs
    have hstart : lastRuneStart s < s.length := by
      unfold lastRuneStart
      split_ifs <;> omega
    have hne : s.drop (lastRuneStart s) ≠ [] := by
      intro hd
      have := congrArg List.length hd
      simp only [List.length_drop, List.length_nil] at this
      omega
    exact (DecodeRuneInString_size _ hne).1

/-! ## The trimming loops -/

theorem trimLeftSpaceLoop_suffix : ∀ (n : Nat) (s : GoString),
    trimLeftSpaceLoop n s <:+ s := by
  intro n
  induction n with
  | zero => intro s; exact List.suffix_refl s
  | succ n ih =>
    intro s
    unfold trimLeftSpaceLoop
    split_ifs with h1 h2
    · exact List.nil_suffix
    · exact (ih _).trans (List.drop_suffix _ s)
    · exact List.suffix_refl s

theorem trimLeftSpaceLoop_head : ∀ (n : Nat) (s : GoString), s.length ≤ n →
    trimLeftSpaceLoop n s = [] ∨
      IsSpace (DecodeRuneInString (trimLeftSpaceLoop n s)).1 = false := by
  intro n
  induction n with
  | zero =>
    intro s hs
    left
    have : s = [] := List.length_eq_zero.1 (by omega)
    rw [this]
    rfl
  | succ n ih =>
    intro s hs
    unfold trimLeftSpaceLoop
    split_ifs with h1 h2
    · exact Or.inl rfl
    · apply ih
      have := (DecodeRuneInString_size s h1).1
      rw [List.length_drop]
      omega
    · right
      simpa using h2

theorem trimLeftSpaceLoop_id (n : Nat) (s : GoString)
    (h : IsSpace (DecodeRuneInString s).1 = false) : trimLeftSpaceLoop n s = s := by
  cases n with
  | zero => rfl
  | succ n =>
    unfold trimLeftSpaceLoop
    split_ifs with h1 h2
    · exact h1.symm
    · rw [h] at h2
      cases h2
    · rfl

theorem trimRightSpaceLoop_initial : ∀ (n : Nat) (s : GoString),
    trimRightSpaceLoop n s <+: s := by
  intro n
  induction n with
  | zero => intro s; exact List.prefix_refl s
  | succ n ih =>
    intro s
    unfold trimRightSpaceLoop
    split_ifs with h1 h2
    · exact List.nil_prefix
    · exact (ih _).trans <| List.take_prefix _ s
    · exact List.prefix_refl s

theorem trimRightSpaceLoop_last : ∀ (n : Nat) (s : GoString), s.length ≤ n →
    trimRightSpaceLoop n s = [] ∨
      IsSpace (DecodeLastRuneInString (trimRightSpaceLoop n s)).1 = false := by
  intro n
  induction n with
  | zero =>
    intro s hs
    left
    have : s = [] := List.length_eq_zero.1 (by omega)
    rw [this]
    rfl
  | succ n ih =>
    intro s hs
    unfold trimRightSpaceLoop
    split_ifs with h1 h2
    · exact Or.inl rfl
    · apply ih
      have := DecodeLastRuneInString_size s h1
      have hlen : 1 ≤ s.length := List.length_pos.2 h1
      rw [List.length_take]
      omega
    · right
      simpa using h2

theorem trimRightSpaceLoop_id (n : Nat) (s : GoString)
    (h : IsSpace (DecodeLastRuneInString s).1 = false) : trimRightSpaceLoop n s = s := by
  cases n with
  | zero => rfl
  | succ n =>
    unfold trimRightSpaceLoop
    split_ifs with h1 h2
    · exact h1.symm
    · rw [h] at h2
      cases h2
    · rfl

end strings

namespace strings

open utils

theorem TrimSpace_slice (s : GoString) : ∃ pre suf, s = pre ++ TrimSpace s ++ suf := by
  obtain ⟨pre, hpre⟩ := trimLeftSpaceLoop_suffix s.length s
  obtain ⟨suf, hsuf⟩ := trimRightSpaceLoop_initial s.length (trimLeftSpaceLoop s.length s)
  refine ⟨pre, suf, ?_⟩
  unfold TrimSpace
  rw [List.append_assoc, hsuf, hpre]

theorem TrimSpace_ends (s : GoString) :
    TrimSpace s = [] ∨
      (IsSpace (DecodeRuneInString (TrimSpace s)).1 = false ∧
        IsSpace (DecodeLastRuneInString (TrimSpace s)).1 = false) := by
  have hlen : (trimLeftSpaceLoop s.length s).length ≤ s.length :=
    (trimLeftSpaceLoop_suffix s.length s).length_le
  rcases trimRightSpaceLoop_last s.length _ hlen with h | h
  · exact Or.inl h
  · by_cases hT : TrimSpace s = []
    · exact Or.inl hT
    · right
      refine ⟨?_, h⟩
      obtain ⟨suf, hsuf⟩ := trimRightSpaceLoop_initial s.length (trimLeftSpaceLoop s.length s)
      rcases trimLeftSpaceLoop_head s.length s (le_refl _) with hL | hL
      · have : TrimSpace s = [] := by
          unfold TrimSpace
          rw [hL]
          exact List.prefix_nil.1 (trimRightSpaceLoop_initial _ _)
        exact absurd this hT
      · by_contra hsp
        have hsp' : IsSpace (DecodeRuneInString (TrimSpace s)).1 = true := by
          cases hh : IsSpace (DecodeRuneInString (TrimSpace s)).1 with
          | true => rfl
          | false => exact absurd hh hsp
        have := DecodeRuneInString_append (TrimSpace s) suf hsp'
        unfold TrimSpace at this hsp'
        rw [hsuf] at this
        rw [this, hsp'] at hL
        cases hL

theorem TrimSpace_id (x : GoString)
    (h : x = [] ∨ (IsSpace (DecodeRuneInString x).1 = false ∧
      IsSpace (DecodeLastRuneInString x).1 = false)) : TrimSpace x = x := by
  rcases h with h | ⟨h1, h2⟩
  · rw [h]
    rfl
  · unfold TrimSpace
    rw [trimLeftSpaceLoop_id _ _ h1, trimRightSpaceLoop_id _ _ h2]

theorem ascii_space_of_IsSpace (n : Nat) (h : IsSpace n = false) :
    n ≠ 9 ∧ n ≠ 10 ∧ n ≠ 11 ∧ n ≠ 12 ∧ n ≠ 13 ∧ n ≠ 32 := by
  unfold IsSpace at h
  simp only [decide_eq_false_iff_not] at h
  omega

theorem last_byte_of_last_rune (x : GoString) (b : Byte) (hb : x.getLast? = some b)
    (h : IsSpace (DecodeLastRuneInString x).1 = false) :
    b.val ≠ 9 ∧ b.val ≠ 10 ∧ b.val ≠ 11 ∧ b.val ≠ 12 ∧ b.val ≠ 13 ∧ b.val ≠ 32 := by
  have hne : x ≠ [] := by
    intro hx
    rw [hx] at hb
    cases hb
  have hget : x.getD (x.length - 1) 0 = b := by
    rw [List.getLast?_eq_getElem?] at hb
    rw [List.getD_eq_getElem?_getD, hb]
    rfl
  by_cases hlt : b.val < 128
  · rw [DecodeLastRuneInString_ascii x hne (by rw [hget]; exact hlt), hget] at h
    exact ascii_space_of_IsSpace _ h
  · omega

theorem first_byte_of_first_rune (x : GoString) (b : Byte) (hb : x.head? = some b)
    (h : IsSpace (DecodeRuneInString x).1 = false) :
    b.val ≠ 9 ∧ b.val ≠ 10 ∧ b.val ≠ 11 ∧ b.val ≠ 12 ∧ b.val ≠ 13 ∧ b.val ≠ 32 := by
  cases x with
  | nil => cases hb
  | cons c rest =>
    simp only [List.head?_cons, Option.some.injEq] at hb
    subst hb
    by_cases hlt : c.val < 128
    · rw [DecodeRuneInString_ascii c rest hlt] at h
      exact ascii_space_of_IsSpace _ h
    · omega

/-! ## TrimRight and Join -/

theorem dropWhile_concat {α : Type} [DecidableEq α] (p : α → Bool) (l : List α) (c : α) :
    (l ++ [c]).dropWhile p
      = if l.dropWhile p = [] then [c].dropWhile p else l.dropWhile p ++ [c] := by
  induction l with
  | nil => simp
  | cons a l ih =>
    by_cases ha : p a = true
    · rw [List.cons_append, List.dropWhile_cons_of_pos ha, List.dropWhile_cons_of_pos ha]
      exact ih
    · rw [List.cons_append, List.dropWhile_cons_of_neg ha, List.dropWhile_cons_of_neg ha]
      simp

theorem TrimRight_nil (cutset : List Byte) : TrimRight [] cutset = [] := rfl

theorem TrimRight_cons (c : Byte) (s : GoString) (cutset : List Byte) :
    TrimRight (c :: s) cutset
      = if TrimRight s cutset = [] ∧ c ∈ cutset then [] else c :: TrimRight s cutset := by
  unfold TrimRight
  rw [List.reverse_cons, dropWhile_concat]
  by_cases hD : s.reverse.dropWhile (fun b => decide (b ∈ cutset)) = []
  · rw [if_pos hD, hD]
    by_cases hc : c ∈ cutset
    · simp [hc]
    · simp [hc]
  · rw [if_neg hD]
    simp [hD]

theorem TrimRight_initial (s : GoString) (cutset : List Byte) : TrimRight s cutset <+: s := by
  induction s with
  | nil => exact List.prefix_refl _
  | cons c s ih =>
    rw [TrimRight_cons]
    split_ifs
    · exact List.nil_prefix
    · exact (List.prefix_cons_inj c).2 ih

theorem Join_cons (a : GoString) (L : List GoString) (sep : GoString) (hL : L ≠ []) :
    Join (a :: L) sep = a ++ sep ++ Join L sep := by
  cases L with
  | nil => exact absurd rfl hL
  | cons b rest => rfl

end strings

namespace github

open utils strings

theorem newline_eq : ascii "\n" = [(10 : Byte)] := by decide

theorem blanks_eq : ascii " \t" = [(32 : Byte), 9] := by decide

theorem Split_lines_no_sep (sep : Byte) (s : GoString) :
    ∀ l ∈ callbacks.Split s sep, sep ∉ l := by
  induction s with
  | nil =>
    intro l hl
    have : callbacks.Split [] sep = [[]] := rfl
    rw [this, List.mem_singleton] at hl
    rw [hl]
    exact List.not_mem_nil _
  | cons c rest ih =>
    intro l hl
    by_cases hc : c = sep
    · rw [hc, callbacks.Split_cons_sep] at hl
      rcases List.mem_cons.1 hl with h | h
      · rw [h]
        exact List.not_mem_nil _
      · exact ih l h
    · obtain ⟨hd, tl, e, h2⟩ := callbacks.Split_cons_ne c rest sep hc
      rw [h2] at hl
      rcases List.mem_cons.1 hl with h | h
      · rw [h]
        intro hm
        rcases List.mem_cons.1 hm with h1 | h1
        · exact hc h1.symm
        · exact ih hd (by rw [e]; exact List.mem_cons_self _ _) h1
      · exact ih l (by rw [e]; exact List.mem_cons_of_mem _ h)

theorem Split_head_nil (rest : GoString) (tl : List GoString)
    (h : callbacks.Split rest 10 = [] :: tl) : rest = [] ∨ rest.head? = some 10 := by
  cases rest with
  | nil => exact Or.inl rfl
  | cons d r =>
    right
    by_cases hd : d = 10
    · rw [hd]
      rfl
    · obtain ⟨hd', tl', _, h2⟩ := callbacks.Split_cons_ne d r 10 hd
      rw [h2] at h
      simp at h

theorem trimLines_form (s hd : GoString) (tl : List GoString)
    (h : callbacks.Split s 10 = hd :: tl) :
    trimLines s = TrimRight hd [32, 9]
      ++ (if tl = [] then []
          else 10 :: Join (tl.map (fun ln => TrimRight ln [32, 9])) [10]) := by
  unfold trimLines
  rw [h, newline_eq, blanks_eq, List.map_cons]
  cases tl with
  | nil => simp [Join]
  | cons b r =>
    rw [Join_cons _ _ _ (by simp)]
    simp

theorem trimLines_nil : trimLines [] = [] := by decide

theorem trimLines_cons (c : Byte) (rest : GoString) :
    trimLines (c :: rest) =
      if c = 10 then 10 :: trimLines rest
      else if (c = 32 ∨ c = 9) ∧
          (trimLines rest = [] ∨ (trimLines rest).head? = some 10) then trimLines rest
      else c :: trimLines rest := by
  by_cases hc : c = 10
  · rw [if_pos hc, hc]
    obtain ⟨hd, tl, e⟩ : ∃ hd tl, callbacks.Split rest 10 = hd :: tl := by
      rcases hs : callbacks.Split rest 10 with _ | ⟨hd, tl⟩
      · exact absurd hs (callbacks.Split_ne_nil _ _)
      · exact ⟨hd, tl, rfl⟩
    rw [trimLines_form (10 :: rest) [] (hd :: tl) (by rw [callbacks.Split_cons_sep, e]),
      trimLines_form rest hd tl e]
    simp only [TrimRight_nil, List.nil_append, reduceCtorEq, if_false, List.map_cons]
    cases tl with
    | nil => simp [Join]
    | cons b r =>
      rw [Join_cons _ _ _ (by simp)]
      simp
  · rw [if_neg hc]
    obtain ⟨hd, tl, e, h2⟩ := callbacks.Split_cons_ne c rest 10 hc
    rw [trimLines_form (c :: rest) (c :: hd) tl h2, trimLines_form rest hd tl e,
      TrimRight_cons]
    have hZ : ∀ Z : GoString, (Z = if tl = [] then []
          else 10 :: Join (tl.map (fun ln => TrimRight ln [32, 9])) [10]) →
        (Z = [] ∨ Z.head? = some 10) := by
      intro Z hZ
      by_cases htl : tl = []
      · left
        rw [hZ, if_pos htl]
      · right
        rw [hZ, if_neg htl]
        rfl
    generalize hZdef : (if tl = [] then []
      else 10 :: Join (tl.map (fun ln => TrimRight ln [32, 9])) [10]) = Z
    have hZ' := hZ Z hZdef.symm
    have hmem : c ∈ [(32 : Byte), 9] ↔ (c = 32 ∨ c = 9) := by simp
    by_cases hT : TrimRight hd [32, 9] = []
    · rw [hT, List.nil_append]
      by_cases hb : c = 32 ∨ c = 9
      · rw [if_pos ⟨rfl, hmem.2 hb⟩, if_pos ⟨hb, hZ'⟩, List.nil_append]
      · rw [if_neg (fun h => hb (hmem.1 h.2)), if_neg (fun h => hb h.1)]
        rfl
    · rw [if_neg (fun h => hT h.1)]
      have hhead : ¬ (TrimRight hd [32, 9] ++ Z = [] ∨
          (TrimRight hd [32, 9] ++ Z).head? = some 10) := by
        rcases hTT : TrimRight hd [32, 9] with _ | ⟨a, t⟩
        · exact absurd hTT hT
        · rintro (h | h)
          · simp at h
          · simp only [List.cons_append, List.head?_cons, Option.some.injEq] at h
            have hpre := TrimRight_initial hd [32, 9]
            rw [hTT] at hpre
            have ha : a ∈ hd := hpre.subset (List.mem_cons_self _ _)
            rw [h] at ha
            exact Split_lines_no_sep 10 rest hd (by rw [e]; exact List.mem_cons_self _ _) ha
      rw [if_neg (fun h => hhead h.2)]
      rfl

theorem noTrailingBlank_cons_iff (c : Byte) (y : GoString) :
    noTrailingBlank (c :: y) ↔
      ((y = [] ∨ y.head? = some 10) → c ≠ 32 ∧ c ≠ 9) ∧ noTrailingBlank y := by
  cases y with
  | nil => simp [noTrailingBlank]
  | cons d r => simp [noTrailingBlank]

theorem noTrailingBlank_trimLines (s : GoString) : noTrailingBlank (trimLines s) := by
  induction s with
  | nil =>
    rw [trimLines_nil]
    trivial
  | cons c rest ih =>
    rw [trimLines_cons]
    by_cases hc : c = 10
    · rw [if_pos hc, noTrailingBlank_cons_iff]
      exact ⟨fun _ => by decide, ih⟩
    · rw [if_neg hc]
      by_cases hb : (c = 32 ∨ c = 9) ∧
          (trimLines rest = [] ∨ (trimLines rest).head? = some 10)
      · rw [if_pos hb]
        exact ih
      · rw [if_neg hb, noTrailingBlank_cons_iff]
        refine ⟨?_, ih⟩
        intro h2
        constructor
        · intro h32
          exact hb ⟨Or.inl h32, h2⟩
        · intro h9
          exact hb ⟨Or.inr h9, h2⟩

theorem trimLines_of_noTrailingBlank (y : GoString) (h : noTrailingBlank y) :
    trimLines y = y := by
  induction y with
  | nil => exact trimLines_nil
  | cons c rest ih =>
    rw [noTrailingBlank_cons_iff] at h
    rw [trimLines_cons, ih h.2]
    by_cases hc : c = 10
    · rw [if_pos hc, hc]
    · rw [if_neg hc, if_neg]
      rintro ⟨hb, h2⟩
      have := h.1 h2
      rcases hb with hb | hb
      · exact this.1 hb
      · exact this.2 hb

end github

namespace github

open utils strings

theorem collapseNewlines_cons (c : Byte) (rest : GoString) :
    collapseNewlines (c :: rest) =
      if c = 10 ∧ rest.take 2 = [10, 10] then collapseNewlines rest
      else c :: collapseNewlines rest := rfl

theorem collapseNewlines_head (y : GoString) : (collapseNewlines y).head? = y.head? := by
  induction y with
  | nil => rfl
  | cons c rest ih =>
    rw [collapseNewlines_cons]
    by_cases h : c = 10 ∧ rest.take 2 = [10, 10]
    · rw [if_pos h, ih, h.1]
      rcases rest with _ | ⟨d, r⟩
      · simp at h
      · have := h.2
        simp only [List.take_succ_cons, List.cons.injEq] at this
        rw [this.1]
        rfl
    · rw [if_neg h]
      rfl

theorem take_two_of_head (c : Byte) (y : GoString) (hy : y.head? = some 10) (hc : c = 10) :
    (c :: y).take 2 = [10, 10] := by
  cases y with
  | nil => cases hy
  | cons d r =>
    simp only [List.head?_cons, Option.some.injEq] at hy
    rw [hy, hc]
    rfl

theorem collapseNewlines_take_two (y : GoString)
    (h : (collapseNewlines y).take 2 = [10, 10]) : y.take 2 = [10, 10] := by
  cases y with
  | nil => simp [collapseNewlines] at h
  | cons c rest =>
    rw [collapseNewlines_cons] at h
    by_cases ht : c = 10 ∧ rest.take 2 = [10, 10]
    · rcases rest with _ | ⟨d, r⟩
      · simp at ht
      · have := ht.2
        simp only [List.take_succ_cons, List.cons.injEq] at this
        rw [ht.1, this.1]
        rfl
    · rw [if_neg ht] at h
      rcases hcr : collapseNewlines rest with _ | ⟨d, r⟩
      · rw [hcr] at h
        simp at h
      · rw [hcr] at h
        simp only [List.take_succ_cons, List.cons.injEq] at h
        have hh : (collapseNewlines rest).head? = some 10 := by rw [hcr, h.2.1]; rfl
        rw [collapseNewlines_head] at hh
        exact take_two_of_head c rest hh h.1

theorem noTripleNewline_cons_iff (c : Byte) (y : GoString) :
    noTripleNewline (c :: y) ↔ ¬ (c = 10 ∧ y.take 2 = [10, 10]) ∧ noTripleNewline y := by
  rcases y with _ | ⟨d, _ | ⟨e, r⟩⟩
  · simp [noTripleNewline]
  · simp [noTripleNewline]
  · simp [noTripleNewline]

theorem noTripleNewline_collapseNewlines (y : GoString) :
    noTripleNewline (collapseNewlines y) := by
  induction y with
  | nil => trivial
  | cons c rest ih =>
    rw [collapseNewlines_cons]
    by_cases ht : c = 10 ∧ rest.take 2 = [10, 10]
    · rw [if_pos ht]
      exact ih
    · rw [if_neg ht, noTripleNewline_cons_iff]
      exact ⟨fun h => ht ⟨h.1, collapseNewlines_take_two rest h.2⟩, ih⟩

theorem collapseNewlines_eq_nil (y : GoString) (h : collapseNewlines y = []) : y = [] := by
  have := collapseNewlines_head y
  rw [h] at this
  cases y with
  | nil => rfl
  | cons c r => cases this

theorem noTrailingBlank_collapseNewlines (y : GoString) (h : noTrailingBlank y) :
    noTrailingBlank (collapseNewlines y) := by
  induction y with
  | nil => trivial
  | cons c rest ih =>
    rw [noTrailingBlank_cons_iff] at h
    rw [collapseNewlines_cons]
    by_cases ht : c = 10 ∧ rest.take 2 = [10, 10]
    · rw [if_pos ht]
      exact ih h.2
    · rw [if_neg ht, noTrailingBlank_cons_iff]
      refine ⟨?_, ih h.2⟩
      rintro (h2 | h2)
      · exact h.1 (Or.inl (collapseNewlines_eq_nil rest h2))
      · rw [collapseNewlines_head] at h2
        exact h.1 (Or.inr h2)

theorem collapseNewlines_of_noTripleNewline (y : GoString) (h : noTripleNewline y) :
    collapseNewlines y = y := by
  induction y with
  | nil => rfl
  | cons c rest ih =>
    rw [noTripleNewline_cons_iff] at h
    rw [collapseNewlines_cons, if_neg h.1, ih h.2]

theorem noTrailingBlank_of_suffix (pre y : GoString) (h : noTrailingBlank (pre ++ y)) :
    noTrailingBlank y := by
  induction pre with
  | nil => exact h
  | cons c pre ih =>
    rw [List.cons_append, noTrailingBlank_cons_iff] at h
    exact ih h.2

theorem noTripleNewline_of_suffix (pre y : GoString) (h : noTripleNewline (pre ++ y)) :
    noTripleNewline y := by
  induction pre with
  | nil => exact h
  | cons c pre ih =>
    rw [List.cons_append, noTripleNewline_cons_iff] at h
    exact ih h.2

theorem noTripleNewline_of_initial (y suf : GoString) (h : noTripleNewline (y ++ suf)) :
    noTripleNewline y := by
  induction y with
  | nil => trivial
  | cons c y ih =>
    rw [List.cons_append, noTripleNewline_cons_iff] at h
    rw [noTripleNewline_cons_iff]
    refine ⟨?_, ih h.2⟩
    rintro ⟨hc, ht⟩
    apply h.1
    refine ⟨hc, ?_⟩
    rcases y with _ | ⟨d, _ | ⟨e, r⟩⟩
    · simp at ht
    · simp at ht
    · simpa using ht

theorem noTrailingBlank_of_initial (y suf : GoString) (h : noTrailingBlank (y ++ suf))
    (hlast : ∀ b, y.getLast? = some b → b ≠ 32 ∧ b ≠ 9) : noTrailingBlank y := by
  induction y with
  | nil => trivial
  | cons c y ih =>
    rw [List.cons_append, noTrailingBlank_cons_iff] at h
    rw [noTrailingBlank_cons_iff]
    constructor
    · rintro (h2 | h2)
      · rw [h2] at hlast
        exact hlast c rfl
      · apply h.1
        right
        cases y with
        | nil => cases h2
        | cons d r => exact h2
    · apply ih h.2
      intro b hb
      apply hlast b
      cases y with
      | nil => cases hb
      | cons d r =>
        rw [List.getLast?_cons_cons]
        exact hb

theorem lines_of_noTrailingBlank (x : GoString) (h : noTrailingBlank x) :
    ∀ l ∈ callbacks.Split x 10, l.getLast? ≠ some 32 ∧ l.getLast? ≠ some 9 := by
  induction x with
  | nil =>
    intro l hl
    have : callbacks.Split [] 10 = [[]] := rfl
    rw [this, List.mem_singleton] at hl
    rw [hl]
    simp
  | cons c rest ih =>
    rw [noTrailingBlank_cons_iff] at h
    intro l hl
    by_cases hc : c = 10
    · rw [hc, callbacks.Split_cons_sep] at hl
      rcases List.mem_cons.1 hl with hl | hl
      · rw [hl]
        simp
      · exact ih h.2 l hl
    · obtain ⟨hd, tl, e, h2⟩ := callbacks.Split_cons_ne c rest 10 hc
      rw [h2] at hl
      rcases List.mem_cons.1 hl with hl | hl
      · rw [hl]
        cases hd with
        | nil =>
          have := h.1 (Split_head_nil rest tl e)
          simp only [List.getLast?_singleton, ne_eq, Option.some.injEq]
          exact this
        | cons d r =>
          rw [List.getLast?_cons_cons]
          exact ih h.2 (d :: r) (by rw [e]; exact List.mem_cons_self _ _)
      · exact ih h.2 l (by rw [e]; exact List.mem_cons_of_mem _ hl)

theorem no_infix_of_noTripleNewline (x : GoString) (h : noTripleNewline x) :
    ¬ ([10, 10, 10] <:+: x) := by
  rintro ⟨s, t, hst⟩
  rw [← hst, List.append_assoc] at h
  have := noTripleNewline_of_suffix s _ h
  simp [noTripleNewline] at this

end github

namespace github

open utils strings

theorem normalizeMessage_nil : normalizeMessage [] = [] := rfl

theorem normalizeMessage_invariants (s : GoString) :
    noTrailingBlank (normalizeMessage s) ∧ noTripleNewline (normalizeMessage s) ∧
    (normalizeMessage s = [] ∨
      (IsSpace (DecodeRuneInString (normalizeMessage s)).1 = false ∧
        IsSpace (DecodeLastRuneInString (normalizeMessage s)).1 = false)) := by
  by_cases hs : s = []
  · rw [hs, normalizeMessage_nil]
    exact ⟨trivial, trivial, Or.inl rfl⟩
  · have hN : normalizeMessage s = TrimSpace (collapseNewlines (trimLines s)) := by
      simp only [normalizeMessage, hs, if_false]
    rw [hN]
    have hB := noTrailingBlank_collapseNewlines _ (noTrailingBlank_trimLines s)
    have hT := noTripleNewline_collapseNewlines (trimLines s)
    obtain ⟨pre, suf, hx⟩ := TrimSpace_slice (collapseNewlines (trimLines s))
    have hends := TrimSpace_ends (collapseNewlines (trimLines s))
    generalize TrimSpace (collapseNewlines (trimLines s)) = out at hx hends
    rw [hx, List.append_assoc] at hB hT
    refine ⟨?_, noTripleNewline_of_initial out suf (noTripleNewline_of_suffix pre _ hT), hends⟩
    apply noTrailingBlank_of_initial out suf (noTrailingBlank_of_suffix pre _ hB)
    intro b hb
    rcases hends with h0 | ⟨_, h2⟩
    · rw [h0] at hb
      cases hb
    · have := last_byte_of_last_rune out b hb h2
      exact ⟨fun h => this.2.2.2.2.2 (by rw [h]; rfl), fun h => this.1 (by rw [h]; rfl)⟩

theorem normalizeMessage_idempotent (s : GoString) :
    normalizeMessage (normalizeMessage s) = normalizeMessage s := by
  obtain ⟨hB, hT, hends⟩ := normalizeMessage_invariants s
  generalize normalizeMessage s = out at hB hT hends
  by_cases ho : out = []
  · rw [ho]
    rfl
  · simp only [normalizeMessage, ho, if_false]
    rw [trimLines_of_noTrailingBlank out hB, collapseNewlines_of_noTripleNewline out hT,
      TrimSpace_id out hends]

/-- C27: for every string `s`, no line of `normalizeMessage(s)` ends in a
space or a tab, `normalizeMessage(s)` holds no three newlines in a row, and it
is empty or neither begins nor ends with white space (its first and its last
rune are not white space as defined by Unicode). `normalizeMessage` is
idempotent and maps the empty string to the empty string. -/
theorem C27_normalizeMessage_shape (s : GoString) :
    (∀ l ∈ callbacks.Split (normalizeMessage s) 10,
      l.getLast? ≠ some 32 ∧ l.getLast? ≠ some 9) ∧
    ¬ ([10, 10, 10] <:+: normalizeMessage s) ∧
    (normalizeMessage s = [] ∨
      (IsSpace (DecodeRuneInString (normalizeMessage s)).1 = false ∧
        IsSpace (DecodeLastRuneInString (normalizeMessage s)).1 = false)) ∧
    normalizeMessage (normalizeMessage s) = normalizeMessage s ∧
    normalizeMessage [] = [] :=
  ⟨lines_of_noTrailingBlank _ (normalizeMessage_invariants s).1,
    no_infix_of_noTripleNewline _ (normalizeMessage_invariants s).2.1,
    (normalizeMessage_invariants s).2.2, normalizeMessage_idempotent s, rfl⟩

/-- C27 on a text with trailing blanks, lines of blanks only, a run of
newlines and white space at both ends (an ideographic space among it): the
lines of blanks count as empty and the run becomes two newlines. -/
theorem C27_normalizeMessage_shape_witness :
    normalizeMessage (utf8 " 　a  \n \t\n\n \nb \t\n\n") = ascii "a\n\nb" ∧
    normalizeMessage (ascii " \n\t ") = [] ∧
    normalizeMessage (normalizeMessage (utf8 " 　a  \n \t\n\n \nb \t\n\n"))
      = normalizeMessage (utf8 " 　a  \n \t\n\n \nb \t\n\n") :=
  ⟨by decide, by decide,
    (C27_normalizeMessage_shape (utf8 " 　a  \n \t\n\n \nb \t\n\n")).2.2.2.1⟩

end github

namespace cache

namespace Cache

variable {K V : Type} [DecidableEq K]

/-! ## `Get` and `Cleanup` step by step, with a `Set` in between -/

theorem Get_eq_steps [Inhabited V] (c : Cache K V) (now : Time) (key : K) :
    c.getFinish now key (c.getLoad key) = c.Get now key := by
  unfold Get getFinish getLoad
  cases c.items.Load key <;> rfl

theorem Cleanup_eq_visits (c : Cache K V) (now : Time) :
    c.Cleanup now
      = ⟨c.items.Range (fun key itm m => ((cleanupVisit ⟨m⟩ now key itm).items, true))⟩ := by
  unfold Cleanup
  congr 2
  funext key itm m
  unfold cleanupVisit
  split <;> rfl

theorem getAroundSet_expired [Inhabited V] (c : Cache K V) (key : K) (old : item V)
    (value : V) (ttl : Duration) (tSet tTest : Time)
    (hold : c.items.Load key = some old) (hexp : old.expiration < tTest) :
    c.getAroundSet tSet tTest key value ttl
      = ((default, false), ⟨(c.Set tSet key value ttl).items.Delete key⟩) := by
  have ha : Time.After tTest old.expiration = true := by
    simp only [Time.After, decide_eq_true_eq]; exact hexp
  simp only [getAroundSet, getLoad, hold, getFinish, ha, if_true]

theorem cleanupVisitAroundSet_expired (c : Cache K V) (key : K) (old : item V)
    (value : V) (ttl : Duration) (tSet tTest : Time)
    (hold : c.items.Load key = some old) (hexp : old.expiration < tTest) :
    c.cleanupVisitAroundSet tSet tTest key value ttl
      = ⟨(c.Set tSet key value ttl).items.Delete key⟩ := by
  have ha : Time.After tTest old.expiration = true := by
    simp only [Time.After, decide_eq_true_eq]; exact hexp
  simp only [cleanupVisitAroundSet, hold, cleanupVisit, ha, if_true]

/-- C26: `Get` makes its `Load` (line 32), its expiry test (line 39) and its
`Delete` by key (line 40) as separate steps, and so does the callback of
`Cleanup` on the pair that `Range` has read (lines 56 to 58). With no other
caller in between, the steps are `Get` and `Cleanup`. But when a `Set` on the
same key by another caller completes between the `Load` of an expired entry
and the `Delete`, the `Delete` removes the entry that the `Set` wrote, which
has not expired: the key is absent afterwards, and a later `Get` within the
time to live, which after the `Set` alone returns the value of the `Set`,
returns the zero value and `false`. -/
theorem C26_concurrent_set_lost [Inhabited V] (c : Cache K V) (key : K) (old : item V)
    (value : V) (ttl : Duration) (tSet tTest t'' : Time)
    (hold : c.items.Load key = some old) (hexp : old.expiration < tTest)
    (_h1 : tSet ≤ tTest) (h2 : tTest ≤ t'') (h3 : t'' ≤ tSet + ttl) :
    ((∀ now k, c.getFinish now k (c.getLoad k) = c.Get now k) ∧
      c.Cleanup tTest
        = ⟨c.items.Range
            (fun k itm m => ((cleanupVisit ⟨m⟩ tTest k itm).items, true))⟩) ∧
    ((c.Set tSet key value ttl).items.Load key
        = some { value := value, expiration := tSet + ttl } ∧
      Time.After tTest (tSet + ttl) = false ∧
      ((c.Set tSet key value ttl).Get t'' key).1 = (value, true)) ∧
    ((c.getAroundSet tSet tTest key value ttl).1 = (default, false) ∧
      (c.getAroundSet tSet tTest key value ttl).2.items.Load key = none ∧
      ((c.getAroundSet tSet tTest key value ttl).2.Get t'' key).1 = (default, false)) ∧
    ((c.cleanupVisitAroundSet tSet tTest key value ttl).items.Load key = none ∧
      ((c.cleanupVisitAroundSet tSet tTest key value ttl).Get t'' key).1
        = (default, false)) := by
  have hG := getAroundSet_expired c key old value ttl tSet tTest hold hexp
  have hC := cleanupVisitAroundSet_expired c key old value ttl tSet tTest hold hexp
  have hnone : (⟨(c.Set tSet key value ttl).items.Delete key⟩ : Cache K V).items.Load key
      = none := SyncMap.Load_Delete_self _ _
  refine ⟨⟨fun now k => Get_eq_steps c now k, Cleanup_eq_visits c tTest⟩,
    ⟨Load_Set_self c tSet key value ttl, ?_, ?_⟩, ⟨?_, ?_, ?_⟩, ⟨?_, ?_⟩⟩
  · simp only [Time.After, decide_eq_false_iff_not, not_lt]
    exact le_trans h2 h3
  · rw [Get_of_Load_live _ t'' key _ (Load_Set_self c tSet key value ttl) h3]
  · rw [hG]
  · rw [hG]; exact hnone
  · rw [hG, Get_of_Load_none _ t'' key hnone]
  · rw [hC]; exact hnone
  · rw [hC, Get_of_Load_none _ t'' key hnone]

/-- C26 on a cache whose entry of "k" expired at 10: a `Set` at 20 with a
time to live of 50 that falls between the `Load` and the `Delete` of a `Get`
is lost, and a `Get` at 30 misses; after the `Set` alone the `Get` at 30
returns the value 9. -/
theorem C26_concurrent_set_lost_witness :
    ((New : Cache String Nat).Set 0 "k" 7 10).items.Load "k"
      = some { value := 7, expiration := 10 } ∧
    (10 : Int) < 21 ∧ (20 : Int) ≤ 21 ∧ (21 : Int) ≤ 30 ∧ (30 : Int) ≤ 20 + 50 ∧
    ((((New : Cache String Nat).Set 0 "k" 7 10).Set 20 "k" 9 50).Get 30 "k").1
      = (9, true) ∧
    ((((New : Cache String Nat).Set 0 "k" 7 10).getAroundSet 20 21 "k" 9 50).2.Get
      30 "k").1 = (default, false) ∧
    ((((New : Cache String Nat).Set 0 "k" 7 10).cleanupVisitAroundSet 20 21 "k" 9 50).Get
      30 "k").1 = (default, false) :=
  ⟨by decide, by decide, by decide, by decide, by decide,
    (C26_concurrent_set_lost ((New : Cache String Nat).Set 0 "k" 7 10) "k"
      { value := 7, expiration := 10 } 9 50 20 21 30 (by decide) (by decide) (by decide)
      (by decide) (by decide)).2.1.2.2,
    (C26_concurrent_set_lost ((New : Cache String Nat).Set 0 "k" 7 10) "k"
      { value := 7, expiration := 10 } 9 50 20 21 30 (by decide) (by decide) (by decide)
      (by decide) (by decide)).2.2.1.2.2,
    (C26_concurrent_set_lost ((New : Cache String Nat).Set 0 "k" 7 10) "k"
      { value := 7, expiration := 10 } 9 50 20 21 30 (by decide) (by decide) (by decide)
      (by decide) (by decide)).2.2.2.2⟩

end Cache

end cache
